import Mathlib

/-!
# Streaming audio analysis engine: embedding and verified properties

Shallow embedding of the numeric pipeline of the analyser
(`enhanced-audio-analyzer.js`, `frequency-ecosystem.js`, `spectral-migration.js`,
`emotional-resonance.js`, `phase-coherence.js`).

Conventions of the embedding:

* JavaScript numbers are modelled by exact numbers: samples, powers and energies are
  elements of a field (`ℝ` where `Math.sqrt`, `Math.log10`, `Math.log2` or `Math.pow`
  occur; an arbitrary linearly ordered field where only `+ - * /` and comparisons occur,
  so that those definitions also run on `ℚ`). Rounding of IEEE arithmetic is not modelled:
  a result marked *exact arithmetic* is a fact about the expression that the source
  evaluates, read over the real numbers, and the source, which evaluates it in doubles,
  can miss it by rounding.
* `-Infinity` is modelled by `⊥ : WithBot ℝ` in the places where the source can produce
  it from real inputs (`Math.log10(0)`, `Math.max()` of no arguments, silent dB bins).
* A loop whose termination depends on the input takes a `fuel : ℕ`; running out of fuel
  is `none`.
-/

namespace AudioEngine

/-! ## `enhanced-audio-analyzer.js`: the worker's metric functions -/

/-- JavaScript `applyFilters(data, filters)`: in the source this is a placeholder that returns its
input unchanged (the K-weighting coefficients of `createKWeightingFilters` are unused). -/
def applyFilters {α : Type} (data : List α) : List α := data

/-- The `powers` array of `calculateLUFS`:
`powers[i] = leftWeighted[i] * leftWeighted[i] + rightWeighted[i] * rightWeighted[i]`
(for channels of equal length). -/
def channelPowers {α : Type} [Field α] (leftWeighted rightWeighted : List α) : List α :=
  List.zipWith (fun l r => l * l + r * r) leftWeighted rightWeighted

/-- The block loop of `calculateLUFS`:
`for (let i = 0; i < powers.length - blockSize; i += blockSize / 4) { ... blocks.push(blockPower) }`.
The loop variable `i` is a JavaScript number that may be fractional (`blockSize / 4`), so
it is kept as a rational; `powers.slice(i, i + blockSize)` truncates both bounds to
integers and clips at the end of the array. `fuel` bounds the number of loop tests;
`none` means that the loop has not finished within `fuel` tests. -/
def blockLoop {α : Type} [Field α] (powers : List α) (blockSize : ℕ) :
    ℕ → ℚ → List α → Option (List α)
  | 0, _, _ => none
  | fuel + 1, i, blocks =>
    if i < (powers.length : ℚ) - (blockSize : ℚ) then
      let blockSum := ((powers.drop ⌊i⌋₊).take blockSize).sum
      let blockPower := blockSum / (blockSize : α)
      blockLoop powers blockSize fuel (i + (blockSize : ℚ) / 4) (blocks ++ [blockPower])
    else some blocks

/-- JavaScript `xs.reduce((sum, val) => sum + val, 0) / xs.length`. -/
def arrayMean {α : Type} [Field α] (xs : List α) : α := xs.sum / (xs.length : α)

/-- JavaScript `Math.log10` on a non-negative real; `⊥` is `-Infinity`, the value at `0`.
(Negative arguments, where JavaScript yields `NaN`, do not occur: every argument in the
source is a mean of sums of squares.) -/
noncomputable def log10 (x : ℝ) : WithBot ℝ :=
  if x = 0 then ⊥ else ((Real.logb 10 x : ℝ) : WithBot ℝ)

/-- JavaScript `-0.691 + 10 * Math.log10(power)`. -/
noncomputable def lufsOfPower (power : ℝ) : WithBot ℝ :=
  (log10 power).map (fun l => -0.691 + 10 * l)

/-- JavaScript `Math.pow(10, (ungatedLUFS - 10) / 10)`; `Math.pow(10, -Infinity)` is `0`. -/
noncomputable def relativeThresholdOf : WithBot ℝ → ℝ
  | none => 0
  | some ungatedLUFS => (10 : ℝ) ^ ((ungatedLUFS - 10) / 10)

/-- JavaScript `ungatedMean` of `calculateLUFS`. -/
noncomputable def ungatedMean (blocks : List ℝ) : ℝ := arrayMean blocks

/-- JavaScript `ungatedLUFS = -0.691 + 10 * Math.log10(ungatedMean)`. -/
noncomputable def ungatedLUFS (blocks : List ℝ) : WithBot ℝ := lufsOfPower (ungatedMean blocks)

/-- JavaScript `relativeThreshold = Math.pow(10, (ungatedLUFS - 10) / 10)`. -/
noncomputable def relativeThreshold (blocks : List ℝ) : ℝ :=
  relativeThresholdOf (ungatedLUFS blocks)

/-- JavaScript `gatedBlocks = blocks.filter(block => block > relativeThreshold)`. -/
noncomputable def gatedBlocks (blocks : List ℝ) : List ℝ :=
  blocks.filter (fun block => decide (block > relativeThreshold blocks))

/-- JavaScript `gatedMean`, the mean whose loudness is `integratedLUFS`. -/
noncomputable def gatedMean (blocks : List ℝ) : ℝ := arrayMean (gatedBlocks blocks)

/-- The object returned by `calculateLUFS`. -/
structure LUFS where
  integrated : WithBot ℝ
  shortTerm : WithBot ℝ
  momentary : WithBot ℝ

/-- The silence floor `{ integrated: -70, shortTerm: -70, momentary: -70 }`. -/
def LUFS.floor : LUFS := ⟨((-70 : ℝ) : WithBot ℝ), ((-70 : ℝ) : WithBot ℝ), ((-70 : ℝ) : WithBot ℝ)⟩

/-- The blocks pushed by the block loop of `calculateLUFS` for the given channels. -/
noncomputable def lufsBlocks (fuel : ℕ) (channelDataL channelDataR : List ℝ) (sampleRate : ℝ) :
    Option (List ℝ) :=
  blockLoop (channelPowers (applyFilters channelDataL) (applyFilters channelDataR))
    ⌊sampleRate * 0.4⌋₊ fuel 0 []

/-- JavaScript `calculateLUFS(channelDataL, channelDataR, sampleRate)` for a positive sample rate.
`none` means that the block loop did not finish within `fuel` tests. -/
noncomputable def calculateLUFS (fuel : ℕ) (channelDataL channelDataR : List ℝ) (sampleRate : ℝ) :
    Option LUFS :=
  let powers := channelPowers (applyFilters channelDataL) (applyFilters channelDataR)
  match lufsBlocks fuel channelDataL channelDataR sampleRate with
  | none => none
  | some blocks =>
    if blocks.length = 0 then some LUFS.floor
    else if (gatedBlocks blocks).length = 0 then some LUFS.floor
    else
      let integratedLUFS := lufsOfPower (gatedMean blocks)
      let shortTermSize := min powers.length ⌊sampleRate * 3⌋₊
      let shortTermPower := (powers.take shortTermSize).sum / (shortTermSize : ℝ)
      let shortTermLUFS := lufsOfPower shortTermPower
      let momentarySize := min powers.length ⌊sampleRate * 0.4⌋₊
      let momentaryPower := (powers.take momentarySize).sum / (momentarySize : ℝ)
      let momentaryLUFS := lufsOfPower momentaryPower
      some ⟨integratedLUFS, shortTermLUFS, momentaryLUFS⟩

/-- The three running sums of `calculatePhaseCorrelation`, as the triple
`(sumSquaredL, sumSquaredR, sumProduct)` after the loop over the sample index (channels
of equal length). -/
def phaseSums {α : Type} [Field α] (channelDataL channelDataR : List α) : α × α × α :=
  (List.zip channelDataL channelDataR).foldl
    (fun (acc : α × α × α) (s : α × α) =>
      (acc.1 + s.1 * s.1, acc.2.1 + s.2 * s.2, acc.2.2 + s.1 * s.2))
    (0, 0, 0)

/-- JavaScript `calculatePhaseCorrelation(channelDataL, channelDataR)`. -/
noncomputable def calculatePhaseCorrelation (channelDataL channelDataR : List ℝ) : ℝ :=
  let sums := phaseSums channelDataL channelDataR
  let sumSquaredL := sums.1
  let sumSquaredR := sums.2.1
  let sumProduct := sums.2.2
  if sumSquaredL = 0 ∨ sumSquaredR = 0 then 0
  else sumProduct / Real.sqrt (sumSquaredL * sumSquaredR)

/-- The worker's `detectClipping(channelDataL, channelDataR, threshold)`: one pass over
the sample index, `clipCount++` at every index where either channel exceeds the threshold
in absolute value (channels of equal length). -/
def detectClipping {α : Type} [LinearOrderedField α] (channelDataL channelDataR : List α)
    (threshold : α) : ℕ :=
  (List.zip channelDataL channelDataR).foldl
    (fun clipCount s =>
      if |s.1| > threshold ∨ |s.2| > threshold then clipCount + 1 else clipCount)
    0

/-- The two running sums of `calculateStereoWidth`, as the pair `(midEnergy, sideEnergy)`
after the loop over the sample index (channels of equal length). -/
def stereoEnergies {α : Type} [Field α] (channelDataL channelDataR : List α) : α × α :=
  (List.zip channelDataL channelDataR).foldl
    (fun (acc : α × α) (s : α × α) =>
      let mid := (s.1 + s.2) / 2
      let side := (s.1 - s.2) / 2
      (acc.1 + mid * mid, acc.2 + side * side))
    (0, 0)

/-- JavaScript `calculateStereoWidth(channelDataL, channelDataR)`. -/
def calculateStereoWidth {α : Type} [LinearOrderedField α]
    (channelDataL channelDataR : List α) : α :=
  let energies := stereoEnergies channelDataL channelDataR
  let midEnergy := energies.1
  let sideEnergy := energies.2
  if midEnergy + sideEnergy = 0 then 0
  else (sideEnergy / (midEnergy + sideEnergy)) * 100

end AudioEngine

/-! ## `enhanced-audio-analyzer.js`: `WaveformController` -/

namespace WaveformController

/-- An entry `{ channel, position, length }` of `clippingPoints`. -/
structure ClippingPoint where
  channel : String
  position : ℤ
  length : ℕ
  deriving DecidableEq

/-- One step of a channel loop of `WaveformController.detectClipping` at sample `i`;
the state is `(currentRun, clippingPoints)`. -/
def runStep {α : Type} [LinearOrderedField α] (channel : String) (threshold : α)
    (st : ℕ × List ClippingPoint) (sample : ℕ × α) : ℕ × List ClippingPoint :=
  if |sample.2| > threshold then
    let currentRun := st.1 + 1
    if currentRun ≥ 3 then
      (currentRun, st.2 ++ [{ channel := channel,
                              position := (sample.1 : ℤ) - (currentRun : ℤ) + 1,
                              length := currentRun }])
    else (currentRun, st.2)
  else (0, st.2)

/-- JavaScript `WaveformController.detectClipping()` on the latest frame: the left channel loop, then
`currentRun = 0` and the right channel loop, with the fixed threshold `0.98`. The result
is the new `clippingPoints` array. -/
def detectClipping {α : Type} [LinearOrderedField α] (left right : List α) :
    List ClippingPoint :=
  let threshold : α := 98 / 100
  let afterLeft := left.enum.foldl (runStep "left" threshold) (0, [])
  (right.enum.foldl (runStep "right" threshold) (0, afterLeft.2)).2

end WaveformController

/-! ## Bounded histories -/

namespace History

/-- The pattern `history.push(x); if (history.length > historyLength) history.shift();`
used for `energyHistory`, `spectrumHistory` and the band histories. -/
def pushShift {α : Type} (history : List α) (x : α) (historyLength : ℤ) : List α :=
  let pushed := history ++ [x]
  if (pushed.length : ℤ) > historyLength then pushed.tail else pushed

end History

/-! ## `enhanced-audio-analyzer.js`: `LUFSMeterController` -/

namespace LUFSMeterController

/-- An entry `{ momentary, shortTerm, integrated }` of `lufsHistory` (time stamp left
out). -/
structure HistoryEntry where
  momentary : ℝ
  shortTerm : ℝ
  integrated : ℝ

/-- The display state of a `LUFSMeterController` (`historyLength` non-negative). -/
structure State where
  currentMomentary : ℝ
  currentShortTerm : ℝ
  currentIntegrated : ℝ
  momentarySmoothing : ℝ
  shortTermSmoothing : ℝ
  integratedSmoothing : ℝ
  lufsHistory : List HistoryEntry
  historyLength : ℕ

/-- The display state set by the constructor. -/
noncomputable def initialState (historyLength : ℕ) : State :=
  { currentMomentary := -70, currentShortTerm := -70, currentIntegrated := -70,
    momentarySmoothing := 0.2, shortTermSmoothing := 0.1, integratedSmoothing := 0.05,
    lufsHistory := [], historyLength := historyLength }

/-- One smoothing statement of `updateMetrics`:
`if (value > -70) current += (value - current) * smoothing`. The value is a loudness
returned by `calculateLUFS`; `-Infinity` does not pass the test. -/
noncomputable def smoothToward (current : ℝ) (value : WithBot ℝ) (smoothing : ℝ) : ℝ :=
  match value with
  | none => current
  | some v => if v > -70 then current + (v - current) * smoothing else current

/-- JavaScript `updateMetrics(metrics)`; the argument is `metrics.lufs` (`none` when the
metrics carry no loudness). The `while` loop shifts the history down to `historyLength`
entries. -/
noncomputable def updateMetrics (s : State) (lufs : Option AudioEngine.LUFS) : State :=
  match lufs with
  | none => s
  | some lufs =>
    let currentMomentary := smoothToward s.currentMomentary lufs.momentary s.momentarySmoothing
    let currentShortTerm := smoothToward s.currentShortTerm lufs.shortTerm s.shortTermSmoothing
    let currentIntegrated :=
      smoothToward s.currentIntegrated lufs.integrated s.integratedSmoothing
    let pushed := s.lufsHistory ++ [{ momentary := currentMomentary,
                                      shortTerm := currentShortTerm,
                                      integrated := currentIntegrated }]
    { s with
      currentMomentary := currentMomentary
      currentShortTerm := currentShortTerm
      currentIntegrated := currentIntegrated
      lufsHistory := pushed.drop (pushed.length - s.historyLength) }

/-- The state after `n` calls of `updateMetrics` with the same loudness triple. -/
noncomputable def updateRepeatedly (s : State) (lufs : AudioEngine.LUFS) : ℕ → State
  | 0 => s
  | n + 1 => updateMetrics (updateRepeatedly s lufs n) (some lufs)

end LUFSMeterController

/-! ## Band energies: the loop shared by the three `calculateBandEnergies` methods -/

namespace BandEnergy

/-- JavaScript `Math.pow(10, dB / 20)`: the linear magnitude of a dB bin. A silent bin is reported
by the analyser node as `-Infinity` (`⊥`), whose magnitude is `0`. -/
noncomputable def dbToMagnitude : WithBot ℝ → ℝ
  | none => 0
  | some dB => (10 : ℝ) ^ (dB / 20)

/-- JavaScript `energies[bandIndex] += magnitude` for an index inside the array. -/
def addAt {α : Type} [Add α] : List α → ℕ → α → List α
  | [], _, _ => []
  | e :: es, 0, m => (e + m) :: es
  | e :: es, k + 1, m => e :: addAt es k m

/-- The body of the bin loop common to the three `calculateBandEnergies` methods, for
the bin `(i, (freqDataL[i], freqDataR[i]))`: the frequency of the bin is
`i * sampleRate / fftSize` with `sampleRate = 44100`; when the band lookup is accepted
(`bandIndex >= 0`, respectively `band !== -1`), the mean of the two channel magnitudes is
added to that band. -/
noncomputable def binStep (lookup : ℝ → ℤ) (accept : ℤ → Bool) (fftSize : ℝ)
    (energies : List ℝ) (bin : ℕ × WithBot ℝ × WithBot ℝ) : List ℝ :=
  let sampleRate : ℝ := 44100
  let frequency := (bin.1 : ℝ) * sampleRate / fftSize
  let bandIndex := lookup frequency
  if accept bandIndex then
    let magnitudeL := dbToMagnitude bin.2.1
    let magnitudeR := dbToMagnitude bin.2.2
    let magnitude := (magnitudeL + magnitudeR) / 2
    addAt energies bandIndex.toNat magnitude
  else energies

/-- The accumulation loop common to the three `calculateBandEnergies` methods:
`energies` starts as `bandCount` zeros, `fftSize = freqDataL.length * 2`, and the bins
`i = 0 .. freqDataL.length - 1` are processed in order (channels of equal length). -/
noncomputable def accumulateBins (bandCount : ℕ) (lookup : ℝ → ℤ) (accept : ℤ → Bool)
    (freqDataL freqDataR : List (WithBot ℝ)) : List ℝ :=
  let fftSize : ℝ := (freqDataL.length : ℝ) * 2
  (List.zip freqDataL freqDataR).enum.foldl (binStep lookup accept fftSize)
    (List.replicate bandCount 0)

/-- The guarded normalisation of `FrequencyRelationshipEcosystem.calculateBandEnergies`:
`const maxEnergy = Math.max(...energies); if (maxEnergy > 0) energies[i] /= maxEnergy`.
`Math.max()` of no arguments is `-Infinity` (`⊥`). -/
noncomputable def normalizeByMax (energies : List ℝ) : List ℝ :=
  match energies.maximum with
  | none => energies
  | some maxEnergy => if maxEnergy > 0 then energies.map (fun e => e / maxEnergy) else energies

/-- JavaScript `Math.max(...energies, 0.0001)`. -/
noncomputable def maxWithFloor (energies : List ℝ) : ℝ := energies.foldr max 0.0001

/-- The normalisation of `SpectralMigrationAnalyzer.calculateBandEnergies` and of
`EmotionalResonanceTranslator.calculateBandEnergies`:
`const maxEnergy = Math.max(...energies, 0.0001); energies[i] /= maxEnergy`. -/
noncomputable def normalizeByMaxFloor (energies : List ℝ) : List ℝ :=
  energies.map (fun e => e / maxWithFloor energies)

end BandEnergy

/-! ## `frequency-ecosystem.js` -/

namespace FrequencyRelationshipEcosystem

/-- A band produced by `generateFrequencyBands` (the note name and octave, which only
label the node, are left out). -/
structure Band where
  minFreq : ℝ
  centerFreq : ℝ
  maxFreq : ℝ

/-- The scan of `findBandIndex` from position `i` on. -/
noncomputable def findBandIndexFrom (frequency : ℝ) : List Band → ℕ → ℤ
  | [], _ => -1
  | band :: rest, i =>
    if frequency ≥ band.minFreq ∧ frequency < band.maxFreq then (i : ℤ)
    else findBandIndexFrom frequency rest (i + 1)

/-- JavaScript `findBandIndex(frequency)`: the first band with `minFreq <= frequency < maxFreq`,
or `-1`. -/
noncomputable def findBandIndex (frequencyBands : List Band) (frequency : ℝ) : ℤ :=
  findBandIndexFrom frequency frequencyBands 0

/-- The `energies` array of `calculateBandEnergies` before normalisation. -/
noncomputable def bandEnergySums (frequencyBands : List Band)
    (freqDataL freqDataR : List (WithBot ℝ)) : List ℝ :=
  BandEnergy.accumulateBins frequencyBands.length (findBandIndex frequencyBands)
    (fun bandIndex => decide (bandIndex ≥ 0)) freqDataL freqDataR

/-- JavaScript `calculateBandEnergies(freqDataL, freqDataR)`. -/
noncomputable def calculateBandEnergies (frequencyBands : List Band)
    (freqDataL freqDataR : List (WithBot ℝ)) : List ℝ :=
  BandEnergy.normalizeByMax (bandEnergySums frequencyBands freqDataL freqDataR)

/-- JavaScript `Math.round`: the nearest integer, ties towards `+Infinity`. -/
noncomputable def mathRound (x : ℝ) : ℤ := ⌊x + 1 / 2⌋

/-- JavaScript `isNearInteger(value, tolerance)`. -/
noncomputable def isNearInteger (value tolerance : ℝ) : Bool :=
  let nearest := mathRound value
  decide (|value - (nearest : ℝ)| < tolerance)

/-- JavaScript `getRelationshipType(bandA, bandB, correlation)`; `none` stands for the `TypeError`
of reading `centerFreq` of a band that does not exist. The centre frequencies are taken
to be positive. -/
noncomputable def getRelationshipType (frequencyBands : List Band) (bandA bandB : ℕ)
    (correlation : ℝ) : Option String :=
  match frequencyBands[bandA]?, frequencyBands[bandB]? with
  | some a, some b =>
    let freqA := a.centerFreq
    let freqB := b.centerFreq
    let ratio := freqB / freqA
    let isHarmonic := isNearInteger ratio 0.05 || isNearInteger (1 / ratio) 0.05
    let semitones := 12 * Real.logb 2 (freqB / freqA)
    let roundedSemitones := mathRound semitones
    let isMusical := decide (|semitones - (roundedSemitones : ℝ)| < 0.1)
    if correlation > 0.6 then
      some (if isHarmonic then "harmonic" else (if isMusical then "musical" else "synergistic"))
    else if correlation > 0.3 then some "cooperative"
    else if correlation < -0.6 then some "conflicting"
    else if correlation < -0.3 then some "competing"
    else some "neutral"
  | _, _ => none

/-- A node of the ecosystem: the smoothed band energy and the node size (position,
colour and label left out). -/
structure Node where
  energy : ℝ
  size : ℝ

/-- A value of the `harmonicRelationships` map; `type` is `none` only where
`getRelationshipType` would throw. -/
structure Relationship where
  source : ℕ
  target : ℕ
  correlation : ℝ
  type : Option String

/-- The analysis state of a `FrequencyRelationshipEcosystem`; `harmonicRelationships` is
the map in insertion order (its key is the pair `source-target`). -/
structure State where
  frequencyBands : List Band
  interactionThreshold : ℝ
  nodeSizeBase : ℝ
  nodeSizeScale : ℝ
  nodes : List Node
  energyHistory : List (List ℝ)
  historyLength : ℤ
  harmonicRelationships : List Relationship
  conflictingPairs : List (ℕ × ℕ)
  dominantFrequencies : List ℕ

/-- JavaScript `calculateBandCorrelation(bandA, bandB)` on the energy history, for band
indices inside every frame. -/
noncomputable def calculateBandCorrelation (energyHistory : List (List ℝ)) (bandA bandB : ℕ) :
    ℝ :=
  let energiesA := energyHistory.map (fun frame => frame.getD bandA 0)
  let energiesB := energyHistory.map (fun frame => frame.getD bandB 0)
  let meanA := energiesA.sum / (energiesA.length : ℝ)
  let meanB := energiesB.sum / (energiesB.length : ℝ)
  let sums := (List.zip energiesA energiesB).foldl
    (fun (acc : ℝ × ℝ × ℝ) (e : ℝ × ℝ) =>
      let diffA := e.1 - meanA
      let diffB := e.2 - meanB
      (acc.1 + diffA * diffB, acc.2.1 + diffA * diffA, acc.2.2 + diffB * diffB))
    (0, 0, 0)
  let numerator := sums.1
  let denominatorA := sums.2.1
  let denominatorB := sums.2.2
  let denominator := Real.sqrt (denominatorA * denominatorB)
  if denominator = 0 then 0 else numerator / denominator

/-- The index pairs `(i, j)` visited by the nested loops
`for i < nodes.length, for j = i + 1 .. nodes.length - 1`, in order. -/
def bandPairs (nodeCount : ℕ) : List (ℕ × ℕ) :=
  (List.range nodeCount).flatMap (fun i =>
    (List.range' (i + 1) (nodeCount - (i + 1))).map (fun j => (i, j)))

/-- The body of the pair loop of `analyzeRelationships`; the accumulator is
`(harmonicRelationships, conflictingPairs)`. -/
noncomputable def relationshipStep (s : State)
    (acc : List Relationship × List (ℕ × ℕ)) (pair : ℕ × ℕ) :
    List Relationship × List (ℕ × ℕ) :=
  let correlation := calculateBandCorrelation s.energyHistory pair.1 pair.2
  if |correlation| > s.interactionThreshold then
    let relationship : Relationship :=
      { source := pair.1, target := pair.2, correlation := correlation,
        type := getRelationshipType s.frequencyBands pair.1 pair.2 correlation }
    (acc.1 ++ [relationship], if correlation < -0.4 then acc.2 ++ [pair] else acc.2)
  else acc

/-- JavaScript `analyzeRelationships()`. -/
noncomputable def analyzeRelationships (s : State) : State :=
  if s.energyHistory.length < 2 then s
  else
    let result := (bandPairs s.nodes.length).foldl (relationshipStep s) ([], [])
    let currentEnergies := s.nodes.map (fun node => node.energy)
    let threshold : ℝ := 0.6
    { s with
      harmonicRelationships := result.1
      conflictingPairs := result.2
      dominantFrequencies :=
        (currentEnergies.enum.filter (fun p => decide (p.2 > threshold))).map (fun p => p.1) }

/-- JavaScript `updateMetrics(metrics)` for metrics that carry the two dB spectra: the
node energies are smoothed, the frame of band energies is pushed on the bounded history,
and the relationships are re-analysed (the drawing data of `updateConnections` is left
out). Every node has a band (`nodes.length = frequencyBands.length`). -/
noncomputable def updateMetrics (s : State) (freqDataL freqDataR : List (WithBot ℝ)) : State :=
  let bandEnergies := calculateBandEnergies s.frequencyBands freqDataL freqDataR
  let nodes := s.nodes.enum.map (fun p =>
    let energy := p.2.energy * 0.7 + bandEnergies.getD p.1 0 * 0.3
    ({ energy := energy, size := s.nodeSizeBase + energy * s.nodeSizeScale } : Node))
  analyzeRelationships
    { s with
      nodes := nodes
      energyHistory := History.pushShift s.energyHistory bandEnergies s.historyLength }

/-- The state after a sequence of `updateMetrics` calls, one per pair of dB spectra. -/
noncomputable def updateAll (s : State)
    (frames : List (List (WithBot ℝ) × List (WithBot ℝ))) : State :=
  frames.foldl (fun state frame => updateMetrics state frame.1 frame.2) s

/-- The history of one band: `energyHistory.map(frame => frame[band])`, oldest frame
first. -/
def bandHistory (energyHistory : List (List ℝ)) (band : ℕ) : List ℝ :=
  energyHistory.map (fun frame => frame.getD band 0)

/-- The Pearson correlation in the words of the specification: the sum of the products
of the deviations from the two means, divided by the product of the square roots of the
two sums of squared deviations; 0 when either sum of squared deviations is 0. -/
noncomputable def specPearson (xs ys : List ℝ) : ℝ :=
  let meanX := xs.sum / (xs.length : ℝ)
  let meanY := ys.sum / (ys.length : ℝ)
  let covariance := ((List.zip xs ys).map (fun p => (p.1 - meanX) * (p.2 - meanY))).sum
  let varianceX := (xs.map (fun x => (x - meanX) ^ 2)).sum
  let varianceY := (ys.map (fun y => (y - meanY) ^ 2)).sum
  if varianceX = 0 ∨ varianceY = 0 then 0
  else covariance / (Real.sqrt varianceX * Real.sqrt varianceY)

/-- The body of the loop of `generateFrequencyBands(count)` for the index `i`: the band
pushed on `bands` (note name and octave left out). `bands[i-1]` exists whenever `i > 0`. -/
noncomputable def generateStep (count : ℕ) (bands : List Band) (i : ℕ) : List Band :=
  let minFreq : ℝ := 20
  let maxFreq : ℝ := 20000
  let logMin := Real.logb 10 minFreq
  let logMax := Real.logb 10 maxFreq
  let step := (logMax - logMin) / ((count : ℝ) - 1)
  let logFreq := logMin + step * (i : ℝ)
  let freq := (10 : ℝ) ^ logFreq
  bands ++ [{ minFreq := if i = 0 then minFreq
                         else (bands.map (fun band => band.maxFreq)).getD (i - 1) 0,
              centerFreq := freq,
              maxFreq := if i = count - 1 then maxFreq
                         else (10 : ℝ) ^ (logMin + step * ((i : ℝ) + 1)) }]

/-- JavaScript `generateFrequencyBands(count)`: the loop `for (let i = 0; i < count; i++)`. -/
noncomputable def generateFrequencyBands (count : ℕ) : List Band :=
  (List.range count).foldl (generateStep count) []

/-- The band that `generateFrequencyBands(count)` pushes for the index `i`, in closed form
(used to state what the loop computes). -/
noncomputable def closedFormBand (count i : ℕ) : Band :=
  { minFreq := if i = 0 then 20
               else (10 : ℝ) ^ (Real.logb 10 20
                 + (Real.logb 10 20000 - Real.logb 10 20) / ((count : ℝ) - 1) * (i : ℝ)),
    centerFreq := (10 : ℝ) ^ (Real.logb 10 20
                 + (Real.logb 10 20000 - Real.logb 10 20) / ((count : ℝ) - 1) * (i : ℝ)),
    maxFreq := if i = count - 1 then 20000
               else (10 : ℝ) ^ (Real.logb 10 20
                 + (Real.logb 10 20000 - Real.logb 10 20) / ((count : ℝ) - 1) * ((i : ℝ) + 1)) }

end FrequencyRelationshipEcosystem

/-! ## Construction of the visualisation controllers -/

/-- The exceptions that the constructors can raise. -/
inductive JSError
  /-- JavaScript `throw new Error(...)`, raised by `BaseCanvasController` when the canvas element
  is missing. -/
  | error (message : String)
  /-- JavaScript `RangeError: Invalid array length`, raised by `new Array(n)` for a negative `n`. -/
  | rangeError
  deriving DecidableEq

/-- JavaScript `x || d` on an optional number: `undefined` (`none`) and `0` are falsy. -/
noncomputable def orDefault (x : Option ℝ) (d : ℝ) : ℝ :=
  match x with
  | none => d
  | some v => if v = 0 then d else v

/-- JavaScript `x || d` on an optional integer count: `undefined` (`none`) and `0` are falsy. -/
def orDefaultInt (x : Option ℤ) (d : ℤ) : ℤ :=
  match x with
  | none => d
  | some v => if v = 0 then d else v

/-- JavaScript `BaseCanvasController`: the constructor throws when `document.getElementById`
finds no canvas. -/
def baseCanvasController (canvasFound : Bool) : Except JSError Unit :=
  if canvasFound then Except.ok () else Except.error (JSError.error "Canvas not found")

/-- A band `{ index, lowFreq, highFreq, centerFreq }` as built by
`PhaseCoherenceHeatmap.generateFrequencyBands` and
`EmotionalResonanceTranslator.generateFrequencyBands` (display name left out). -/
structure FrequencyBand where
  index : ℕ
  lowFreq : ℝ
  highFreq : ℝ
  centerFreq : ℝ

/-- The loop of `generateFrequencyBands` in `phase-coherence.js` and
`emotional-resonance.js`, for positive `minFreq` and `maxFreq`: `frequencyBands` bands
with logarithmically spaced edges. -/
noncomputable def generateLogBands (frequencyBands : ℤ) (minFreq maxFreq : ℝ) :
    List FrequencyBand :=
  let logMin := Real.logb 10 minFreq
  let logMax := Real.logb 10 maxFreq
  let step := (logMax - logMin) / (frequencyBands : ℝ)
  (List.range frequencyBands.toNat).map (fun (i : ℕ) =>
    let logLow := logMin + step * (i : ℝ)
    let logHigh := logMin + step * ((i : ℝ) + 1)
    let lowFreq := (10 : ℝ) ^ logLow
    let highFreq := (10 : ℝ) ^ logHigh
    let centerFreq := Real.sqrt (lowFreq * highFreq)
    { index := i, lowFreq := lowFreq, highFreq := highFreq, centerFreq := centerFreq })

/-! ## `phase-coherence.js` -/

namespace PhaseCoherenceHeatmap

/-- The constructor options that configure the band set (`none` is `undefined`). -/
structure Options where
  frequencyBands : Option ℤ := none
  minFreq : Option ℝ := none
  maxFreq : Option ℝ := none
  logScale : Option Bool := none
  historyLength : Option ℤ := none

/-- The analysis state of a `PhaseCoherenceHeatmap`. -/
structure State where
  frequencyBands : ℤ
  minFreq : ℝ
  maxFreq : ℝ
  logScale : Bool
  historyLength : ℤ
  bands : List FrequencyBand
  phaseData : List (List ℝ)
  phaseHistory : List (List (List ℝ))
  bandCoherence : List ℝ
  problematicRegions : List ℕ
  overallCoherence : ℝ

/-- JavaScript `generateFrequencyBands()`. -/
noncomputable def generateFrequencyBands (frequencyBands : ℤ) (minFreq maxFreq : ℝ) :
    List FrequencyBand :=
  generateLogBands frequencyBands minFreq maxFreq

/-- JavaScript `createEmptyPhaseData()`: a square matrix of zeros and
`new Array(this.frequencyBands).fill(0)`, which throws for a negative count. -/
def createEmptyPhaseData (frequencyBands : ℤ) : Except JSError (List (List ℝ) × List ℝ) :=
  let phaseData := List.replicate frequencyBands.toNat (List.replicate frequencyBands.toNat (0 : ℝ))
  if frequencyBands < 0 then Except.error JSError.rangeError
  else Except.ok (phaseData, List.replicate frequencyBands.toNat 0)

/-- The constructor: option defaults, `generateFrequencyBands`, `createEmptyPhaseData`. -/
noncomputable def construct (canvasFound : Bool) (options : Options) : Except JSError State := do
  baseCanvasController canvasFound
  let frequencyBands := orDefaultInt options.frequencyBands 24
  let minFreq := orDefault options.minFreq 20
  let maxFreq := orDefault options.maxFreq 20000
  let logScale := options.logScale.getD true
  let historyLength := orDefaultInt options.historyLength 30
  let bands := generateFrequencyBands frequencyBands minFreq maxFreq
  let (phaseData, bandCoherence) ← createEmptyPhaseData frequencyBands
  pure { frequencyBands := frequencyBands, minFreq := minFreq, maxFreq := maxFreq,
         logScale := logScale, historyLength := historyLength, bands := bands,
         phaseData := phaseData, phaseHistory := [], bandCoherence := bandCoherence,
         problematicRegions := [], overallCoherence := 0 }

/-- JavaScript `data[i][j]` for a cell inside the matrix. -/
def cellAt (data : List (List ℝ)) (i j : ℕ) : ℝ := (data.getD i []).getD j 0

/-- The smoothing loop of `calculatePhaseRelationships` for the cell `(i, j)`:
`weight = Math.pow(1.5, k)`, `weightedSum += phaseHistory[k].data[i][j] * weight`,
`totalWeight += weight`, and the result `weightedSum / totalWeight`. -/
noncomputable def smoothCell (phaseHistory : List (List (List ℝ))) (i j : ℕ) : ℝ :=
  let sums := phaseHistory.enum.foldl
    (fun (acc : ℝ × ℝ) (entry : ℕ × List (List ℝ)) =>
      let weight := (1.5 : ℝ) ^ entry.1
      (acc.1 + cellAt entry.2 i j * weight, acc.2 + weight))
    (0, 0)
  let weightedSum := sums.1
  let totalWeight := sums.2
  weightedSum / totalWeight

/-- JavaScript `analyzePhaseIssues()` as far as `overallCoherence` and `problematicRegions`
(kept as the list of band indices) are concerned; `bandCoherence` is left out. -/
noncomputable def analyzePhaseIssues (s : State) : State :=
  let coherenceSum := (List.range s.frequencyBands.toNat).foldl
    (fun sum i => sum + cellAt s.phaseData i i) 0
  { s with
    overallCoherence := coherenceSum / (s.frequencyBands : ℝ)
    problematicRegions := (List.range s.frequencyBands.toNat).filter
      (fun i => decide (cellAt s.phaseData i i < 0.4)) }

/-- JavaScript `calculatePhaseRelationships()` from the point where the matrix `newPhaseData`
of the cycle has been computed (its entries come from `calculateBandPhaseCorrelation`,
which draws them at random): nothing happens below 3 time windows; the matrix is
pushed on `phaseHistory`, which is shifted down to `historyLength` entries
(`historyLength` non-negative); from 3 stored cycles on every cell of `phaseData` is
smoothed over the history, otherwise `phaseData` is the new matrix; then
`analyzePhaseIssues` runs (`calculatePhaseTrends` is left out). -/
noncomputable def calculatePhaseRelationships (s : State) (timeWindows : ℕ)
    (newPhaseData : List (List ℝ)) : State :=
  if timeWindows < 3 then s
  else
    let pushed := s.phaseHistory ++ [newPhaseData]
    let phaseHistory := pushed.drop (pushed.length - s.historyLength.toNat)
    let phaseData :=
      if phaseHistory.length ≥ 3 then
        (List.range s.frequencyBands.toNat).map (fun i =>
          (List.range s.frequencyBands.toNat).map (fun j => smoothCell phaseHistory i j))
      else newPhaseData
    analyzePhaseIssues { s with phaseHistory := phaseHistory, phaseData := phaseData }

end PhaseCoherenceHeatmap

/-! ## `spectral-migration.js` -/

namespace SpectralMigrationAnalyzer

/-- The constructor options that configure the analysis (`none` is `undefined`). -/
structure Options where
  historyLength : Option ℤ := none
  frequencyBands : Option ℤ := none
  minFreq : Option ℝ := none
  maxFreq : Option ℝ := none
  logScale : Option Bool := none

/-- An entry of `bandCenters` (display name left out). -/
structure BandCenter where
  frequency : ℝ
  index : ℕ
  energy : ℝ
  history : List ℝ

/-- An entry of `emergingFrequencies` or `fadingFrequencies`. -/
structure TrendEntry where
  bandIndex : ℕ
  trend : ℝ
  energy : ℝ

/-- An entry of `stableFrequencies`. -/
structure StableEntry where
  bandIndex : ℕ
  volatility : ℝ
  energy : ℝ

/-- The analysis state of a `SpectralMigrationAnalyzer`; an entry of `spectrumHistory`
is the `energies` array of the frame (the time stamp is left out). -/
structure State where
  historyLength : ℤ
  frequencyBands : ℤ
  minFreq : ℝ
  maxFreq : ℝ
  logScale : Bool
  spectrumHistory : List (List ℝ)
  bandCenters : List BandCenter
  emergingFrequencies : List TrendEntry
  fadingFrequencies : List TrendEntry
  stableFrequencies : List StableEntry
  spectralFluidity : ℝ
  spectralDensity : ℝ
  spectralCenterOfMass : ℝ
  spectralEntropyHistory : List ℝ

/-- JavaScript `generateFrequencyBands()`: the band centres `10 ^ (logMin + step * i)` with
`step = (logMax - logMin) / (frequencyBands - 1)`, for positive `minFreq`, `maxFreq`
and at least two bands. -/
noncomputable def generateFrequencyBands (frequencyBands : ℤ) (minFreq maxFreq : ℝ) :
    List BandCenter :=
  let logMin := Real.logb 10 minFreq
  let logMax := Real.logb 10 maxFreq
  let step := (logMax - logMin) / ((frequencyBands : ℝ) - 1)
  (List.range frequencyBands.toNat).map (fun (i : ℕ) =>
    let logFreq := logMin + step * (i : ℝ)
    let freq := (10 : ℝ) ^ logFreq
    { frequency := freq, index := i, energy := 0, history := [] })

/-- The constructor: option defaults, empty histories, `generateFrequencyBands`. -/
noncomputable def construct (canvasFound : Bool) (options : Options) : Except JSError State := do
  baseCanvasController canvasFound
  let historyLength := orDefaultInt options.historyLength 200
  let frequencyBands := orDefaultInt options.frequencyBands 30
  let minFreq := orDefault options.minFreq 20
  let maxFreq := orDefault options.maxFreq 20000
  let logScale := options.logScale.getD true
  pure { historyLength := historyLength, frequencyBands := frequencyBands, minFreq := minFreq,
         maxFreq := maxFreq, logScale := logScale, spectrumHistory := [],
         bandCenters := generateFrequencyBands frequencyBands minFreq maxFreq,
         emergingFrequencies := [], fadingFrequencies := [], stableFrequencies := [],
         spectralFluidity := 0, spectralDensity := 0, spectralCenterOfMass := 0,
         spectralEntropyHistory := [] }

/-- JavaScript `findBandIndex(frequency)`, for a positive `minFreq`. Where the source computes
`NaN` (`0 / 0` when `minFreq = maxFreq`) the result is given as `-1`: the caller's test
`bandIndex >= 0` fails on `NaN` exactly as on `-1`. -/
noncomputable def findBandIndex (s : State) (frequency : ℝ) : ℤ :=
  if frequency < s.minFreq ∨ frequency > s.maxFreq then -1
  else if s.logScale then
    let logFreq := Real.logb 10 frequency
    let logMin := Real.logb 10 s.minFreq
    let logMax := Real.logb 10 s.maxFreq
    let logRange := logMax - logMin
    if logRange = 0 then -1
    else
      let normalizedPos := (logFreq - logMin) / logRange
      let bandIndex := ⌊normalizedPos * (s.frequencyBands : ℝ)⌋
      max 0 (min (s.frequencyBands - 1) bandIndex)
  else
    if s.maxFreq - s.minFreq = 0 then -1
    else
      let normalizedPos := (frequency - s.minFreq) / (s.maxFreq - s.minFreq)
      let bandIndex := ⌊normalizedPos * (s.frequencyBands : ℝ)⌋
      max 0 (min (s.frequencyBands - 1) bandIndex)

/-- The `energies` array of `calculateBandEnergies` before normalisation
(`new Array(this.frequencyBands).fill(0)` needs a non-negative band count). -/
noncomputable def bandEnergySums (s : State) (freqDataL freqDataR : List (WithBot ℝ)) :
    List ℝ :=
  BandEnergy.accumulateBins s.frequencyBands.toNat (findBandIndex s)
    (fun bandIndex => decide (bandIndex ≥ 0)) freqDataL freqDataR

/-- JavaScript `calculateBandEnergies(freqDataL, freqDataR)`. -/
noncomputable def calculateBandEnergies (s : State) (freqDataL freqDataR : List (WithBot ℝ)) :
    List ℝ :=
  BandEnergy.normalizeByMaxFloor (bandEnergySums s freqDataL freqDataR)

/-- JavaScript `calculateTrend(values)`: the slope of the simple linear regression of the values
against their index. -/
def calculateTrend {α : Type} [Field α] (values : List α) : α :=
  if values.length < 2 then 0
  else
    let n : α := (values.length : α)
    let sums := values.enum.foldl
      (fun (acc : α × α × α × α) (p : ℕ × α) =>
        (acc.1 + (p.1 : α), acc.2.1 + p.2, acc.2.2.1 + (p.1 : α) * p.2,
          acc.2.2.2 + (p.1 : α) * (p.1 : α)))
      (0, 0, 0, 0)
    let sumX := sums.1
    let sumY := sums.2.1
    let sumXY := sums.2.2.1
    let sumXX := sums.2.2.2
    let slope := (n * sumXY - sumX * sumY) / (n * sumXX - sumX * sumX)
    slope

/-- JavaScript `calculateVolatility(values)`: the standard deviation of the values. -/
noncomputable def calculateVolatility (values : List ℝ) : ℝ :=
  if values.length < 2 then 0
  else
    let mean := values.sum / (values.length : ℝ)
    let variance := (values.map (fun val => (val - mean) * (val - mean))).sum
      / (values.length : ℝ)
    Real.sqrt variance

/-- JavaScript `calculateSpectralEntropy(spectrum)` for a spectrum of non-negative energies with at
least two entries. -/
noncomputable def calculateSpectralEntropy (spectrum : List ℝ) : ℝ :=
  let sum := spectrum.sum
  if sum = 0 then 0
  else
    let normalizedSpectrum := spectrum.map (fun val => val / sum)
    let entropy := normalizedSpectrum.foldl
      (fun entropy p => if p > 0 then entropy - p * Real.logb 2 p else entropy) 0
    entropy / Real.logb 2 (spectrum.length : ℝ)

/-- JavaScript `calculateSpectralFluidity()` on the entropy history. -/
noncomputable def calculateSpectralFluidity (spectralEntropyHistory : List ℝ) : ℝ :=
  if spectralEntropyHistory.length < 5 then 0
  else
    let totalChange := ((List.zip spectralEntropyHistory spectralEntropyHistory.tail).map
      (fun p => |p.2 - p.1|)).sum
    let avgChange := totalChange / ((spectralEntropyHistory.length : ℝ) - 1)
    min 1 (avgChange * 10)

/-- JavaScript `calculateSpectralCenterOfMass(spectrum)`. -/
noncomputable def calculateSpectralCenterOfMass (spectrum : List ℝ) : ℝ :=
  let weightedSum := (spectrum.enum.map (fun p => (p.1 : ℝ) * p.2)).sum
  let totalWeight := spectrum.sum
  if totalWeight = 0 then (spectrum.length : ℝ) / 2
  else weightedSum / totalWeight

/-- The three result lists of `analyzeSpectralMigration`. -/
structure Classification where
  emergingFrequencies : List TrendEntry
  fadingFrequencies : List TrendEntry
  stableFrequencies : List StableEntry

/-- The body of the band loop of `analyzeSpectralMigration` for the band `bandCenters[i]`:
bands with fewer than 10 history samples are skipped; the trend and the volatility are
computed over `band.history.slice(-10)`; the fading test looks at
`band.history.slice(-11, -1)`. -/
noncomputable def classifyStep (acc : Classification) (entry : ℕ × BandCenter) :
    Classification :=
  let i := entry.1
  let band := entry.2
  if band.history.length < 10 then acc
  else
    let recentHistory := band.history.drop (band.history.length - 10)
    let trend := calculateTrend recentHistory
    let volatility := calculateVolatility recentHistory
    if trend > 0.1 ∧ band.energy > 0.2 then
      { acc with emergingFrequencies := acc.emergingFrequencies ++
          [{ bandIndex := i, trend := trend, energy := band.energy }] }
    else if trend < -0.1 ∧
        ((band.history.take (band.history.length - 1)).drop (band.history.length - 11)).any
          (fun e => decide (e > 0.4)) = true then
      { acc with fadingFrequencies := acc.fadingFrequencies ++
          [{ bandIndex := i, trend := trend, energy := band.energy }] }
    else if |trend| < 0.05 ∧ volatility < 0.1 ∧ band.energy > 0.3 then
      { acc with stableFrequencies := acc.stableFrequencies ++
          [{ bandIndex := i, volatility := volatility, energy := band.energy }] }
    else acc

/-- JavaScript `analyzeSpectralMigration()`: nothing happens below 10 frames of history; otherwise
the result lists are cleared, the entropy history (at most 30 entries), the fluidity, the
density and the centre of mass are updated, and every band is classified. -/
noncomputable def analyzeSpectralMigration (s : State) : State :=
  if s.spectrumHistory.length < 10 then s
  else
    let currentSpectrum := s.spectrumHistory.getLastD []
    let spectralEntropy := calculateSpectralEntropy currentSpectrum
    let pushed := s.spectralEntropyHistory ++ [spectralEntropy]
    let spectralEntropyHistory := if pushed.length > 30 then pushed.tail else pushed
    let result := s.bandCenters.enum.foldl classifyStep
      { emergingFrequencies := [], fadingFrequencies := [], stableFrequencies := [] }
    { s with
      emergingFrequencies := result.emergingFrequencies
      fadingFrequencies := result.fadingFrequencies
      stableFrequencies := result.stableFrequencies
      spectralEntropyHistory := spectralEntropyHistory
      spectralFluidity := calculateSpectralFluidity spectralEntropyHistory
      spectralDensity :=
        ((currentSpectrum.filter (fun energy => decide (energy > 0.1))).length : ℝ)
          / (s.frequencyBands : ℝ)
      spectralCenterOfMass := calculateSpectralCenterOfMass currentSpectrum }

/-- JavaScript `updateMetrics(metrics)` for metrics that carry the two dB spectra: the
frame of band energies is pushed on the bounded `spectrumHistory`, every band energy is
smoothed and pushed on the bounded band history, and the migration is re-analysed (the
drawing data of `generateFlowLines` is left out). There is one band centre per band
(`bandCenters.length = frequencyBands`). -/
noncomputable def updateMetrics (s : State) (freqDataL freqDataR : List (WithBot ℝ)) : State :=
  let bandEnergies := calculateBandEnergies s freqDataL freqDataR
  let bandCenters := s.bandCenters.enum.map (fun p =>
    let energy := p.2.energy * 0.7 + bandEnergies.getD p.1 0 * 0.3
    ({ p.2 with energy := energy,
                history := History.pushShift p.2.history energy s.historyLength } : BandCenter))
  analyzeSpectralMigration
    { s with
      spectrumHistory := History.pushShift s.spectrumHistory bandEnergies s.historyLength
      bandCenters := bandCenters }

/-- The trend that `analyzeSpectralMigration` computes for a band: `calculateTrend` over
the last 10 history samples. -/
noncomputable def recentTrend (band : BandCenter) : ℝ :=
  calculateTrend (band.history.drop (band.history.length - 10))

/-- The volatility that `analyzeSpectralMigration` computes for a band:
`calculateVolatility` over the last 10 history samples. -/
noncomputable def recentVolatility (band : BandCenter) : ℝ :=
  calculateVolatility (band.history.drop (band.history.length - 10))

/-- The preceding window of a band: the (up to 10) history samples before the latest
one, `band.history.slice(-11, -1)`. -/
def precedingWindow (band : BandCenter) : List ℝ :=
  (band.history.take (band.history.length - 1)).drop (band.history.length - 11)

/-- The classification rule in the words of the specification: emerging when the trend
exceeds 0.1 and the current energy exceeds 0.2. -/
def specEmerging (band : BandCenter) : Prop :=
  recentTrend band > 0.1 ∧ band.energy > 0.2

/-- The classification rule in the words of the specification: fading when the band is
not emerging, the trend is below -0.1 and some energy of the preceding window exceeded
0.4. -/
def specFading (band : BandCenter) : Prop :=
  ¬ specEmerging band ∧ recentTrend band < -0.1 ∧ ∃ e ∈ precedingWindow band, e > 0.4

/-- The classification rule in the words of the specification: stable when the band is
neither emerging nor fading, the absolute trend is below 0.05, the volatility is below 0.1
and the energy exceeds 0.3. -/
def specStable (band : BandCenter) : Prop :=
  ¬ specEmerging band ∧ ¬ specFading band ∧ |recentTrend band| < 0.05 ∧
    recentVolatility band < 0.1 ∧ band.energy > 0.3

/-- The state after a sequence of `updateMetrics` calls, one per pair of dB spectra. -/
noncomputable def updateAll (s : State)
    (frames : List (List (WithBot ℝ) × List (WithBot ℝ))) : State :=
  frames.foldl (fun state frame => updateMetrics state frame.1 frame.2) s

/-- The ordinary-least-squares slope in the words of the specification: for the values
`y_0 .. y_(n-1)`, `sum((i - mean_i) * (y_i - mean_y)) / sum((i - mean_i) ^ 2)`. -/
noncomputable def specLeastSquaresSlope (values : List ℝ) : ℝ :=
  let n : ℝ := (values.length : ℝ)
  let meanIndex := ((List.range values.length).map (fun (i : ℕ) => (i : ℝ))).sum / n
  let meanValue := values.sum / n
  (values.enum.map (fun p => ((p.1 : ℝ) - meanIndex) * (p.2 - meanValue))).sum
    / ((List.range values.length).map (fun (i : ℕ) => ((i : ℝ) - meanIndex) ^ 2)).sum

/-- The Shannon entropy in the words of the specification: `-sum(p_i * log2(p_i))` in
bits, an outcome of probability 0 contributing nothing. -/
noncomputable def specShannonEntropy (distribution : List ℝ) : ℝ :=
  (distribution.map (fun p => if p = 0 then 0 else -(p * Real.logb 2 p))).sum

end SpectralMigrationAnalyzer

/-! ## `emotional-resonance.js` -/

namespace EmotionalResonanceTranslator

/-- The scan of `findBandForFrequency` from position `i` on. -/
noncomputable def findBandForFrequencyFrom (frequency : ℝ) : List FrequencyBand → ℕ → ℤ
  | [], _ => -1
  | band :: rest, i =>
    if frequency ≥ band.lowFreq ∧ frequency < band.highFreq then (i : ℤ)
    else findBandForFrequencyFrom frequency rest (i + 1)

/-- JavaScript `findBandForFrequency(frequency)`: the first band with
`lowFreq <= frequency < highFreq`, or `-1`. -/
noncomputable def findBandForFrequency (frequencyBands : List FrequencyBand) (frequency : ℝ) :
    ℤ :=
  findBandForFrequencyFrom frequency frequencyBands 0

/-- The `energies` array of `calculateBandEnergies` before normalisation. -/
noncomputable def bandEnergySums (frequencyBands : List FrequencyBand)
    (freqDataL freqDataR : List (WithBot ℝ)) : List ℝ :=
  BandEnergy.accumulateBins frequencyBands.length (findBandForFrequency frequencyBands)
    (fun band => decide (band ≠ -1)) freqDataL freqDataR

/-- JavaScript `calculateBandEnergies(freqDataL, freqDataR)`. -/
noncomputable def calculateBandEnergies (frequencyBands : List FrequencyBand)
    (freqDataL freqDataR : List (WithBot ℝ)) : List ℝ :=
  BandEnergy.normalizeByMaxFloor (bandEnergySums frequencyBands freqDataL freqDataR)

/-- JavaScript `generateFrequencyBands()`: the loop of `generateLogBands` over the fixed
range 20 Hz .. 20 kHz. -/
noncomputable def generateFrequencyBands (frequencyBands : ℤ) : List FrequencyBand :=
  generateLogBands frequencyBands 20 20000

/-- The band state of an `EmotionalResonanceTranslator`: the bands and, as a list of the
same length, the `energy` field of each band. -/
structure State where
  frequencyBands : List FrequencyBand
  energy : List ℝ

/-- JavaScript `updateMetrics(metrics)` for metrics that carry the two dB spectra, as far
as the band energies are concerned:
`frequencyBands[i].energy = frequencyBands[i].energy * 0.8 + bandEnergies[i] * 0.2`. -/
noncomputable def updateMetrics (s : State) (freqDataL freqDataR : List (WithBot ℝ)) : State :=
  let bandEnergies := calculateBandEnergies s.frequencyBands freqDataL freqDataR
  { s with energy := s.energy.enum.map (fun p => p.2 * 0.8 + bandEnergies.getD p.1 0 * 0.2) }

/-- The state after a sequence of `updateMetrics` calls, one per pair of dB spectra. -/
noncomputable def updateAll (s : State)
    (frames : List (List (WithBot ℝ) × List (WithBot ℝ))) : State :=
  frames.foldl (fun state frame => updateMetrics state frame.1 frame.2) s

end EmotionalResonanceTranslator

/-! # Verified properties -/

namespace AudioEngine

/-! ## Lemmas about the block loop of `calculateLUFS` -/

/-- Every block pushed by the loop satisfies a predicate that all block powers satisfy. -/
theorem blockLoop_forall {α : Type} [Field α] (powers : List α) (blockSize : ℕ) (P : α → Prop)
    (hP : ∀ k : ℕ, P (((powers.drop k).take blockSize).sum / (blockSize : α))) :
    ∀ (fuel : ℕ) (i : ℚ) (acc res : List α), (∀ b ∈ acc, P b) →
      blockLoop powers blockSize fuel i acc = some res → ∀ b ∈ res, P b := by
  intro fuel
  induction fuel with
  | zero => intro i acc res _ h; simp [blockLoop] at h
  | succ fuel ih =>
    intro i acc res hacc h
    rw [blockLoop] at h
    split_ifs at h with hc
    · refine ih _ _ res ?_ h
      intro b hb
      rcases List.mem_append.1 hb with hb | hb
      · exact hacc b hb
      · rw [List.mem_singleton.1 hb]; exact hP _
    · cases h; exact hacc

/-- With a block size of at least one sample the loop finishes: `fuel + 1` tests suffice
as soon as `fuel` strides cover the distance from `i` to `powers.length - blockSize`. -/
theorem blockLoop_terminates {α : Type} [Field α] (powers : List α) (blockSize : ℕ) :
    ∀ (fuel : ℕ) (i : ℚ) (acc : List α),
      (powers.length : ℚ) - (blockSize : ℚ) - i ≤ (fuel : ℚ) * ((blockSize : ℚ) / 4) →
      ∃ res, blockLoop powers blockSize (fuel + 1) i acc = some res := by
  intro fuel
  induction fuel with
  | zero =>
    intro i acc h
    refine ⟨acc, ?_⟩
    rw [blockLoop, if_neg]
    simp only [Nat.cast_zero, zero_mul] at h
    linarith
  | succ fuel ih =>
    intro i acc h
    rw [blockLoop]
    split_ifs with hc
    · apply ih
      push_cast at h ⊢
      linarith
    · exact ⟨acc, rfl⟩

/-- The block loop started on an empty or too short array returns no block. -/
theorem blockLoop_short {α : Type} [Field α] (powers : List α) (blockSize fuel : ℕ) (i : ℚ)
    (acc : List α) (h : (powers.length : ℚ) - (blockSize : ℚ) ≤ i) :
    blockLoop powers blockSize (fuel + 1) i acc = some acc := by
  rw [blockLoop, if_neg]
  linarith

/-- With block size `0` and a non-empty array the loop test stays true: no amount of
fuel lets the loop finish. -/
theorem blockLoop_zero_diverges {α : Type} [Field α] (powers : List α) (hne : powers ≠ []) :
    ∀ (fuel : ℕ) (acc : List α), blockLoop powers 0 fuel 0 acc = none := by
  intro fuel
  induction fuel with
  | zero => intro acc; rfl
  | succ fuel ih =>
    intro acc
    have hlen : (0 : ℚ) < (powers.length : ℚ) - ((0 : ℕ) : ℚ) := by
      have : 0 < powers.length := List.length_pos.2 hne
      simp only [Nat.cast_zero, sub_zero, Nat.cast_pos]
      exact this
    rw [blockLoop, if_pos hlen]
    simp only [Nat.cast_zero, zero_div, add_zero]
    exact ih _

theorem channelPowers_zero (n : ℕ) :
    channelPowers (List.replicate n (0 : ℝ)) (List.replicate n (0 : ℝ)) = List.replicate n 0 := by
  simp [channelPowers, List.zipWith_replicate]

theorem sum_take_drop_replicate_zero (n k m : ℕ) :
    (((List.replicate n (0 : ℝ)).drop k).take m).sum = 0 := by
  simp [List.drop_replicate, List.take_replicate]

/-- A list of zero blocks is emptied by the relative gate. -/
theorem gatedBlocks_of_all_zero (blocks : List ℝ) (h : ∀ b ∈ blocks, b = 0) :
    gatedBlocks blocks = [] := by
  have hsum : blocks.sum = 0 := List.sum_eq_zero h
  have hthr : relativeThreshold blocks = 0 := by
    simp [relativeThreshold, ungatedLUFS, ungatedMean, arrayMean, hsum, lufsOfPower, log10,
      relativeThresholdOf]
  rw [gatedBlocks, List.filter_eq_nil_iff]
  intro b hb
  simp [hthr, h b hb]

/-- On silent channels every block that the loop pushes is zero. -/
theorem lufsBlocks_silence (n fuel : ℕ) (sampleRate : ℝ) (blocks : List ℝ)
    (h : lufsBlocks fuel (List.replicate n 0) (List.replicate n 0) sampleRate = some blocks) :
    ∀ b ∈ blocks, b = 0 := by
  unfold lufsBlocks applyFilters at h
  rw [channelPowers_zero] at h
  refine blockLoop_forall _ _ (fun b => b = 0) ?_ fuel 0 [] blocks ?_ h
  · intro k
    rw [sum_take_drop_replicate_zero, zero_div]
  · intro b hb; simp at hb

/-- C2 (as stated, refuted): at sample rate 1 the block size `Math.floor(0.4)` is 0, the
loop variable never advances, and on a one-sample silent input the block loop never
finishes; `calculateLUFS` yields no result there, in particular not the -70 floor. -/
theorem calculateLUFS_silence_rate_one_diverges :
    ¬ ∃ (fuel : ℕ) (result : LUFS),
      calculateLUFS fuel (List.replicate 1 0) (List.replicate 1 0) 1 = some result := by
  rintro ⟨fuel, result, h⟩
  have hbs : ⌊(1 : ℝ) * 0.4⌋₊ = 0 := by norm_num
  have hd : lufsBlocks fuel (List.replicate 1 0) (List.replicate 1 0) 1 = none := by
    unfold lufsBlocks
    rw [hbs]
    exact blockLoop_zero_diverges _ (by simp [channelPowers, applyFilters]) fuel []
  unfold calculateLUFS at h
  rw [hd] at h
  exact Option.noConfusion h

/-- C2 (amended): for every length `n` and every sample rate of at least 2.5 Hz (so that
the 400 ms block holds at least one sample), `calculateLUFS` on two all-zero channels of
length `n` finishes (any fuel above `4 * n` suffices) and returns
integrated = shortTerm = momentary = -70, whether or not a block fits in the input. -/
theorem calculateLUFS_silence_floor (n : ℕ) (sampleRate : ℝ) (hrate : 2.5 ≤ sampleRate)
    (fuel : ℕ) (hfuel : 4 * n < fuel) :
    calculateLUFS fuel (List.replicate n 0) (List.replicate n 0) sampleRate
      = some LUFS.floor := by
  obtain ⟨f, rfl⟩ : ∃ f, fuel = f + 1 := ⟨fuel - 1, by omega⟩
  have hbs : 1 ≤ ⌊sampleRate * 0.4⌋₊ := by
    apply Nat.le_floor
    norm_num
    linarith
  have hbsq : (1 : ℚ) ≤ ((⌊sampleRate * 0.4⌋₊ : ℕ) : ℚ) := by exact_mod_cast hbs
  have hf : (4 : ℚ) * n ≤ f := by
    have : 4 * n ≤ f := by omega
    exact_mod_cast this
  obtain ⟨blocks, hb⟩ : ∃ blocks,
      lufsBlocks (f + 1) (List.replicate n 0) (List.replicate n 0) sampleRate = some blocks := by
    unfold lufsBlocks
    apply blockLoop_terminates
    unfold applyFilters
    rw [channelPowers_zero, List.length_replicate]
    have hn : (0 : ℚ) ≤ n := Nat.cast_nonneg n
    nlinarith
  have hz := lufsBlocks_silence n (f + 1) sampleRate blocks hb
  have hg := gatedBlocks_of_all_zero blocks hz
  simp [calculateLUFS, hb, hg]

/-- C2 (witness): at 10 Hz a silent input too short for a block and a silent input of
6 samples (two blocks of 4 samples, both of power 0) give the -70 floor. -/
theorem calculateLUFS_silence_floor_witness :
    (2.5 : ℝ) ≤ 10 ∧ 4 * 6 < 25 ∧
    calculateLUFS 25 (List.replicate 6 0) (List.replicate 6 0) 10 = some LUFS.floor :=
  ⟨by norm_num, by norm_num, calculateLUFS_silence_floor 6 10 (by norm_num) 25 (by norm_num)⟩

/-! ## Phase correlation -/

theorem phaseSums_foldl (zs : List (ℝ × ℝ)) (a b c : ℝ) :
    zs.foldl (fun (acc : ℝ × ℝ × ℝ) (s : ℝ × ℝ) =>
      (acc.1 + s.1 * s.1, acc.2.1 + s.2 * s.2, acc.2.2 + s.1 * s.2)) (a, b, c)
    = (a + (zs.map (fun s => s.1 * s.1)).sum, b + (zs.map (fun s => s.2 * s.2)).sum,
        c + (zs.map (fun s => s.1 * s.2)).sum) := by
  induction zs generalizing a b c with
  | nil => simp
  | cons z zs ih =>
    simp only [List.foldl_cons, List.map_cons, List.sum_cons]
    rw [ih]
    simp only [add_assoc]

/-- Cauchy-Schwarz for the sums over a list of sample pairs. -/
theorem pairs_cauchy_schwarz (zs : List (ℝ × ℝ)) :
    0 ≤ (zs.map (fun s => s.1 * s.1)).sum ∧ 0 ≤ (zs.map (fun s => s.2 * s.2)).sum ∧
    (zs.map (fun s => s.1 * s.2)).sum ^ 2
      ≤ (zs.map (fun s => s.1 * s.1)).sum * (zs.map (fun s => s.2 * s.2)).sum := by
  induction zs with
  | nil => simp
  | cons z zs ih =>
    obtain ⟨hA, hB, hP⟩ := ih
    simp only [List.map_cons, List.sum_cons]
    set A := (zs.map (fun s => s.1 * s.1)).sum
    set B := (zs.map (fun s => s.2 * s.2)).sum
    set P := (zs.map (fun s => s.1 * s.2)).sum
    have ha : 0 ≤ z.1 * z.1 := mul_self_nonneg _
    have hb : 0 ≤ z.2 * z.2 := mul_self_nonneg _
    refine ⟨by positivity, by positivity, ?_⟩
    have hbound : 0 ≤ z.1 * z.1 * B + z.2 * z.2 * A := by positivity
    have hsq : (2 * (z.1 * z.2) * P) ^ 2 ≤ (z.1 * z.1 * B + z.2 * z.2 * A) ^ 2 := by
      have h1 : 0 ≤ (z.1 * z.1 * B - z.2 * z.2 * A) ^ 2 := sq_nonneg _
      have h2 : 0 ≤ (z.1 * z.1) * (z.2 * z.2) * (A * B - P ^ 2) :=
        mul_nonneg (mul_nonneg ha hb) (by linarith)
      nlinarith
    have hle := (abs_le_of_sq_le_sq' hsq hbound).2
    nlinarith

theorem phaseSums_eq (L R : List ℝ) (h : L.length = R.length) :
    phaseSums L R = ((L.map (fun x => x * x)).sum, (R.map (fun x => x * x)).sum,
      ((List.zip L R).map (fun s => s.1 * s.2)).sum) := by
  unfold phaseSums
  rw [phaseSums_foldl]
  have hL : (List.zip L R).map (fun s => s.1 * s.1) = L.map (fun x => x * x) := by
    have : (List.zip L R).map (fun s => s.1 * s.1)
        = ((List.zip L R).map Prod.fst).map (fun x => x * x) := by
      rw [List.map_map]; rfl
    rw [this, List.map_fst_zip _ _ (le_of_eq h)]
  have hR : (List.zip L R).map (fun s => s.2 * s.2) = R.map (fun x => x * x) := by
    have : (List.zip L R).map (fun s => s.2 * s.2)
        = ((List.zip L R).map Prod.snd).map (fun x => x * x) := by
      rw [List.map_map]; rfl
    rw [this, List.map_snd_zip _ _ (le_of_eq h.symm)]
  rw [hL, hR]
  simp

/-- Exact arithmetic: for channels of equal length the quotient of
`calculatePhaseCorrelation` lies in [-1, 1] (Cauchy-Schwarz), and the result is exactly 0
whenever the sum of squares of either channel is 0 (all-zero channels and empty arrays
included). The source does not clamp the quotient and evaluates it in doubles, where
rounding can carry it past 1: the two-sample channels
`L = [0.3096976578235626, -0.015630966052412987]` and
`R = [0.9290930032730103, -0.04689289629459381]` give `1.0000000000000002`. -/
theorem calculatePhaseCorrelation_bounds (L R : List ℝ) (h : L.length = R.length) :
    -1 ≤ calculatePhaseCorrelation L R ∧ calculatePhaseCorrelation L R ≤ 1 ∧
    ((L.map (fun x => x * x)).sum = 0 ∨ (R.map (fun x => x * x)).sum = 0 →
      calculatePhaseCorrelation L R = 0) := by
  obtain ⟨hA, hB, hP⟩ := pairs_cauchy_schwarz (List.zip L R)
  have hs := phaseSums_eq L R h
  have hA2 : (L.map (fun x => x * x)).sum = ((List.zip L R).map (fun s => s.1 * s.1)).sum := by
    have := phaseSums_foldl (List.zip L R) 0 0 0
    unfold phaseSums at hs
    rw [this] at hs
    simpa using (congrArg Prod.fst hs).symm
  have hB2 : (R.map (fun x => x * x)).sum = ((List.zip L R).map (fun s => s.2 * s.2)).sum := by
    have := phaseSums_foldl (List.zip L R) 0 0 0
    unfold phaseSums at hs
    rw [this] at hs
    simpa using (congrArg (fun t => t.2.1) hs).symm
  rw [← hA2, ← hB2] at hP
  rw [← hA2] at hA
  rw [← hB2] at hB
  unfold calculatePhaseCorrelation
  simp only [hs]
  split_ifs with h0
  · refine ⟨by norm_num, by norm_num, fun _ => rfl⟩
  · push_neg at h0
    have hpos : 0 < (L.map (fun x => x * x)).sum * (R.map (fun x => x * x)).sum :=
      mul_pos (lt_of_le_of_ne hA (Ne.symm h0.1)) (lt_of_le_of_ne hB (Ne.symm h0.2))
    have hsqrt : 0 < Real.sqrt ((L.map (fun x => x * x)).sum * (R.map (fun x => x * x)).sum) :=
      Real.sqrt_pos.2 hpos
    have habs := Real.abs_le_sqrt hP
    rw [abs_le] at habs
    refine ⟨?_, ?_, fun h1 => absurd h1 (by tauto)⟩
    · rw [le_div_iff₀ hsqrt]; linarith
    · rw [div_le_one hsqrt]; exact habs.2

/-! ## The relative gate of `calculateLUFS` -/

theorem channelPowers_nonneg (L R : List ℝ) : ∀ p ∈ channelPowers L R, 0 ≤ p := by
  intro p hp
  unfold channelPowers at hp
  rw [List.mem_iff_get] at hp
  obtain ⟨n, rfl⟩ := hp
  simp only [List.get_eq_getElem, List.getElem_zipWith]
  exact add_nonneg (mul_self_nonneg _) (mul_self_nonneg _)

/-- The blocks of `calculateLUFS` are non-negative. -/
theorem lufsBlocks_nonneg (fuel : ℕ) (L R : List ℝ) (sampleRate : ℝ) (blocks : List ℝ)
    (h : lufsBlocks fuel L R sampleRate = some blocks) : ∀ b ∈ blocks, 0 ≤ b := by
  unfold lufsBlocks at h
  refine blockLoop_forall _ _ (fun b => 0 ≤ b) ?_ fuel 0 [] blocks ?_ h
  · intro k
    apply div_nonneg _ (Nat.cast_nonneg _)
    apply List.sum_nonneg
    intro x hx
    exact channelPowers_nonneg _ _ x (List.mem_of_mem_drop (List.mem_of_mem_take hx))
  · intro b hb; simp at hb

/-- The gate factor `10 ^ (-1.0691)` lies strictly between 0 and 1. -/
theorem gateFactor_bounds : 0 < (10 : ℝ) ^ (-1.0691 : ℝ) ∧ (10 : ℝ) ^ (-1.0691 : ℝ) < 1 :=
  ⟨Real.rpow_pos_of_pos (by norm_num) _,
    Real.rpow_lt_one_of_one_lt_of_neg (by norm_num) (by norm_num)⟩

/-- For a positive ungated mean the relative threshold is the mean scaled by
`10 ^ (-1.0691)`. -/
theorem relativeThreshold_of_pos (blocks : List ℝ) (h : 0 < ungatedMean blocks) :
    relativeThreshold blocks
      = (10 : ℝ) ^ ((-0.691 + 10 * Real.logb 10 (ungatedMean blocks) - 10) / 10) ∧
    relativeThreshold blocks = ungatedMean blocks * (10 : ℝ) ^ (-1.0691 : ℝ) := by
  have h1 : relativeThreshold blocks
      = (10 : ℝ) ^ ((-0.691 + 10 * Real.logb 10 (ungatedMean blocks) - 10) / 10) := by
    simp only [relativeThreshold, ungatedLUFS, lufsOfPower, log10, if_neg (ne_of_gt h)]
    rfl
  refine ⟨h1, ?_⟩
  rw [h1]
  have h2 : (-0.691 + 10 * Real.logb 10 (ungatedMean blocks) - 10) / 10
      = Real.logb 10 (ungatedMean blocks) + (-1.0691 : ℝ) := by ring
  rw [h2, Real.rpow_add (by norm_num), Real.rpow_logb (by norm_num) (by norm_num) h]

/-- For a zero ungated mean the relative threshold is `Math.pow(10, -Infinity) = 0`. -/
theorem relativeThreshold_of_zero (blocks : List ℝ) (h : ungatedMean blocks = 0) :
    relativeThreshold blocks = 0 := by
  simp only [relativeThreshold, ungatedLUFS, lufsOfPower, log10, h, if_true]
  rfl

/-- The relative threshold never exceeds a non-negative ungated mean. -/
theorem relativeThreshold_le_mean (blocks : List ℝ) (h : 0 ≤ ungatedMean blocks) :
    relativeThreshold blocks ≤ ungatedMean blocks := by
  rcases eq_or_lt_of_le h with h0 | hpos
  · rw [relativeThreshold_of_zero blocks h0.symm, ← h0]
  · rw [(relativeThreshold_of_pos blocks hpos).2]
    have := gateFactor_bounds.2
    nlinarith

/-- Blocks that the gate `x > t` removes are at most `t` each. -/
theorem sum_le_sum_filter_add (t : ℝ) (xs : List ℝ) :
    xs.sum ≤ (xs.filter (fun x => decide (x > t))).sum
      + t * ((xs.length : ℝ) - ((xs.filter (fun x => decide (x > t))).length : ℝ)) := by
  induction xs with
  | nil => simp
  | cons x xs ih =>
    by_cases hx : x > t
    · simp only [List.filter_cons, hx, decide_True, if_true, List.sum_cons, List.length_cons,
        Nat.cast_add, Nat.cast_one]
      linarith
    · simp only [List.filter_cons, hx, decide_False, List.sum_cons, List.length_cons,
        Nat.cast_add, Nat.cast_one]
      push_neg at hx
      simp only [Bool.false_eq_true, if_false]
      linarith

/-- Gating at or below the mean cannot lower the mean. -/
theorem arrayMean_le_arrayMean_filter (t : ℝ) (xs : List ℝ) (ht : t ≤ arrayMean xs)
    (hne : xs.filter (fun x => decide (x > t)) ≠ []) :
    arrayMean xs ≤ arrayMean (xs.filter (fun x => decide (x > t))) := by
  have hk : 0 < ((xs.filter (fun x => decide (x > t))).length : ℝ) := by
    exact_mod_cast List.length_pos.2 hne
  have hkN : ((xs.filter (fun x => decide (x > t))).length : ℝ) ≤ (xs.length : ℝ) := by
    exact_mod_cast List.length_filter_le _ xs
  have hN : 0 < (xs.length : ℝ) := lt_of_lt_of_le hk hkN
  have hS : xs.sum = arrayMean xs * xs.length := by
    unfold arrayMean; field_simp
  have h1 := sum_le_sum_filter_add t xs
  have hmul : t * ((xs.length : ℝ) - ((xs.filter (fun x => decide (x > t))).length : ℝ))
      ≤ arrayMean xs * ((xs.length : ℝ) - ((xs.filter (fun x => decide (x > t))).length : ℝ)) :=
    mul_le_mul_of_nonneg_right ht (by linarith)
  show arrayMean xs ≤ (xs.filter (fun x => decide (x > t))).sum / _
  rw [le_div_iff₀ hk]
  nlinarith

/-- The block loop on the six power samples `[1, 0, 0, 0, 0, 0]` at 10 Hz (block size 4,
stride 1) pushes the two blocks `[1/4, 0]`. -/
theorem lufsBlocks_example :
    lufsBlocks 3 [1, 0, 0, 0, 0, 0] [0, 0, 0, 0, 0, 0] 10 = some [1 / 4, 0] := by
  have hbs : ⌊(10 : ℝ) * 0.4⌋₊ = 4 := by norm_num
  unfold lufsBlocks
  rw [hbs]
  norm_num [blockLoop, channelPowers, applyFilters]

theorem ungatedMean_example : ungatedMean [1 / 4, 0] = 1 / 8 := by
  norm_num [ungatedMean, arrayMean]

theorem gatedBlocks_example : gatedBlocks [1 / 4, 0] = [1 / 4] := by
  have hm : 0 < ungatedMean [1 / 4, 0] := by rw [ungatedMean_example]; norm_num
  have ht := (relativeThreshold_of_pos _ hm).2
  rw [ungatedMean_example] at ht
  have hf := gateFactor_bounds
  have h1 : (1 / 4 : ℝ) > relativeThreshold [1 / 4, 0] := by rw [ht]; nlinarith
  have h2 : ¬ ((0 : ℝ) > relativeThreshold [1 / 4, 0]) := by
    rw [ht]; push_neg; nlinarith
  simp only [gatedBlocks, List.filter_cons, h1, h2, decide_True, decide_False, if_true,
    List.filter_nil, Bool.false_eq_true, if_false]

/-- C3 (as stated, refuted): on the input `[1, 0, 0, 0, 0, 0]` (left), silence (right),
10 Hz, the gate retains the block `1/4` of the two blocks `[1/4, 0]`, and the gated mean
`1/4` is strictly greater than the ungated mean `1/8`. -/
theorem gatedMean_exceeds_ungatedMean_example :
    ∃ blocks, lufsBlocks 3 [1, 0, 0, 0, 0, 0] [0, 0, 0, 0, 0, 0] 10 = some blocks ∧
      gatedBlocks blocks ≠ [] ∧ ¬ (gatedMean blocks ≤ ungatedMean blocks) := by
  refine ⟨[1 / 4, 0], lufsBlocks_example, ?_, ?_⟩
  · rw [gatedBlocks_example]; simp
  · rw [gatedMean, gatedBlocks_example, ungatedMean_example]
    norm_num [arrayMean]

/-- C3 (amended): whenever the relative gate retains at least one block, the mean power
of the gated blocks is greater than or equal to the ungated mean power of all blocks. -/
theorem ungatedMean_le_gatedMean (fuel : ℕ) (L R : List ℝ) (sampleRate : ℝ) (blocks : List ℝ)
    (hblocks : lufsBlocks fuel L R sampleRate = some blocks)
    (hgate : gatedBlocks blocks ≠ []) :
    ungatedMean blocks ≤ gatedMean blocks := by
  have hnn := lufsBlocks_nonneg fuel L R sampleRate blocks hblocks
  have hmean : 0 ≤ ungatedMean blocks :=
    div_nonneg (List.sum_nonneg hnn) (Nat.cast_nonneg _)
  exact arrayMean_le_arrayMean_filter (relativeThreshold blocks) blocks
    (relativeThreshold_le_mean blocks hmean) hgate

/-- C3 (witness): the two-block example. -/
theorem ungatedMean_le_gatedMean_witness :
    lufsBlocks 3 [1, 0, 0, 0, 0, 0] [0, 0, 0, 0, 0, 0] 10 = some [1 / 4, 0] ∧
    gatedBlocks [1 / 4, 0] ≠ [] ∧ ungatedMean [1 / 4, 0] ≤ gatedMean [1 / 4, 0] :=
  ⟨lufsBlocks_example, by rw [gatedBlocks_example]; simp,
    ungatedMean_le_gatedMean 3 [1, 0, 0, 0, 0, 0] [0, 0, 0, 0, 0, 0] 10 [1 / 4, 0]
      lufsBlocks_example (by rw [gatedBlocks_example]; simp)⟩

/-- C4: the gated block list is an order-preserving sublist of the full block list; a
block is retained exactly when it is in the full list with power strictly greater than the
relative threshold `10 ^ ((ungatedLUFS - 10) / 10)`,
`ungatedLUFS = -0.691 + 10 * log10 (mean of all block powers)` (the threshold is 0 when the
mean is 0, where `ungatedLUFS` is `-Infinity`); and a computed `integrated` value is the
loudness of the mean of exactly these gated blocks. -/
theorem gatedBlocks_sublist_above_threshold (fuel : ℕ) (L R : List ℝ) (sampleRate : ℝ)
    (blocks : List ℝ) (hblocks : lufsBlocks fuel L R sampleRate = some blocks) :
    List.Sublist (gatedBlocks blocks) blocks ∧
    (∀ b, b ∈ gatedBlocks blocks ↔ b ∈ blocks ∧ b > relativeThreshold blocks) ∧
    0 ≤ arrayMean blocks ∧
    (0 < arrayMean blocks → relativeThreshold blocks
      = (10 : ℝ) ^ ((-0.691 + 10 * Real.logb 10 (arrayMean blocks) - 10) / 10)) ∧
    (arrayMean blocks = 0 → relativeThreshold blocks = 0) ∧
    (∀ r, calculateLUFS fuel L R sampleRate = some r →
      r = LUFS.floor ∨ r.integrated = lufsOfPower (arrayMean (gatedBlocks blocks))) := by
  have hnn := lufsBlocks_nonneg fuel L R sampleRate blocks hblocks
  refine ⟨List.filter_sublist _, ?_, ?_, ?_, ?_, ?_⟩
  · intro b
    simp [gatedBlocks, List.mem_filter]
  · exact div_nonneg (List.sum_nonneg hnn) (Nat.cast_nonneg _)
  · intro h
    exact (relativeThreshold_of_pos blocks h).1
  · intro h
    exact relativeThreshold_of_zero blocks h
  · intro r hr
    unfold calculateLUFS at hr
    rw [hblocks] at hr
    simp only at hr
    split_ifs at hr with h1 h2
    · left; exact (Option.some.inj hr).symm
    · left; exact (Option.some.inj hr).symm
    · right
      rw [← Option.some.inj hr]
      rfl

/-- C4 (witness): the two-block example `[1/4, 0]`. -/
theorem gatedBlocks_sublist_above_threshold_witness :
    lufsBlocks 3 [1, 0, 0, 0, 0, 0] [0, 0, 0, 0, 0, 0] 10 = some [1 / 4, 0] ∧
    List.Sublist (gatedBlocks [1 / 4, 0]) [1 / 4, 0] ∧
    (∀ b, b ∈ gatedBlocks [1 / 4, 0] ↔ b ∈ [1 / 4, (0 : ℝ)] ∧ b > relativeThreshold [1 / 4, 0]) :=
  ⟨lufsBlocks_example,
    (gatedBlocks_sublist_above_threshold 3 [1, 0, 0, 0, 0, 0] [0, 0, 0, 0, 0, 0] 10 [1 / 4, 0]
      lufsBlocks_example).1,
    (gatedBlocks_sublist_above_threshold 3 [1, 0, 0, 0, 0, 0] [0, 0, 0, 0, 0, 0] 10 [1 / 4, 0]
      lufsBlocks_example).2.1⟩

end AudioEngine

/-! ## Band energies -/

namespace BandEnergy

theorem dbToMagnitude_nonneg (dB : WithBot ℝ) : 0 ≤ dbToMagnitude dB := by
  cases dB with
  | bot => exact le_refl _
  | coe x => exact (Real.rpow_pos_of_pos (by norm_num) _).le

theorem length_addAt {α : Type} [Add α] (es : List α) (k : ℕ) (m : α) :
    (addAt es k m).length = es.length := by
  induction es generalizing k with
  | nil => rfl
  | cons e es ih => cases k <;> simp [addAt, ih]

theorem mem_addAt {α : Type} [Add α] (es : List α) (k : ℕ) (m x : α)
    (h : x ∈ addAt es k m) : x ∈ es ∨ ∃ e ∈ es, x = e + m := by
  induction es generalizing k with
  | nil => simp [addAt] at h
  | cons e es ih =>
    cases k with
    | zero =>
      simp only [addAt, List.mem_cons] at h
      rcases h with h | h
      · exact Or.inr ⟨e, List.mem_cons_self _ _, h⟩
      · exact Or.inl (List.mem_cons_of_mem _ h)
    | succ k =>
      simp only [addAt, List.mem_cons] at h
      rcases h with h | h
      · exact Or.inl (h ▸ List.mem_cons_self _ _)
      · rcases ih k h with h1 | ⟨e1, he1, hx⟩
        · exact Or.inl (List.mem_cons_of_mem _ h1)
        · exact Or.inr ⟨e1, List.mem_cons_of_mem _ he1, hx⟩

theorem binStep_spec (lookup : ℝ → ℤ) (accept : ℤ → Bool) (fftSize : ℝ) (energies : List ℝ)
    (bin : ℕ × WithBot ℝ × WithBot ℝ) (hnn : ∀ e ∈ energies, 0 ≤ e) :
    (binStep lookup accept fftSize energies bin).length = energies.length ∧
    ∀ e ∈ binStep lookup accept fftSize energies bin, 0 ≤ e := by
  unfold binStep
  simp only []
  split_ifs
  · refine ⟨length_addAt _ _ _, fun e he => ?_⟩
    have hm : 0 ≤ (dbToMagnitude bin.2.1 + dbToMagnitude bin.2.2) / 2 :=
      div_nonneg (add_nonneg (dbToMagnitude_nonneg _) (dbToMagnitude_nonneg _)) (by norm_num)
    rcases mem_addAt _ _ _ _ he with h | ⟨e1, he1, rfl⟩
    · exact hnn e h
    · exact add_nonneg (hnn e1 he1) hm
  · exact ⟨rfl, hnn⟩

/-- The accumulated energies: one entry per band, none negative. -/
theorem accumulateBins_spec (bandCount : ℕ) (lookup : ℝ → ℤ) (accept : ℤ → Bool)
    (L R : List (WithBot ℝ)) :
    (accumulateBins bandCount lookup accept L R).length = bandCount ∧
    ∀ e ∈ accumulateBins bandCount lookup accept L R, 0 ≤ e := by
  unfold accumulateBins
  generalize (List.zip L R).enum = bins
  have key : ∀ (bins : List (ℕ × WithBot ℝ × WithBot ℝ)) (init : List ℝ),
      init.length = bandCount → (∀ e ∈ init, 0 ≤ e) →
      (bins.foldl (binStep lookup accept ((L.length : ℝ) * 2)) init).length = bandCount ∧
      ∀ e ∈ bins.foldl (binStep lookup accept ((L.length : ℝ) * 2)) init, 0 ≤ e := by
    intro bins
    induction bins with
    | nil => intro init h1 h2; exact ⟨h1, h2⟩
    | cons bin bins ih =>
      intro init h1 h2
      simp only [List.foldl_cons]
      obtain ⟨h3, h4⟩ := binStep_spec lookup accept ((L.length : ℝ) * 2) init bin h2
      exact ih _ (h3.trans h1) h4
  exact key bins (List.replicate bandCount 0) (List.length_replicate _ _)
    (fun e he => by rw [List.eq_of_mem_replicate he])

/-- Non-negative energies have a positive total exactly when one of them is positive. -/
theorem sum_pos_iff_exists_pos (energies : List ℝ) (hnn : ∀ e ∈ energies, 0 ≤ e) :
    0 < energies.sum ↔ ∃ e ∈ energies, 0 < e := by
  constructor
  · intro hsum
    by_contra hno
    push_neg at hno
    have hzero : ∀ e ∈ energies, e = 0 := fun e he => le_antisymm (hno e he) (hnn e he)
    rw [List.sum_eq_zero hzero] at hsum
    exact lt_irrefl _ hsum
  · rintro ⟨e, he, hpos⟩
    exact lt_of_lt_of_le hpos (List.single_le_sum hnn e he)

/-- What the guarded normalisation returns on non-negative energies. -/
theorem normalizeByMax_spec (energies : List ℝ) (hnn : ∀ e ∈ energies, 0 ≤ e) :
    (normalizeByMax energies).length = energies.length ∧
    (∀ e ∈ normalizeByMax energies, 0 ≤ e ∧ e ≤ 1) ∧
    (0 < energies.sum → (normalizeByMax energies).maximum = ((1 : ℝ) : WithBot ℝ)) ∧
    (¬ 0 < energies.sum → ∀ e ∈ normalizeByMax energies, e = 0) := by
  unfold normalizeByMax
  cases hmax : energies.maximum with
  | bot =>
    have hnil : energies = [] := List.maximum_eq_bot.1 hmax
    subst hnil
    simp
  | coe m =>
    have hm : m ∈ energies := List.maximum_mem hmax
    have hle : ∀ e ∈ energies, e ≤ m := fun e he => List.le_maximum_of_mem he hmax
    simp only
    by_cases hpos : m > 0
    · rw [if_pos hpos]
      refine ⟨by simp, ?_, ?_, ?_⟩
      · intro e he
        obtain ⟨x, hx, rfl⟩ := List.mem_map.1 he
        exact ⟨div_nonneg (hnn x hx) hpos.le, (div_le_one hpos).2 (hle x hx)⟩
      · intro _
        rw [List.maximum_eq_coe_iff]
        refine ⟨List.mem_map.2 ⟨m, hm, div_self (ne_of_gt hpos)⟩, ?_⟩
        intro e he
        obtain ⟨x, hx, rfl⟩ := List.mem_map.1 he
        exact (div_le_one hpos).2 (hle x hx)
      · intro hsum
        exact absurd (lt_of_lt_of_le hpos (List.single_le_sum hnn m hm)) hsum
    · rw [if_neg hpos]
      push_neg at hpos
      have hzero : ∀ e ∈ energies, e = 0 := fun e he =>
        le_antisymm (le_trans (hle e he) hpos) (hnn e he)
      refine ⟨rfl, ?_, ?_, ?_⟩
      · intro e he; rw [hzero e he]; norm_num
      · intro hsum
        rw [List.sum_eq_zero hzero] at hsum
        exact absurd hsum (lt_irrefl _)
      · intro _; exact hzero

end BandEnergy

namespace FrequencyRelationshipEcosystem

/-- C5: `calculateBandEnergies` returns one value per band, every value lies in [0, 1],
the maximum of the returned values is exactly 1 whenever the accumulated linear magnitude
is positive in total (equivalently, some band accumulated a positive magnitude), and
otherwise every returned entry is 0. -/
theorem calculateBandEnergies_normalized (frequencyBands : List Band)
    (freqDataL freqDataR : List (WithBot ℝ)) (hlen : freqDataL.length = freqDataR.length) :
    (calculateBandEnergies frequencyBands freqDataL freqDataR).length = frequencyBands.length ∧
    (∀ e ∈ calculateBandEnergies frequencyBands freqDataL freqDataR, 0 ≤ e ∧ e ≤ 1) ∧
    (0 < (bandEnergySums frequencyBands freqDataL freqDataR).sum ↔
      ∃ e ∈ bandEnergySums frequencyBands freqDataL freqDataR, 0 < e) ∧
    (0 < (bandEnergySums frequencyBands freqDataL freqDataR).sum →
      (calculateBandEnergies frequencyBands freqDataL freqDataR).maximum
        = ((1 : ℝ) : WithBot ℝ)) ∧
    (¬ 0 < (bandEnergySums frequencyBands freqDataL freqDataR).sum →
      ∀ e ∈ calculateBandEnergies frequencyBands freqDataL freqDataR, e = 0) := by
  have _ := hlen
  obtain ⟨hl, hnn⟩ := BandEnergy.accumulateBins_spec frequencyBands.length
    (findBandIndex frequencyBands) (fun bandIndex => decide (bandIndex ≥ 0)) freqDataL freqDataR
  obtain ⟨h1, h2, h3, h4⟩ := BandEnergy.normalizeByMax_spec
    (bandEnergySums frequencyBands freqDataL freqDataR) hnn
  exact ⟨h1.trans hl, h2, BandEnergy.sum_pos_iff_exists_pos _ hnn, h3, h4⟩

end FrequencyRelationshipEcosystem

namespace BandEnergy

theorem sum_addAt (es : List ℝ) (k : ℕ) (m : ℝ) (hk : k < es.length) :
    (addAt es k m).sum = es.sum + m := by
  induction es generalizing k with
  | nil => simp at hk
  | cons e es ih =>
    cases k with
    | zero => simp [addAt]; ring
    | succ k =>
      simp only [List.length_cons, Nat.succ_lt_succ_iff] at hk
      simp only [addAt, List.sum_cons, ih k hk]
      ring

theorem maxWithFloor_ge (es : List ℝ) :
    (0.0001 : ℝ) ≤ maxWithFloor es ∧ ∀ e ∈ es, e ≤ maxWithFloor es := by
  unfold maxWithFloor
  induction es with
  | nil => simp
  | cons x xs ih =>
    simp only [List.foldr_cons, List.mem_cons, forall_eq_or_imp]
    exact ⟨le_trans ih.1 (le_max_right _ _), le_max_left _ _,
      fun e he => le_trans (ih.2 e he) (le_max_right _ _)⟩

theorem maxWithFloor_mem (es : List ℝ) :
    maxWithFloor es = 0.0001 ∨ maxWithFloor es ∈ es := by
  unfold maxWithFloor
  induction es with
  | nil => left; rfl
  | cons x xs ih =>
    simp only [List.foldr_cons, List.mem_cons]
    rcases max_choice x (List.foldr max 0.0001 xs) with h | h
    · right; left; exact h
    · rw [h]
      rcases ih with h1 | h1
      · left; exact h1
      · right; right; exact h1

/-- What the normalisation with the `0.0001` floor returns on non-negative energies. -/
theorem normalizeByMaxFloor_spec (energies : List ℝ) (hnn : ∀ e ∈ energies, 0 ≤ e) :
    (normalizeByMaxFloor energies).length = energies.length ∧
    (∀ e ∈ normalizeByMaxFloor energies, 0 ≤ e ∧ e ≤ 1) ∧
    ((∃ e ∈ energies, 0.0001 ≤ e) →
      (normalizeByMaxFloor energies).maximum = ((1 : ℝ) : WithBot ℝ)) ∧
    ((∀ e ∈ energies, e < 0.0001) →
      normalizeByMaxFloor energies = energies.map (fun e => e / 0.0001) ∧
      ∀ e ∈ normalizeByMaxFloor energies, e < 1) ∧
    (energies.sum = 0 → ∀ e ∈ normalizeByMaxFloor energies, e = 0) := by
  obtain ⟨hfloor, hle⟩ := maxWithFloor_ge energies
  have hpos : 0 < maxWithFloor energies := lt_of_lt_of_le (by norm_num) hfloor
  have hbound : ∀ e ∈ normalizeByMaxFloor energies, 0 ≤ e ∧ e ≤ 1 := by
    intro e he
    obtain ⟨x, hx, rfl⟩ := List.mem_map.1 he
    exact ⟨div_nonneg (hnn x hx) hpos.le, (div_le_one hpos).2 (hle x hx)⟩
  refine ⟨by simp [normalizeByMaxFloor], hbound, ?_, ?_, ?_⟩
  · rintro ⟨e, he, hbig⟩
    have hmem : maxWithFloor energies ∈ energies := by
      rcases maxWithFloor_mem energies with h | h
      · have : e = maxWithFloor energies := le_antisymm (hle e he) (by rw [h]; exact hbig)
        rw [← this]; exact he
      · exact h
    rw [List.maximum_eq_coe_iff]
    exact ⟨List.mem_map.2 ⟨_, hmem, div_self (ne_of_gt hpos)⟩, fun a ha => (hbound a ha).2⟩
  · intro hsmall
    have hmax : maxWithFloor energies = 0.0001 := by
      rcases maxWithFloor_mem energies with h | h
      · exact h
      · exact absurd hfloor (not_le.2 (hsmall _ h))
    refine ⟨by simp only [normalizeByMaxFloor, hmax], ?_⟩
    intro e he
    obtain ⟨x, hx, rfl⟩ := List.mem_map.1 he
    rw [hmax, div_lt_one (by norm_num)]
    exact hsmall x hx
  · intro hsum e he
    obtain ⟨x, hx, rfl⟩ := List.mem_map.1 he
    have hx0 : x = 0 := le_antisymm (hsum ▸ List.single_le_sum hnn x hx) (hnn x hx)
    rw [hx0, zero_div]

end BandEnergy

namespace SpectralMigrationAnalyzer

/-- The state built by the constructor with default options. -/
theorem construct_default :
    construct true {} = Except.ok
      { historyLength := 200, frequencyBands := 30, minFreq := 20, maxFreq := 20000,
        logScale := true, spectrumHistory := [],
        bandCenters := generateFrequencyBands 30 20 20000,
        emergingFrequencies := [], fadingFrequencies := [], stableFrequencies := [],
        spectralFluidity := 0, spectralDensity := 0, spectralCenterOfMass := 0,
        spectralEntropyHistory := [] } := rfl

/-- Inside the configured range the clamped lookup yields an index of
`0 .. frequencyBands - 1`. -/
theorem findBandIndex_range (s : State) (f : ℝ) (hcount : 1 ≤ s.frequencyBands)
    (hacc : 0 ≤ findBandIndex s f) :
    0 ≤ findBandIndex s f ∧ findBandIndex s f ≤ s.frequencyBands - 1 := by
  refine ⟨hacc, ?_⟩
  unfold findBandIndex
  simp only []
  split_ifs <;> first
    | linarith
    | exact max_le (by linarith) (min_le_left _ _)

end SpectralMigrationAnalyzer

namespace BandEnergy

/-- The accumulation loop unrolled on spectra of two bins. -/
theorem accumulateBins_two (n : ℕ) (lookup : ℝ → ℤ) (accept : ℤ → Bool)
    (a0 a1 b0 b1 : WithBot ℝ) :
    accumulateBins n lookup accept [a0, a1] [b0, b1]
      = binStep lookup accept (((2 : ℕ) : ℝ) * 2)
          (binStep lookup accept (((2 : ℕ) : ℝ) * 2) (List.replicate n 0) (0, a0, b0))
          (1, a1, b1) := rfl

/-- A bin at -100 dB has linear magnitude `10 ^ (-5)`. -/
theorem dbToMagnitude_minus100 : dbToMagnitude ((-100 : ℝ) : WithBot ℝ) = 0.00001 := by
  show (10 : ℝ) ^ ((-100 : ℝ) / 20) = 0.00001
  rw [show ((-100 : ℝ) / 20) = -((5 : ℕ) : ℝ) by norm_num, Real.rpow_neg (by norm_num),
    Real.rpow_natCast]
  norm_num

end BandEnergy

namespace SpectralMigrationAnalyzer

open BandEnergy

/-- With the default configuration (30 log bands over 20 Hz .. 20 kHz) and a two-bin
spectrum at -100 dB, bin 0 (0 Hz) is outside the range and bin 1 (11025 Hz) adds its
magnitude `10 ^ (-5)` to one band. -/
theorem bandEnergySums_quiet (s : State) (hmin : s.minFreq = 20) (hmax : s.maxFreq = 20000)
    (hlog : s.logScale = true) (hn : s.frequencyBands = 30) :
    ∃ k : ℕ, k < 30 ∧
      bandEnergySums s [((-100 : ℝ) : WithBot ℝ), ((-100 : ℝ) : WithBot ℝ)]
        [((-100 : ℝ) : WithBot ℝ), ((-100 : ℝ) : WithBot ℝ)]
        = addAt (List.replicate 30 0) k 0.00001 := by
  have h0 : findBandIndex s (((0 : ℕ) : ℝ) * 44100 / (((2 : ℕ) : ℝ) * 2)) = -1 := by
    unfold findBandIndex
    rw [if_pos]
    left; rw [hmin]; norm_num
  have hrange : Real.logb 10 s.maxFreq - Real.logb 10 s.minFreq ≠ 0 := by
    rw [hmin, hmax]
    have := Real.logb_lt_logb (b := 10) (x := 20) (y := 20000) (by norm_num) (by norm_num)
      (by norm_num)
    linarith
  have h1 : 0 ≤ findBandIndex s (((1 : ℕ) : ℝ) * 44100 / (((2 : ℕ) : ℝ) * 2)) := by
    unfold findBandIndex
    rw [if_neg (by rw [hmin, hmax]; norm_num), if_pos hlog]
    simp only []
    rw [if_neg hrange]
    exact le_max_left _ _
  have h1' := (findBandIndex_range s _ (by rw [hn]; norm_num) h1).2
  refine ⟨(findBandIndex s (((1 : ℕ) : ℝ) * 44100 / (((2 : ℕ) : ℝ) * 2))).toNat, ?_, ?_⟩
  · rw [hn] at h1'; omega
  · rw [bandEnergySums, accumulateBins_two]
    simp only [binStep, h0, dbToMagnitude_minus100, hn]
    rw [if_pos (by simpa using h1)]
    norm_num
    rfl

/-- C6 (as stated, refuted): with the default configuration and the two-bin spectrum at
-100 dB in both channels, the total accumulated band energy is positive (`10 ^ (-5)`),
but every normalised energy is below 1 (the divisor is the floor `0.0001`), so the
maximum of the returned energies is not 1. -/
theorem calculateBandEnergies_quiet_max_ne_one :
    ∃ s, construct true {} = Except.ok s ∧
      0 < (bandEnergySums s [((-100 : ℝ) : WithBot ℝ), ((-100 : ℝ) : WithBot ℝ)]
        [((-100 : ℝ) : WithBot ℝ), ((-100 : ℝ) : WithBot ℝ)]).sum ∧
      (calculateBandEnergies s [((-100 : ℝ) : WithBot ℝ), ((-100 : ℝ) : WithBot ℝ)]
        [((-100 : ℝ) : WithBot ℝ), ((-100 : ℝ) : WithBot ℝ)]).maximum
        ≠ ((1 : ℝ) : WithBot ℝ) := by
  obtain ⟨s, hcons, hmin, hmax, hlog, hn⟩ : ∃ s, construct true {} = Except.ok s ∧
      s.minFreq = 20 ∧ s.maxFreq = 20000 ∧ s.logScale = true ∧ s.frequencyBands = 30 :=
    ⟨_, construct_default, rfl, rfl, rfl, rfl⟩
  obtain ⟨k, hk, hs⟩ := bandEnergySums_quiet s hmin hmax hlog hn
  refine ⟨s, hcons, ?_, ?_⟩
  · rw [hs, sum_addAt _ _ _ (by simpa using hk)]
    simp only [List.sum_replicate, smul_zero, zero_add]
    norm_num
  · intro hmax
    have hmem := List.maximum_mem hmax
    have hsmall : ∀ e ∈ addAt (List.replicate 30 (0 : ℝ)) k 0.00001, e < 0.0001 := by
      intro e he
      rcases mem_addAt _ _ _ _ he with h | ⟨e1, he1, rfl⟩
      · rw [List.eq_of_mem_replicate h]; norm_num
      · rw [List.eq_of_mem_replicate he1]; norm_num
    have hnn : ∀ e ∈ addAt (List.replicate 30 (0 : ℝ)) k 0.00001, 0 ≤ e :=
      fun e he => by
        rcases mem_addAt _ _ _ _ he with h | ⟨e1, he1, rfl⟩
        · rw [List.eq_of_mem_replicate h]
        · rw [List.eq_of_mem_replicate he1]; norm_num
    unfold calculateBandEnergies at hmem
    rw [hs] at hmem
    exact lt_irrefl _ (((normalizeByMaxFloor_spec _ hnn).2.2.2.1 hsmall).2 1 hmem)

/-- C6 (amended): `SpectralMigrationAnalyzer.calculateBandEnergies` and
`EmotionalResonanceTranslator.calculateBandEnergies`, which divide by
`max(energies, 0.0001)`, return one value in [0, 1] per band; the maximum is exactly 1
whenever some band accumulated at least `0.0001`; when every band accumulated less than
`0.0001` each entry is the accumulated energy divided by `0.0001` (hence below 1); and
all entries are 0 when the total accumulated energy is 0. -/
theorem calculateBandEnergies_floor_normalized (s : State)
    (bands : List FrequencyBand) (freqDataL freqDataR : List (WithBot ℝ))
    (hcount : 0 ≤ s.frequencyBands) (hlen : freqDataL.length = freqDataR.length) :
    ((calculateBandEnergies s freqDataL freqDataR).length = s.frequencyBands ∧
      (∀ e ∈ calculateBandEnergies s freqDataL freqDataR, 0 ≤ e ∧ e ≤ 1) ∧
      ((∃ e ∈ bandEnergySums s freqDataL freqDataR, 0.0001 ≤ e) →
        (calculateBandEnergies s freqDataL freqDataR).maximum = ((1 : ℝ) : WithBot ℝ)) ∧
      ((∀ e ∈ bandEnergySums s freqDataL freqDataR, e < 0.0001) →
        calculateBandEnergies s freqDataL freqDataR
          = (bandEnergySums s freqDataL freqDataR).map (fun e => e / 0.0001) ∧
        ∀ e ∈ calculateBandEnergies s freqDataL freqDataR, e < 1) ∧
      ((bandEnergySums s freqDataL freqDataR).sum = 0 →
        ∀ e ∈ calculateBandEnergies s freqDataL freqDataR, e = 0)) ∧
    ((EmotionalResonanceTranslator.calculateBandEnergies bands freqDataL freqDataR).length
        = bands.length ∧
      (∀ e ∈ EmotionalResonanceTranslator.calculateBandEnergies bands freqDataL freqDataR,
        0 ≤ e ∧ e ≤ 1) ∧
      ((∃ e ∈ EmotionalResonanceTranslator.bandEnergySums bands freqDataL freqDataR,
          0.0001 ≤ e) →
        (EmotionalResonanceTranslator.calculateBandEnergies bands freqDataL freqDataR).maximum
          = ((1 : ℝ) : WithBot ℝ)) ∧
      ((∀ e ∈ EmotionalResonanceTranslator.bandEnergySums bands freqDataL freqDataR,
          e < 0.0001) →
        EmotionalResonanceTranslator.calculateBandEnergies bands freqDataL freqDataR
          = (EmotionalResonanceTranslator.bandEnergySums bands freqDataL freqDataR).map
              (fun e => e / 0.0001) ∧
        ∀ e ∈ EmotionalResonanceTranslator.calculateBandEnergies bands freqDataL freqDataR,
          e < 1) ∧
      ((EmotionalResonanceTranslator.bandEnergySums bands freqDataL freqDataR).sum = 0 →
        ∀ e ∈ EmotionalResonanceTranslator.calculateBandEnergies bands freqDataL freqDataR,
          e = 0)) := by
  have _ := hlen
  constructor
  · obtain ⟨hl, hnn⟩ := accumulateBins_spec s.frequencyBands.toNat (findBandIndex s)
      (fun bandIndex => decide (bandIndex ≥ 0)) freqDataL freqDataR
    obtain ⟨h1, h2, h3, h4, h5⟩ := normalizeByMaxFloor_spec
      (bandEnergySums s freqDataL freqDataR) hnn
    refine ⟨?_, h2, h3, h4, h5⟩
    unfold calculateBandEnergies
    rw [h1]
    unfold bandEnergySums
    rw [hl]
    exact Int.toNat_of_nonneg hcount
  · obtain ⟨hl, hnn⟩ := accumulateBins_spec bands.length
      (EmotionalResonanceTranslator.findBandForFrequency bands)
      (fun band => decide (band ≠ -1)) freqDataL freqDataR
    obtain ⟨h1, h2, h3, h4, h5⟩ := normalizeByMaxFloor_spec
      (EmotionalResonanceTranslator.bandEnergySums bands freqDataL freqDataR) hnn
    exact ⟨h1.trans hl, h2, h3, h4, h5⟩

end SpectralMigrationAnalyzer

namespace FrequencyRelationshipEcosystem

/-- C5 (witness): one band over 20 Hz .. 20 kHz and a two-bin spectrum at 0 dB. -/
theorem calculateBandEnergies_normalized_witness :
    ([((0 : ℝ) : WithBot ℝ), ((0 : ℝ) : WithBot ℝ)].length
      = [((0 : ℝ) : WithBot ℝ), ((0 : ℝ) : WithBot ℝ)].length) ∧
    (calculateBandEnergies [{ minFreq := 20, centerFreq := 632, maxFreq := 20000 }]
      [((0 : ℝ) : WithBot ℝ), ((0 : ℝ) : WithBot ℝ)]
      [((0 : ℝ) : WithBot ℝ), ((0 : ℝ) : WithBot ℝ)]).length = 1 ∧
    (∀ e ∈ calculateBandEnergies [{ minFreq := 20, centerFreq := 632, maxFreq := 20000 }]
      [((0 : ℝ) : WithBot ℝ), ((0 : ℝ) : WithBot ℝ)]
      [((0 : ℝ) : WithBot ℝ), ((0 : ℝ) : WithBot ℝ)], 0 ≤ e ∧ e ≤ 1) :=
  ⟨rfl,
    (calculateBandEnergies_normalized [{ minFreq := 20, centerFreq := 632, maxFreq := 20000 }]
      [((0 : ℝ) : WithBot ℝ), ((0 : ℝ) : WithBot ℝ)]
      [((0 : ℝ) : WithBot ℝ), ((0 : ℝ) : WithBot ℝ)] rfl).1,
    (calculateBandEnergies_normalized [{ minFreq := 20, centerFreq := 632, maxFreq := 20000 }]
      [((0 : ℝ) : WithBot ℝ), ((0 : ℝ) : WithBot ℝ)]
      [((0 : ℝ) : WithBot ℝ), ((0 : ℝ) : WithBot ℝ)] rfl).2.1⟩

end FrequencyRelationshipEcosystem

namespace SpectralMigrationAnalyzer

/-- C6 (witness): the default configuration (30 bands) and the two-bin spectrum at
-100 dB: 30 values, all in [0, 1]. -/
theorem calculateBandEnergies_floor_normalized_witness :
    (0 : ℤ) ≤ 30 ∧
    ([((-100 : ℝ) : WithBot ℝ), ((-100 : ℝ) : WithBot ℝ)].length
      = [((-100 : ℝ) : WithBot ℝ), ((-100 : ℝ) : WithBot ℝ)].length) ∧
    (calculateBandEnergies
      { historyLength := 200, frequencyBands := 30, minFreq := 20, maxFreq := 20000,
        logScale := true, spectrumHistory := [],
        bandCenters := generateFrequencyBands 30 20 20000,
        emergingFrequencies := [], fadingFrequencies := [], stableFrequencies := [],
        spectralFluidity := 0, spectralDensity := 0, spectralCenterOfMass := 0,
        spectralEntropyHistory := [] }
      [((-100 : ℝ) : WithBot ℝ), ((-100 : ℝ) : WithBot ℝ)]
      [((-100 : ℝ) : WithBot ℝ), ((-100 : ℝ) : WithBot ℝ)]).length = (30 : ℤ) :=
  ⟨by norm_num, rfl,
    (calculateBandEnergies_floor_normalized
      { historyLength := 200, frequencyBands := 30, minFreq := 20, maxFreq := 20000,
        logScale := true, spectrumHistory := [],
        bandCenters := generateFrequencyBands 30 20 20000,
        emergingFrequencies := [], fadingFrequencies := [], stableFrequencies := [],
        spectralFluidity := 0, spectralDensity := 0, spectralCenterOfMass := 0,
        spectralEntropyHistory := [] }
      (generateLogBands 32 20 20000)
      [((-100 : ℝ) : WithBot ℝ), ((-100 : ℝ) : WithBot ℝ)]
      [((-100 : ℝ) : WithBot ℝ), ((-100 : ℝ) : WithBot ℝ)] (by norm_num) rfl).1.1⟩

end SpectralMigrationAnalyzer

namespace FrequencyRelationshipEcosystem

theorem mathRound_eq_round (x : ℝ) : mathRound x = round x := by
  rw [mathRound, round_eq]

/-- A value is within a tolerance below one half of its rounded value exactly when it is
within that tolerance of some integer. -/
theorem near_round_iff_near_int (x tol : ℝ) (htol : tol ≤ 1 / 2) :
    |x - (mathRound x : ℝ)| < tol ↔ ∃ k : ℤ, |x - (k : ℝ)| < tol := by
  constructor
  · intro h; exact ⟨_, h⟩
  · rintro ⟨k, hk⟩
    have hr : mathRound x = k := by
      rw [mathRound, Int.floor_eq_iff]
      rw [abs_lt] at hk
      constructor <;> linarith
    rw [hr]; exact hk

/-- C7: for bands with positive centre frequencies `fA`, `fB` and a correlation `c`,
`getRelationshipType` returns, when `c > 0.6`, "harmonic" if `fB / fA` or `fA / fB` is
within 0.05 of its rounded value, else "musical" if `12 * log2 (fB / fA)` is within 0.1 of
an integer, else "synergistic"; "cooperative" when `0.3 < c <= 0.6`; "conflicting" when
`c < -0.6`; "competing" when `-0.6 <= c < -0.3`; "neutral" otherwise. -/
theorem getRelationshipType_spec (frequencyBands : List Band) (bandA bandB : ℕ) (a b : Band)
    (c : ℝ) (hA : frequencyBands[bandA]? = some a) (hB : frequencyBands[bandB]? = some b)
    (hfA : 0 < a.centerFreq) (hfB : 0 < b.centerFreq) :
    (c > 0.6 →
      (|b.centerFreq / a.centerFreq - (round (b.centerFreq / a.centerFreq) : ℝ)| < 0.05 ∨
        |a.centerFreq / b.centerFreq - (round (a.centerFreq / b.centerFreq) : ℝ)| < 0.05) →
      getRelationshipType frequencyBands bandA bandB c = some "harmonic") ∧
    (c > 0.6 →
      ¬ (|b.centerFreq / a.centerFreq - (round (b.centerFreq / a.centerFreq) : ℝ)| < 0.05 ∨
        |a.centerFreq / b.centerFreq - (round (a.centerFreq / b.centerFreq) : ℝ)| < 0.05) →
      (∃ k : ℤ, |12 * Real.logb 2 (b.centerFreq / a.centerFreq) - (k : ℝ)| < 0.1) →
      getRelationshipType frequencyBands bandA bandB c = some "musical") ∧
    (c > 0.6 →
      ¬ (|b.centerFreq / a.centerFreq - (round (b.centerFreq / a.centerFreq) : ℝ)| < 0.05 ∨
        |a.centerFreq / b.centerFreq - (round (a.centerFreq / b.centerFreq) : ℝ)| < 0.05) →
      ¬ (∃ k : ℤ, |12 * Real.logb 2 (b.centerFreq / a.centerFreq) - (k : ℝ)| < 0.1) →
      getRelationshipType frequencyBands bandA bandB c = some "synergistic") ∧
    (0.3 < c → c ≤ 0.6 →
      getRelationshipType frequencyBands bandA bandB c = some "cooperative") ∧
    (c < -0.6 → getRelationshipType frequencyBands bandA bandB c = some "conflicting") ∧
    (-0.6 ≤ c → c < -0.3 →
      getRelationshipType frequencyBands bandA bandB c = some "competing") ∧
    (-0.3 ≤ c → c ≤ 0.3 →
      getRelationshipType frequencyBands bandA bandB c = some "neutral") := by
  have hinv : 1 / (b.centerFreq / a.centerFreq) = a.centerFreq / b.centerFreq := by
    rw [one_div_div]
  have hharm : (isNearInteger (b.centerFreq / a.centerFreq) 0.05
        || isNearInteger (1 / (b.centerFreq / a.centerFreq)) 0.05) = true ↔
      (|b.centerFreq / a.centerFreq - (round (b.centerFreq / a.centerFreq) : ℝ)| < 0.05 ∨
        |a.centerFreq / b.centerFreq - (round (a.centerFreq / b.centerFreq) : ℝ)| < 0.05) := by
    rw [hinv]
    simp only [isNearInteger, Bool.or_eq_true, decide_eq_true_eq, mathRound_eq_round]
  have hmus : decide (|12 * Real.logb 2 (b.centerFreq / a.centerFreq)
        - (mathRound (12 * Real.logb 2 (b.centerFreq / a.centerFreq)) : ℝ)| < 0.1) = true ↔
      ∃ k : ℤ, |12 * Real.logb 2 (b.centerFreq / a.centerFreq) - (k : ℝ)| < 0.1 := by
    rw [decide_eq_true_eq]
    exact near_round_iff_near_int _ _ (by norm_num)
  have _ := hfA
  have _ := hfB
  unfold getRelationshipType
  simp only [hA, hB]
  refine ⟨?_, ?_, ?_, ?_, ?_, ?_, ?_⟩
  · intro hc hh
    rw [if_pos hc, if_pos (hharm.2 hh)]
  · intro hc hh hm
    rw [if_pos hc, if_neg (fun h => hh (hharm.1 h)), if_pos (hmus.2 hm)]
  · intro hc hh hm
    rw [if_pos hc, if_neg (fun h => hh (hharm.1 h)), if_neg (fun h => hm (hmus.1 h))]
  · intro h1 h2
    rw [if_neg (not_lt.2 h2), if_pos h1]
  · intro h1
    rw [if_neg (by linarith), if_neg (by linarith), if_pos h1]
  · intro h1 h2
    rw [if_neg (by linarith), if_neg (by linarith), if_neg (not_lt.2 h1), if_pos h2]
  · intro h1 h2
    rw [if_neg (by linarith), if_neg (by linarith), if_neg (by linarith), if_neg (not_lt.2 h1)]

/-- C7 (witness): bands centred at 220 Hz and 440 Hz with correlation 0.7 are classified
"harmonic". -/
theorem getRelationshipType_spec_witness :
    (0 : ℝ) < 220 ∧ (0 : ℝ) < 440 ∧
    getRelationshipType
      [{ minFreq := 200, centerFreq := 220, maxFreq := 300 },
       { minFreq := 400, centerFreq := 440, maxFreq := 500 }] 0 1 0.7 = some "harmonic" :=
  ⟨by norm_num, by norm_num,
    (getRelationshipType_spec
      [{ minFreq := 200, centerFreq := 220, maxFreq := 300 },
       { minFreq := 400, centerFreq := 440, maxFreq := 500 }] 0 1
      { minFreq := 200, centerFreq := 220, maxFreq := 300 }
      { minFreq := 400, centerFreq := 440, maxFreq := 500 } 0.7 rfl rfl
      (by norm_num) (by norm_num)).1 (by norm_num)
      (Or.inl (by
        show |(440 : ℝ) / 220 - (round ((440 : ℝ) / 220) : ℝ)| < 0.05
        rw [show (440 : ℝ) / 220 = ((2 : ℤ) : ℝ) by norm_num, round_intCast]
        norm_num))⟩

end FrequencyRelationshipEcosystem

namespace AudioEngine

/-! ## Clip detection -/

/-- The worker's `detectClipping` is a per-sample count. -/
theorem detectClipping_eq_countP {α : Type} [LinearOrderedField α] (L R : List α) (t : α) :
    detectClipping L R t
      = (List.zip L R).countP (fun s => decide (|s.1| > t ∨ |s.2| > t)) := by
  unfold detectClipping
  have key : ∀ (zs : List (α × α)) (n : ℕ),
      zs.foldl (fun clipCount s =>
        if |s.1| > t ∨ |s.2| > t then clipCount + 1 else clipCount) n
      = n + zs.countP (fun s => decide (|s.1| > t ∨ |s.2| > t)) := by
    intro zs
    induction zs with
    | nil => intro n; simp
    | cons z zs ih =>
      intro n
      rw [List.foldl_cons, ih, List.countP_cons]
      by_cases hz : |z.1| > t ∨ |z.2| > t
      · simp only [hz, if_true, decide_True]; omega
      · simp only [hz, if_false, decide_False]; simp
  rw [key, Nat.zero_add]

/-- A block with one burst in the left channel and a silent right channel: the count is
the length of the burst when the burst value exceeds the threshold. -/
theorem detectClipping_burst {α : Type} [LinearOrderedField α] (pre run post : ℕ) (v t : α)
    (hv : |v| > t) (ht : 0 ≤ t) :
    detectClipping (List.replicate pre 0 ++ (List.replicate run v ++ List.replicate post 0))
      (List.replicate (pre + (run + post)) 0) t = run := by
  rw [detectClipping_eq_countP]
  have hR : List.replicate (pre + (run + post)) (0 : α)
      = List.replicate pre 0 ++ (List.replicate run 0 ++ List.replicate post 0) := by
    rw [List.replicate_add, List.replicate_add]
  have h0 : ¬ (|(0 : α)| > t ∨ |(0 : α)| > t) := by
    simp only [abs_zero, or_self, gt_iff_lt, not_lt]; exact ht
  rw [hR, List.zip_append (by simp), List.zip_append (by simp)]
  simp only [List.zip_replicate', List.countP_append, List.countP_replicate, abs_zero, hv,
    true_or, decide_True, if_true]
  have h0' : ¬ ((0 : α) > t) := by simpa using h0
  simp [h0']


/-- C8 (the code at the failing input): on a 2048-sample block with 5 consecutive samples
at 1.0 in the left channel and silence elsewhere, threshold 0.99, the worker's
`detectClipping` returns 5 (a per-sample count, not one run); and on a block with a single
over-threshold sample, which never forms 3 consecutive samples, it returns 1, not 0. -/
theorem detectClipping_counts_every_sample :
    (List.replicate 1000 (0 : ℝ) ++ (List.replicate 5 1 ++ List.replicate 1043 0)).length = 2048 ∧
    detectClipping (List.replicate 1000 (0 : ℝ) ++ (List.replicate 5 1 ++ List.replicate 1043 0))
      (List.replicate 2048 0) 0.99 = 5 ∧
    detectClipping (List.replicate 1000 (0 : ℝ) ++ (List.replicate 1 1 ++ List.replicate 1047 0))
      (List.replicate 2048 0) 0.99 = 1 :=
  ⟨by rw [List.length_append, List.length_append, List.length_replicate, List.length_replicate,
      List.length_replicate],
    detectClipping_burst 1000 5 1043 1 0.99 (by norm_num) (by norm_num),
    detectClipping_burst 1000 1 1047 1 0.99 (by norm_num) (by norm_num)⟩

end AudioEngine

namespace WaveformController

/-- The sibling `WaveformController.detectClipping` requires 3 consecutive samples: on
the frame `[0, 1, 1, 0, 1, 1, 1, 1, 1, 0]` the run of two samples gives no clipping point
and the run of five gives one point per sample from the third on. -/
theorem detectClipping_debounces :
    detectClipping [(0 : ℚ), 1, 1, 0, 1, 1, 1, 1, 1, 0] [0, 0, 0, 0, 0, 0, 0, 0, 0, 0]
      = [{ channel := "left", position := 4, length := 3 },
         { channel := "left", position := 4, length := 4 },
         { channel := "left", position := 4, length := 5 }] := by
  norm_num [detectClipping, runStep, List.enum, List.enumFrom]

end WaveformController

namespace SpectralMigrationAnalyzer

/-! ## Trend classification -/

/-- The linear 10-sample history from 0.1 to 0.5, written out. -/
theorem ramp_eq : (List.range 10).map (fun (i : ℕ) => (0.1 : ℝ) + (i : ℝ) * (0.4 / 9))
    = [0.1, 0.1 + 1 * (0.4 / 9), 0.1 + 2 * (0.4 / 9), 0.1 + 3 * (0.4 / 9), 0.1 + 4 * (0.4 / 9),
       0.1 + 5 * (0.4 / 9), 0.1 + 6 * (0.4 / 9), 0.1 + 7 * (0.4 / 9), 0.1 + 8 * (0.4 / 9),
       0.1 + 9 * (0.4 / 9)] := by
  simp [List.range, List.range.loop]

/-- The trend of the linear history is its step `0.4 / 9`. -/
theorem calculateTrend_ramp :
    calculateTrend ((List.range 10).map (fun (i : ℕ) => (0.1 : ℝ) + (i : ℝ) * (0.4 / 9)))
      = 0.4 / 9 := by
  rw [ramp_eq]
  norm_num [calculateTrend, List.enum, List.enumFrom]

/-- The volatility of the linear history is at least 0.1 (it is about 0.128). -/
theorem calculateVolatility_ramp :
    0.1 ≤ calculateVolatility
      ((List.range 10).map (fun (i : ℕ) => (0.1 : ℝ) + (i : ℝ) * (0.4 / 9))) := by
  rw [ramp_eq]
  unfold calculateVolatility
  rw [if_neg (by simp)]
  apply Real.le_sqrt_of_sq_le
  norm_num

/-- What one step of the band loop can add to the three lists. -/
theorem classifyStep_sound (acc : Classification) (p : ℕ × BandCenter) :
    (∀ e ∈ (classifyStep acc p).emergingFrequencies, e ∈ acc.emergingFrequencies ∨
      (e.bandIndex = p.1 ∧ 10 ≤ p.2.history.length ∧
        calculateTrend (p.2.history.drop (p.2.history.length - 10)) > 0.1 ∧ p.2.energy > 0.2)) ∧
    (∀ e ∈ (classifyStep acc p).fadingFrequencies, e ∈ acc.fadingFrequencies ∨
      (e.bandIndex = p.1 ∧ 10 ≤ p.2.history.length ∧
        calculateTrend (p.2.history.drop (p.2.history.length - 10)) < -0.1)) ∧
    (∀ e ∈ (classifyStep acc p).stableFrequencies, e ∈ acc.stableFrequencies ∨
      (e.bandIndex = p.1 ∧ 10 ≤ p.2.history.length ∧
        |calculateTrend (p.2.history.drop (p.2.history.length - 10))| < 0.05 ∧
        calculateVolatility (p.2.history.drop (p.2.history.length - 10)) < 0.1 ∧
        p.2.energy > 0.3)) := by
  unfold classifyStep
  simp only []
  split_ifs with h1 h2 h3 h4
  · exact ⟨fun e he => Or.inl he, fun e he => Or.inl he, fun e he => Or.inl he⟩
  · refine ⟨fun e he => ?_, fun e he => Or.inl he, fun e he => Or.inl he⟩
    rcases List.mem_append.1 he with h | h
    · exact Or.inl h
    · rw [List.mem_singleton.1 h]
      exact Or.inr ⟨rfl, not_lt.1 h1, h2.1, h2.2⟩
  · refine ⟨fun e he => Or.inl he, fun e he => ?_, fun e he => Or.inl he⟩
    rcases List.mem_append.1 he with h | h
    · exact Or.inl h
    · rw [List.mem_singleton.1 h]
      exact Or.inr ⟨rfl, not_lt.1 h1, h3.1⟩
  · refine ⟨fun e he => Or.inl he, fun e he => Or.inl he, fun e he => ?_⟩
    rcases List.mem_append.1 he with h | h
    · exact Or.inl h
    · rw [List.mem_singleton.1 h]
      exact Or.inr ⟨rfl, not_lt.1 h1, h4.1, h4.2.1, h4.2.2⟩
  · exact ⟨fun e he => Or.inl he, fun e he => Or.inl he, fun e he => Or.inl he⟩

/-- Every entry of the three lists built by the band loop comes from a band that passed the
corresponding test. -/
theorem classify_foldl_sound (bands : List (ℕ × BandCenter)) :
    ∀ acc : Classification,
    (∀ e ∈ (bands.foldl classifyStep acc).emergingFrequencies, e ∈ acc.emergingFrequencies ∨
      ∃ p ∈ bands, e.bandIndex = p.1 ∧ 10 ≤ p.2.history.length ∧
        calculateTrend (p.2.history.drop (p.2.history.length - 10)) > 0.1 ∧ p.2.energy > 0.2) ∧
    (∀ e ∈ (bands.foldl classifyStep acc).fadingFrequencies, e ∈ acc.fadingFrequencies ∨
      ∃ p ∈ bands, e.bandIndex = p.1 ∧ 10 ≤ p.2.history.length ∧
        calculateTrend (p.2.history.drop (p.2.history.length - 10)) < -0.1) ∧
    (∀ e ∈ (bands.foldl classifyStep acc).stableFrequencies, e ∈ acc.stableFrequencies ∨
      ∃ p ∈ bands, e.bandIndex = p.1 ∧ 10 ≤ p.2.history.length ∧
        |calculateTrend (p.2.history.drop (p.2.history.length - 10))| < 0.05 ∧
        calculateVolatility (p.2.history.drop (p.2.history.length - 10)) < 0.1 ∧
        p.2.energy > 0.3) := by
  induction bands with
  | nil =>
    intro acc
    exact ⟨fun e he => Or.inl he, fun e he => Or.inl he, fun e he => Or.inl he⟩
  | cons p bands ih =>
    intro acc
    obtain ⟨s1, s2, s3⟩ := classifyStep_sound acc p
    obtain ⟨i1, i2, i3⟩ := ih (classifyStep acc p)
    simp only [List.foldl_cons]
    refine ⟨fun e he => ?_, fun e he => ?_, fun e he => ?_⟩
    · rcases i1 e he with h | ⟨q, hq, hc⟩
      · rcases s1 e h with h' | h'
        · exact Or.inl h'
        · exact Or.inr ⟨p, List.mem_cons_self _ _, h'⟩
      · exact Or.inr ⟨q, List.mem_cons_of_mem _ hq, hc⟩
    · rcases i2 e he with h | ⟨q, hq, hc⟩
      · rcases s2 e h with h' | h'
        · exact Or.inl h'
        · exact Or.inr ⟨p, List.mem_cons_self _ _, h'⟩
      · exact Or.inr ⟨q, List.mem_cons_of_mem _ hq, hc⟩
    · rcases i3 e he with h | ⟨q, hq, hc⟩
      · rcases s3 e h with h' | h'
        · exact Or.inl h'
        · exact Or.inr ⟨p, List.mem_cons_self _ _, h'⟩
      · exact Or.inr ⟨q, List.mem_cons_of_mem _ hq, hc⟩

/-- A band whose history is the linear ramp from 0.1 to 0.5 is put in none of the three
lists by `analyzeSpectralMigration`. -/
theorem ramp_band_unclassified (s : State) (i : ℕ) (band : BandCenter)
    (hframes : 10 ≤ s.spectrumHistory.length) (hband : s.bandCenters[i]? = some band)
    (hhist : band.history
      = (List.range 10).map (fun (k : ℕ) => (0.1 : ℝ) + (k : ℝ) * (0.4 / 9))) :
    (∀ e ∈ (analyzeSpectralMigration s).emergingFrequencies, e.bandIndex ≠ i) ∧
    (∀ e ∈ (analyzeSpectralMigration s).fadingFrequencies, e.bandIndex ≠ i) ∧
    (∀ e ∈ (analyzeSpectralMigration s).stableFrequencies, e.bandIndex ≠ i) := by
  have hlen : band.history.length = 10 := by rw [hhist]; simp
  have hrecent : band.history.drop (band.history.length - 10) = band.history := by
    rw [hlen]; rfl
  have htrend : calculateTrend (band.history.drop (band.history.length - 10)) = 0.4 / 9 := by
    rw [hrecent, hhist]; exact calculateTrend_ramp
  have hvol : 0.1 ≤ calculateVolatility (band.history.drop (band.history.length - 10)) := by
    rw [hrecent, hhist]; exact calculateVolatility_ramp
  have hp : ∀ p ∈ s.bandCenters.enum, p.1 = i → p.2 = band := by
    intro p hp hi
    have := List.mk_mem_enum_iff_getElem?.1 (show (p.1, p.2) ∈ s.bandCenters.enum from hp)
    rw [hi, hband] at this
    exact (Option.some.inj this).symm
  unfold analyzeSpectralMigration
  split_ifs with hshort
  · omega
  · obtain ⟨f1, f2, f3⟩ := classify_foldl_sound s.bandCenters.enum
      { emergingFrequencies := [], fadingFrequencies := [], stableFrequencies := [] }
    refine ⟨fun e he hi => ?_, fun e he hi => ?_, fun e he hi => ?_⟩
    · rcases f1 e he with h | ⟨p, hpm, hidx, _, ht, _⟩
      · simp at h
      · rw [hp p hpm (hidx ▸ hi), htrend] at ht
        norm_num at ht
    · rcases f2 e he with h | ⟨p, hpm, hidx, _, ht⟩
      · simp at h
      · rw [hp p hpm (hidx ▸ hi), htrend] at ht
        norm_num at ht
    · rcases f3 e he with h | ⟨p, hpm, hidx, _, _, hv, _⟩
      · simp at h
      · rw [hp p hpm (hidx ▸ hi)] at hv
        linarith


/-- C9 (as stated, refuted): for the 10-sample history rising linearly from 0.1 to 0.5
the trend is not greater than 0.1 (it is `0.4 / 9`), and for an analyzer holding ten frames
and one band with that history and current energy 0.5, `analyzeSpectralMigration` leaves
`emergingFrequencies` empty. -/
theorem ramp_trend_not_above_threshold :
    ¬ (calculateTrend ((List.range 10).map (fun (k : ℕ) => (0.1 : ℝ) + (k : ℝ) * (0.4 / 9)))
        > 0.1) ∧
    (analyzeSpectralMigration
      { historyLength := 200, frequencyBands := 1, minFreq := 20, maxFreq := 20000,
        logScale := true, spectrumHistory := List.replicate 10 [1],
        bandCenters := [
          { frequency := 20, index := 0, energy := 0.5,
            history := (List.range 10).map (fun (k : ℕ) => (0.1 : ℝ) + (k : ℝ) * (0.4 / 9)) }],
        emergingFrequencies := [], fadingFrequencies := [], stableFrequencies := [],
        spectralFluidity := 0, spectralDensity := 0, spectralCenterOfMass := 0,
        spectralEntropyHistory := [] }).emergingFrequencies = [] := by
  constructor
  · rw [calculateTrend_ramp]; norm_num
  · rw [List.eq_nil_iff_forall_not_mem]
    intro e he
    unfold analyzeSpectralMigration at he
    rw [if_neg (by simp)] at he
    rcases (classify_foldl_sound _ _).1 e he with h1 | ⟨p, hp, _, _, ht, _⟩
    · simp at h1
    · simp only [List.enum, List.enumFrom, List.mem_singleton] at hp
      simp only [hp, List.length_map, List.length_range, Nat.sub_self, List.drop_zero] at ht
      rw [calculateTrend_ramp] at ht
      norm_num at ht

/-- C9 (amended): for the 10-sample band history that rises linearly from 0.1 to 0.5,
`calculateTrend` returns the step `0.4 / 9` (about 0.044), which is not greater than 0.1,
and `analyzeSpectralMigration`, with the band's current energy 0.5, does not place that
band in `emergingFrequencies`; the band is in none of the three lists. -/
theorem ramp_trend_and_classification (s : State) (i : ℕ) (band : BandCenter)
    (hframes : 10 ≤ s.spectrumHistory.length) (hband : s.bandCenters[i]? = some band)
    (hhist : band.history
      = (List.range 10).map (fun (k : ℕ) => (0.1 : ℝ) + (k : ℝ) * (0.4 / 9)))
    (henergy : band.energy = 0.5) :
    calculateTrend band.history = 0.4 / 9 ∧ ¬ (calculateTrend band.history > 0.1) ∧
    (∀ e ∈ (analyzeSpectralMigration s).emergingFrequencies, e.bandIndex ≠ i) ∧
    (∀ e ∈ (analyzeSpectralMigration s).fadingFrequencies, e.bandIndex ≠ i) ∧
    (∀ e ∈ (analyzeSpectralMigration s).stableFrequencies, e.bandIndex ≠ i) := by
  have _ := henergy
  refine ⟨by rw [hhist]; exact calculateTrend_ramp, ?_,
    ramp_band_unclassified s i band hframes hband hhist⟩
  rw [hhist, calculateTrend_ramp]
  norm_num

/-- C9 (witness): ten frames and one band with the linear history and energy 0.5. -/
theorem ramp_trend_and_classification_witness :
    10 ≤ (List.replicate 10 [(1 : ℝ)]).length ∧
    calculateTrend ((List.range 10).map (fun (k : ℕ) => (0.1 : ℝ) + (k : ℝ) * (0.4 / 9)))
      = 0.4 / 9 ∧
    (∀ e ∈ (analyzeSpectralMigration
      { historyLength := 200, frequencyBands := 1, minFreq := 20, maxFreq := 20000,
        logScale := true, spectrumHistory := List.replicate 10 [1],
        bandCenters := [
          { frequency := 20, index := 0, energy := 0.5,
            history := (List.range 10).map (fun (k : ℕ) => (0.1 : ℝ) + (k : ℝ) * (0.4 / 9)) }],
        emergingFrequencies := [], fadingFrequencies := [], stableFrequencies := [],
        spectralFluidity := 0, spectralDensity := 0, spectralCenterOfMass := 0,
        spectralEntropyHistory := [] }).emergingFrequencies, e.bandIndex ≠ 0) :=
  ⟨by simp,
    (ramp_trend_and_classification
      { historyLength := 200, frequencyBands := 1, minFreq := 20, maxFreq := 20000,
        logScale := true, spectrumHistory := List.replicate 10 [1],
        bandCenters := [
          { frequency := 20, index := 0, energy := 0.5,
            history := (List.range 10).map (fun (k : ℕ) => (0.1 : ℝ) + (k : ℝ) * (0.4 / 9)) }],
        emergingFrequencies := [], fadingFrequencies := [], stableFrequencies := [],
        spectralFluidity := 0, spectralDensity := 0, spectralCenterOfMass := 0,
        spectralEntropyHistory := [] } 0
      { frequency := 20, index := 0, energy := 0.5,
        history := (List.range 10).map (fun (k : ℕ) => (0.1 : ℝ) + (k : ℝ) * (0.4 / 9)) }
      (by simp) rfl rfl rfl).1,
    (ramp_trend_and_classification
      { historyLength := 200, frequencyBands := 1, minFreq := 20, maxFreq := 20000,
        logScale := true, spectrumHistory := List.replicate 10 [1],
        bandCenters := [
          { frequency := 20, index := 0, energy := 0.5,
            history := (List.range 10).map (fun (k : ℕ) => (0.1 : ℝ) + (k : ℝ) * (0.4 / 9)) }],
        emergingFrequencies := [], fadingFrequencies := [], stableFrequencies := [],
        spectralFluidity := 0, spectralDensity := 0, spectralCenterOfMass := 0,
        spectralEntropyHistory := [] } 0
      { frequency := 20, index := 0, energy := 0.5,
        history := (List.range 10).map (fun (k : ℕ) => (0.1 : ℝ) + (k : ℝ) * (0.4 / 9)) }
      (by simp) rfl rfl rfl).2.2.1⟩

/-! ## Construction -/

theorem length_bandCenters (n : ℤ) (minFreq maxFreq : ℝ) :
    (generateFrequencyBands n minFreq maxFreq).length = n.toNat := by
  simp [generateFrequencyBands]

end SpectralMigrationAnalyzer

namespace PhaseCoherenceHeatmap

theorem length_generateFrequencyBands (n : ℤ) (minFreq maxFreq : ℝ) :
    (generateFrequencyBands n minFreq maxFreq).length = n.toNat := by
  simp [generateFrequencyBands, generateLogBands]

/-- With the canvas present and a non-negative band count the constructor succeeds. -/
theorem construct_ok (options : Options) (h : 0 ≤ orDefaultInt options.frequencyBands 24) :
    ∃ s, construct true options = Except.ok s ∧
      s.bands = generateFrequencyBands (orDefaultInt options.frequencyBands 24)
        (orDefault options.minFreq 20) (orDefault options.maxFreq 20000) := by
  unfold construct createEmptyPhaseData baseCanvasController
  simp only [if_true, if_neg (not_lt.2 h)]
  exact ⟨_, rfl, rfl⟩

/-- With a negative band count `createEmptyPhaseData` throws the `RangeError`. -/
theorem construct_rangeError (options : Options)
    (h : orDefaultInt options.frequencyBands 24 < 0) :
    construct true options = Except.error JSError.rangeError := by
  unfold construct createEmptyPhaseData baseCanvasController
  simp only [if_true, if_pos h]
  rfl

/-- C10 (as stated, refuted): a requested band count of 0 with `minFreq = 100 >= maxFreq
= 50` does not make the construction of the band set fail: `PhaseCoherenceHeatmap` builds
24 bands (the default count replaces 0) and `SpectralMigrationAnalyzer` builds 30 band
centres; `SpectralMigrationAnalyzer` also accepts the band count -3 (no band centres). -/
theorem construct_accepts_invalid_parameters :
    (∃ s, construct true { frequencyBands := some 0, minFreq := some 100, maxFreq := some 50 }
        = Except.ok s ∧ s.bands.length = 24) ∧
    (∃ s, SpectralMigrationAnalyzer.construct true
        { frequencyBands := some 0, minFreq := some 100, maxFreq := some 50 }
        = Except.ok s ∧ s.bandCenters.length = 30) ∧
    (∃ s, SpectralMigrationAnalyzer.construct true
        { frequencyBands := some (-3), minFreq := some 100, maxFreq := some 50 }
        = Except.ok s ∧ s.bandCenters = []) := by
  refine ⟨?_, ⟨_, rfl, ?_⟩, ⟨_, rfl, ?_⟩⟩
  · obtain ⟨s, hs, hb⟩ := construct_ok
      { frequencyBands := some 0, minFreq := some 100, maxFreq := some 50 } (by decide)
    refine ⟨s, hs, ?_⟩
    rw [hb, length_generateFrequencyBands]
    rfl
  · rw [SpectralMigrationAnalyzer.length_bandCenters]; rfl
  · simp [SpectralMigrationAnalyzer.generateFrequencyBands, orDefaultInt]

/-- C10 (amended): building the band set performs no validation of the band count,
`minFreq` and `maxFreq`. With the canvas present, `SpectralMigrationAnalyzer` is
constructed for all option values, with as many band centres as the band count (0 replaced
by the default 30, none for a negative count); `PhaseCoherenceHeatmap` is constructed, with
as many bands as the band count (0 replaced by the default 24), for every `minFreq` and
`maxFreq` whenever the band count is not negative, and fails with the `RangeError` of the
array allocation when the band count is negative. -/
theorem construct_without_validation (options : Options)
    (migrationOptions : SpectralMigrationAnalyzer.Options) :
    (∃ s, SpectralMigrationAnalyzer.construct true migrationOptions = Except.ok s ∧
      s.bandCenters.length = (orDefaultInt migrationOptions.frequencyBands 30).toNat) ∧
    (0 ≤ orDefaultInt options.frequencyBands 24 →
      ∃ s, construct true options = Except.ok s ∧
        s.bands.length = (orDefaultInt options.frequencyBands 24).toNat) ∧
    (orDefaultInt options.frequencyBands 24 < 0 →
      construct true options = Except.error JSError.rangeError) := by
  refine ⟨⟨_, rfl, SpectralMigrationAnalyzer.length_bandCenters _ _ _⟩, ?_, ?_⟩
  · intro h
    obtain ⟨s, hs, hb⟩ := construct_ok options h
    exact ⟨s, hs, by rw [hb, length_generateFrequencyBands]⟩
  · exact construct_rangeError options

/-- C10 (witness): 12 bands requested with `minFreq = maxFreq = 1000`, and -3 bands. -/
theorem construct_without_validation_witness :
    (0 : ℤ) ≤ orDefaultInt (some 12) 24 ∧
    (∃ s, construct true
        { frequencyBands := some 12, minFreq := some 1000, maxFreq := some 1000 }
        = Except.ok s ∧ s.bands.length = 12) ∧
    orDefaultInt (some (-3)) 24 < 0 ∧
    construct true { frequencyBands := some (-3) } = Except.error JSError.rangeError :=
  ⟨by decide,
    (construct_without_validation
      { frequencyBands := some 12, minFreq := some 1000, maxFreq := some 1000 } {}).2.1
      (by decide),
    by decide,
    (construct_without_validation { frequencyBands := some (-3) } {}).2.2 (by decide)⟩

end PhaseCoherenceHeatmap

namespace AudioEngine

/-! ## The short-term and momentary windows of `calculateLUFS` -/

/-- The gate factor `10 ^ (-1.0691)` is at most one tenth. -/
theorem gateFactor_le_tenth : (10 : ℝ) ^ (-1.0691 : ℝ) ≤ 1 / 10 := by
  have h : (10 : ℝ) ^ (-1.0691 : ℝ) ≤ (10 : ℝ) ^ (-1 : ℝ) :=
    Real.rpow_le_rpow_of_exponent_le (by norm_num) (by norm_num)
  rw [Real.rpow_neg_one] at h
  linarith

/-- The result of `calculateLUFS` on a computed path (some block exists and the gate
retains some block). -/
theorem calculateLUFS_computed (fuel : ℕ) (L R : List ℝ) (sampleRate : ℝ) (blocks : List ℝ)
    (hblocks : lufsBlocks fuel L R sampleRate = some blocks) (hne : blocks ≠ [])
    (hgate : gatedBlocks blocks ≠ []) :
    calculateLUFS fuel L R sampleRate = some
      { integrated := lufsOfPower (gatedMean blocks),
        shortTerm := lufsOfPower
          (((channelPowers L R).take (min (channelPowers L R).length ⌊sampleRate * 3⌋₊)).sum
            / ((min (channelPowers L R).length ⌊sampleRate * 3⌋₊ : ℕ) : ℝ)),
        momentary := lufsOfPower
          (((channelPowers L R).take (min (channelPowers L R).length ⌊sampleRate * 0.4⌋₊)).sum
            / ((min (channelPowers L R).length ⌊sampleRate * 0.4⌋₊ : ℕ) : ℝ)) } := by
  unfold calculateLUFS
  rw [hblocks]
  simp only [applyFilters]
  rw [if_neg (by simpa using hne), if_neg (by simpa using hgate)]

/-- One executed iteration of the block loop. -/
theorem blockLoop_step {α : Type} [Field α] (powers : List α) (blockSize fuel : ℕ) (i : ℚ)
    (acc : List α) (h : i < (powers.length : ℚ) - (blockSize : ℚ)) :
    blockLoop powers blockSize (fuel + 1) i acc
      = blockLoop powers blockSize fuel (i + (blockSize : ℚ) / 4)
          (acc ++ [((powers.drop ⌊i⌋₊).take blockSize).sum / (blockSize : α)]) := by
  rw [blockLoop, if_pos h]

/-- A window of `a` samples starting `k` samples into `a` zeros followed by `b` ones
holds `k` ones. -/
theorem sum_window (a b k : ℕ) (hka : k ≤ a) (hkb : k ≤ b) :
    (((List.replicate a (0 : ℝ) ++ List.replicate b 1).drop k).take a).sum = (k : ℝ) := by
  rw [List.drop_append_of_le_length (by simpa using hka), List.drop_replicate,
    List.take_append_eq_append_take, List.take_replicate, List.take_replicate]
  simp only [List.length_replicate, List.sum_append, List.sum_replicate, smul_eq_mul, mul_zero,
    mul_one, zero_add]
  have h1 : min a (a - k) = a - k := min_eq_right (Nat.sub_le _ _)
  have h2 : a - (a - k) = k := by omega
  have h3 : min k b = k := min_eq_left hkb
  simp [h1, h2, h3]

/-- The powers of a left channel of `a` zeros then `b` ones against a silent right
channel. -/
theorem channelPowers_silent_then_loud (a b : ℕ) :
    channelPowers (List.replicate a (0 : ℝ) ++ List.replicate b 1) (List.replicate (a + b) 0)
      = List.replicate a 0 ++ List.replicate b 1 := by
  unfold channelPowers
  rw [List.replicate_add, List.zipWith_append _ _ _ _ _ (by simp)]
  simp [List.zipWith_replicate]

/-- At 44100 Hz (block size 17640, stride 4410), 17640 silent samples followed by 17641
samples at 1.0 in the left channel give the five blocks `[0, 1/4, 1/2, 3/4, 1]`. -/
theorem lufsBlocks_silent_start :
    lufsBlocks 6 (List.replicate 17640 0 ++ List.replicate 17641 1) (List.replicate 35281 0) 44100
      = some [0, 1 / 4, 1 / 2, 3 / 4, 1] := by
  have hbs : ⌊(44100 : ℝ) * 0.4⌋₊ = 17640 := by norm_num
  have hp := channelPowers_silent_then_loud 17640 17641
  unfold lufsBlocks applyFilters
  rw [hbs]
  rw [show (35281 : ℕ) = 17640 + 17641 from rfl, hp]
  have hlen : (List.replicate 17640 (0 : ℝ) ++ List.replicate 17641 1).length = 35281 := by
    rw [List.length_append, List.length_replicate, List.length_replicate]
  rw [blockLoop_step _ _ 5 _ _ (by rw [hlen]; norm_num)]
  rw [blockLoop_step _ _ 4 _ _ (by rw [hlen]; norm_num)]
  rw [blockLoop_step _ _ 3 _ _ (by rw [hlen]; norm_num)]
  rw [blockLoop_step _ _ 2 _ _ (by rw [hlen]; norm_num)]
  rw [blockLoop_step _ _ 1 _ _ (by rw [hlen]; norm_num)]
  rw [blockLoop_short _ _ 0 _ _ (by rw [hlen]; norm_num)]
  have e0 : ⌊(0 : ℚ)⌋₊ = 0 := by norm_num
  have e1 : ⌊(0 : ℚ) + ((17640 : ℕ) : ℚ) / 4⌋₊ = 4410 := by norm_num
  have e2 : ⌊(0 : ℚ) + ((17640 : ℕ) : ℚ) / 4 + ((17640 : ℕ) : ℚ) / 4⌋₊ = 8820 := by norm_num
  have e3 : ⌊(0 : ℚ) + ((17640 : ℕ) : ℚ) / 4 + ((17640 : ℕ) : ℚ) / 4
      + ((17640 : ℕ) : ℚ) / 4⌋₊ = 13230 := by norm_num
  have e4 : ⌊(0 : ℚ) + ((17640 : ℕ) : ℚ) / 4 + ((17640 : ℕ) : ℚ) / 4
      + ((17640 : ℕ) : ℚ) / 4 + ((17640 : ℕ) : ℚ) / 4⌋₊ = 17640 := by norm_num
  rw [e0, e1, e2, e3, e4, sum_window _ _ 0 (by norm_num) (by norm_num),
    sum_window _ _ 4410 (by norm_num) (by norm_num),
    sum_window _ _ 8820 (by norm_num) (by norm_num),
    sum_window _ _ 13230 (by norm_num) (by norm_num),
    sum_window _ _ 17640 (by norm_num) (by norm_num)]
  norm_num

/-- The relative gate on the blocks `[0, 1/4, 1/2, 3/4, 1]` removes only the silent
block. -/
theorem gatedBlocks_silent_start :
    gatedBlocks [0, 1 / 4, 1 / 2, 3 / 4, 1] = [1 / 4, 1 / 2, 3 / 4, 1] := by
  have hmean : ungatedMean [0, 1 / 4, 1 / 2, 3 / 4, 1] = 1 / 2 := by
    norm_num [ungatedMean, arrayMean]
  have hm : 0 < ungatedMean [0, 1 / 4, 1 / 2, 3 / 4, 1] := by rw [hmean]; norm_num
  have ht := (relativeThreshold_of_pos _ hm).2
  rw [hmean] at ht
  have hf := gateFactor_bounds
  have hf2 := gateFactor_le_tenth
  have h0 : ¬ ((0 : ℝ) > relativeThreshold [0, 1 / 4, 1 / 2, 3 / 4, 1]) := by
    rw [ht]; push_neg; nlinarith
  have h1 : (1 / 4 : ℝ) > relativeThreshold [0, 1 / 4, 1 / 2, 3 / 4, 1] := by
    rw [ht]; linarith
  have h2 : (1 / 2 : ℝ) > relativeThreshold [0, 1 / 4, 1 / 2, 3 / 4, 1] := by
    rw [ht]; linarith
  have h3 : (3 / 4 : ℝ) > relativeThreshold [0, 1 / 4, 1 / 2, 3 / 4, 1] := by
    rw [ht]; linarith
  have h4 : (1 : ℝ) > relativeThreshold [0, 1 / 4, 1 / 2, 3 / 4, 1] := by
    rw [ht]; linarith
  simp only [gatedBlocks, List.filter_cons, h0, h1, h2, h3, h4, decide_True, decide_False,
    if_true, List.filter_nil, Bool.false_eq_true, if_false]


/-- The samples after the first `a + 1` of `a` zeros followed by `b` ones are `b - 1`
ones. -/
theorem sum_tail_window (a b : ℕ) :
    ((List.replicate a (0 : ℝ) ++ List.replicate b 1).drop (a + 1)).sum = ((b - 1 : ℕ) : ℝ) := by
  rw [List.drop_append_eq_append_drop, List.drop_replicate, List.drop_replicate,
    List.length_replicate]
  have h1 : a - (a + 1) = 0 := by omega
  have h2 : a + 1 - a = 1 := by omega
  rw [h1, h2]
  simp

/-- The value of `calculateLUFS` on the input of `lufsBlocks_silent_start`: the momentary
value is `-Infinity`, the logarithm of the zero mean power of the first 17640 samples. -/
theorem calculateLUFS_silent_start :
    ∃ r, calculateLUFS 6 (List.replicate 17640 0 ++ List.replicate 17641 1)
        (List.replicate 35281 0) 44100 = some r ∧
      r.momentary = ⊥ ∧ r.integrated = lufsOfPower (5 / 8) := by
  have h := calculateLUFS_computed 6 _ _ 44100 _ lufsBlocks_silent_start (by simp)
    (by rw [gatedBlocks_silent_start]; simp)
  refine ⟨_, h, ?_, ?_⟩
  · have hbs : ⌊(44100 : ℝ) * 0.4⌋₊ = 17640 := by norm_num
    simp only []
    rw [show (35281 : ℕ) = 17640 + 17641 from rfl, channelPowers_silent_then_loud, hbs]
    have hlen : (List.replicate 17640 (0 : ℝ) ++ List.replicate 17641 1).length = 35281 := by
      rw [List.length_append, List.length_replicate, List.length_replicate]
    rw [hlen, show min 35281 17640 = 17640 from rfl]
    have := sum_window 17640 17641 0 (by norm_num) (by norm_num)
    rw [List.drop_zero] at this
    rw [this]
    simp [lufsOfPower, log10]
  · simp only []
    rw [gatedMean, gatedBlocks_silent_start]
    norm_num [arrayMean]

/-- C17 (as stated, refuted): at 44100 Hz, for 17640 silent samples followed by 17641
samples at 1.0 (left channel), `calculateLUFS` returns computed values, and its momentary
value (`-Infinity`, from the first 17640 power samples) is not the loudness of the mean of
the last 17640 power samples (mean 1, loudness -0.691). -/
theorem calculateLUFS_momentary_not_most_recent :
    ∃ blocks r,
      lufsBlocks 6 (List.replicate 17640 0 ++ List.replicate 17641 1) (List.replicate 35281 0)
        44100 = some blocks ∧ blocks ≠ [] ∧ gatedBlocks blocks ≠ [] ∧
      calculateLUFS 6 (List.replicate 17640 0 ++ List.replicate 17641 1)
        (List.replicate 35281 0) 44100 = some r ∧
      r.momentary ≠ lufsOfPower (arrayMean
        ((channelPowers (List.replicate 17640 (0 : ℝ) ++ List.replicate 17641 1)
          (List.replicate 35281 0)).drop
          ((channelPowers (List.replicate 17640 (0 : ℝ) ++ List.replicate 17641 1)
            (List.replicate 35281 0)).length
            - min (channelPowers (List.replicate 17640 (0 : ℝ) ++ List.replicate 17641 1)
                (List.replicate 35281 0)).length ⌊(44100 : ℝ) * 0.4⌋₊))) := by
  obtain ⟨r, hr, hm, _⟩ := calculateLUFS_silent_start
  refine ⟨_, r, lufsBlocks_silent_start, by simp, by rw [gatedBlocks_silent_start]; simp, hr, ?_⟩
  rw [hm]
  have hbs : ⌊(44100 : ℝ) * 0.4⌋₊ = 17640 := by norm_num
  rw [show (35281 : ℕ) = 17640 + 17641 from rfl, channelPowers_silent_then_loud, hbs]
  have hlen : (List.replicate 17640 (0 : ℝ) ++ List.replicate 17641 1).length = 35281 := by
    rw [List.length_append, List.length_replicate, List.length_replicate]
  rw [hlen, show 35281 - min 35281 17640 = 17640 + 1 from rfl]
  have hsum := sum_tail_window 17640 17641
  have hl : ((List.replicate 17640 (0 : ℝ) ++ List.replicate 17641 1).drop (17640 + 1)).length
      = 17640 := by
    rw [List.length_drop, hlen]
  unfold arrayMean
  rw [hsum, hl]
  have : ((17641 - 1 : ℕ) : ℝ) / ((17640 : ℕ) : ℝ) = 1 := by norm_num
  rw [this]
  simp [lufsOfPower, log10]

/-- C17 (amended): whenever `calculateLUFS` returns computed (non-floor) values for an
input of `n` power samples, shortTerm equals `-0.691 + 10 * log10` of the mean of the
first `min(n, floor(3 * sampleRate))` power samples and momentary equals
`-0.691 + 10 * log10` of the mean of the first `min(n, floor(0.4 * sampleRate))` power
samples, both ungated; when `n` does not exceed the window length the window is the whole
input, so that it is also the most recent one. -/
theorem calculateLUFS_windows_from_start (fuel : ℕ) (L R : List ℝ) (sampleRate : ℝ)
    (blocks : List ℝ) (r : LUFS)
    (hblocks : lufsBlocks fuel L R sampleRate = some blocks) (hne : blocks ≠ [])
    (hgate : gatedBlocks blocks ≠ []) (hr : calculateLUFS fuel L R sampleRate = some r) :
    r.shortTerm = lufsOfPower (arrayMean
      ((channelPowers L R).take (min (channelPowers L R).length ⌊sampleRate * 3⌋₊))) ∧
    r.momentary = lufsOfPower (arrayMean
      ((channelPowers L R).take (min (channelPowers L R).length ⌊sampleRate * 0.4⌋₊))) ∧
    ((channelPowers L R).length ≤ ⌊sampleRate * 3⌋₊ →
      (channelPowers L R).take (min (channelPowers L R).length ⌊sampleRate * 3⌋₊)
        = (channelPowers L R).drop ((channelPowers L R).length
            - min (channelPowers L R).length ⌊sampleRate * 3⌋₊)) ∧
    ((channelPowers L R).length ≤ ⌊sampleRate * 0.4⌋₊ →
      (channelPowers L R).take (min (channelPowers L R).length ⌊sampleRate * 0.4⌋₊)
        = (channelPowers L R).drop ((channelPowers L R).length
            - min (channelPowers L R).length ⌊sampleRate * 0.4⌋₊)) := by
  have h := calculateLUFS_computed fuel L R sampleRate blocks hblocks hne hgate
  rw [hr] at h
  have hr' := Option.some.inj h
  have hlen : ∀ k : ℕ, ((channelPowers L R).take (min (channelPowers L R).length k)).length
      = min (channelPowers L R).length k := by
    intro k
    rw [List.length_take]
    exact min_eq_left (min_le_left _ _)
  have hwhole : ∀ k : ℕ, (channelPowers L R).length ≤ k →
      (channelPowers L R).take (min (channelPowers L R).length k)
        = (channelPowers L R).drop ((channelPowers L R).length
            - min (channelPowers L R).length k) := by
    intro k hk
    rw [min_eq_left hk, Nat.sub_self, List.drop_zero, List.take_length]
  refine ⟨?_, ?_, hwhole _, hwhole _⟩
  · rw [hr']
    simp only [arrayMean, hlen]
  · rw [hr']
    simp only [arrayMean, hlen]

/-- C17 (witness): at 10 Hz the input `[1, 0, 0, 0, 0, 0]` (left) gives computed values;
the momentary value is the loudness of the mean of the first 4 power samples. -/
theorem calculateLUFS_windows_from_start_witness :
    lufsBlocks 3 [1, 0, 0, 0, 0, 0] [0, 0, 0, 0, 0, 0] 10 = some [1 / 4, 0] ∧
    ([1 / 4, 0] : List ℝ) ≠ [] ∧ gatedBlocks [1 / 4, 0] ≠ [] ∧
    ∃ r, calculateLUFS 3 [1, 0, 0, 0, 0, 0] [0, 0, 0, 0, 0, 0] 10 = some r ∧
      r.momentary = lufsOfPower (arrayMean
        ((channelPowers [1, 0, 0, 0, 0, 0] [0, 0, 0, 0, 0, 0]).take
          (min (channelPowers ([1, 0, 0, 0, 0, 0] : List ℝ) [0, 0, 0, 0, 0, 0]).length
            ⌊(10 : ℝ) * 0.4⌋₊))) :=
  ⟨lufsBlocks_example, by simp, by rw [gatedBlocks_example]; simp,
    _, calculateLUFS_computed 3 _ _ 10 _ lufsBlocks_example (by simp)
      (by rw [gatedBlocks_example]; simp),
    (calculateLUFS_windows_from_start 3 [1, 0, 0, 0, 0, 0] [0, 0, 0, 0, 0, 0] 10 [1 / 4, 0] _
      lufsBlocks_example (by simp) (by rw [gatedBlocks_example]; simp)
      (calculateLUFS_computed 3 _ _ 10 _ lufsBlocks_example (by simp)
        (by rw [gatedBlocks_example]; simp))).2.1⟩

/-- C18 (the code at the failing input): at 44100 Hz, for two channels of 35281 finite
samples (left: 17640 zeros then 17641 samples at 1.0; right: silence), `calculateLUFS`
returns computed values whose momentary value is `-Infinity`: the mean power of the first
17640 samples, which is passed to `log10`, is 0. -/
theorem calculateLUFS_momentary_negInfinity :
    (List.replicate 17640 (0 : ℝ) ++ List.replicate 17641 1).length
      = (List.replicate 35281 (0 : ℝ)).length ∧
    ∃ r, calculateLUFS 6 (List.replicate 17640 0 ++ List.replicate 17641 1)
        (List.replicate 35281 0) 44100 = some r ∧ r.momentary = ⊥ := by
  obtain ⟨r, hr, hm, _⟩ := calculateLUFS_silent_start
  refine ⟨?_, r, hr, hm⟩
  rw [List.length_append, List.length_replicate, List.length_replicate, List.length_replicate]

end AudioEngine


namespace SpectralMigrationAnalyzer

/-! ## Classification of the bands -/

/-- The band indices listed in the three result lists. -/
theorem classifyStep_indices (acc : Classification) (p : ℕ × BandCenter) :
    ((10 ≤ p.2.history.length ∧ specEmerging p.2) →
      (classifyStep acc p).emergingFrequencies.map (fun e => e.bandIndex)
          = acc.emergingFrequencies.map (fun e => e.bandIndex) ++ [p.1] ∧
        (classifyStep acc p).fadingFrequencies = acc.fadingFrequencies ∧
        (classifyStep acc p).stableFrequencies = acc.stableFrequencies) ∧
    ((10 ≤ p.2.history.length ∧ specFading p.2) →
      (classifyStep acc p).emergingFrequencies = acc.emergingFrequencies ∧
        (classifyStep acc p).fadingFrequencies.map (fun e => e.bandIndex)
          = acc.fadingFrequencies.map (fun e => e.bandIndex) ++ [p.1] ∧
        (classifyStep acc p).stableFrequencies = acc.stableFrequencies) ∧
    ((10 ≤ p.2.history.length ∧ specStable p.2) →
      (classifyStep acc p).emergingFrequencies = acc.emergingFrequencies ∧
        (classifyStep acc p).fadingFrequencies = acc.fadingFrequencies ∧
        (classifyStep acc p).stableFrequencies.map (fun e => e.bandIndex)
          = acc.stableFrequencies.map (fun e => e.bandIndex) ++ [p.1]) ∧
    (¬ (10 ≤ p.2.history.length ∧ specEmerging p.2) →
      ¬ (10 ≤ p.2.history.length ∧ specFading p.2) →
      ¬ (10 ≤ p.2.history.length ∧ specStable p.2) → classifyStep acc p = acc) := by
  have hany : (((p.2.history.take (p.2.history.length - 1)).drop
      (p.2.history.length - 11)).any (fun e => decide (e > 0.4)) = true)
      ↔ ∃ e ∈ precedingWindow p.2, e > 0.4 := by
    simp [precedingWindow, List.any_eq_true]
  unfold classifyStep
  simp only []
  by_cases hlen : p.2.history.length < 10
  · rw [if_pos hlen]
    exact ⟨fun h => absurd h.1 (by omega), fun h => absurd h.1 (by omega),
      fun h => absurd h.1 (by omega), fun _ _ _ => rfl⟩
  · rw [if_neg hlen]
    have hl : 10 ≤ p.2.history.length := by omega
    by_cases hE : calculateTrend (p.2.history.drop (p.2.history.length - 10)) > 0.1
        ∧ p.2.energy > 0.2
    · rw [if_pos hE]
      have hsE : specEmerging p.2 := hE
      refine ⟨fun _ => ⟨by simp, rfl, rfl⟩, fun h => absurd hsE h.2.1,
        fun h => absurd hsE h.2.1, fun h => absurd ⟨hl, hsE⟩ h⟩
    · rw [if_neg hE]
      have hsE : ¬ specEmerging p.2 := hE
      by_cases hF : calculateTrend (p.2.history.drop (p.2.history.length - 10)) < -0.1 ∧
          ((p.2.history.take (p.2.history.length - 1)).drop (p.2.history.length - 11)).any
            (fun e => decide (e > 0.4)) = true
      · rw [if_pos hF]
        have hsF : specFading p.2 := ⟨hsE, hF.1, hany.1 hF.2⟩
        refine ⟨fun h => absurd h.2 hsE, fun _ => ⟨rfl, by simp, rfl⟩,
          fun h => absurd hsF h.2.2.1, fun _ h _ => absurd ⟨hl, hsF⟩ h⟩
      · rw [if_neg hF]
        have hsF : ¬ specFading p.2 := fun h => hF ⟨h.2.1, hany.2 h.2.2⟩
        by_cases hS : |calculateTrend (p.2.history.drop (p.2.history.length - 10))| < 0.05 ∧
            calculateVolatility (p.2.history.drop (p.2.history.length - 10)) < 0.1 ∧
            p.2.energy > 0.3
        · rw [if_pos hS]
          have hsS : specStable p.2 := ⟨hsE, hsF, hS⟩
          refine ⟨fun h => absurd h.2 hsE, fun h => absurd h.2 hsF,
            fun _ => ⟨rfl, rfl, by simp⟩, fun _ _ h => absurd ⟨hl, hsS⟩ h⟩
        · rw [if_neg hS]
          refine ⟨fun h => absurd h.2 hsE, fun h => absurd h.2 hsF,
            fun h => absurd ⟨h.2.2.2.1, h.2.2.2.2⟩ hS, fun _ _ _ => rfl⟩

theorem classifyStep_mem_count (acc : Classification) (p : ℕ × BandCenter) (i : ℕ) :
    (i ∈ (classifyStep acc p).emergingFrequencies.map (fun e => e.bandIndex) ↔
      i ∈ acc.emergingFrequencies.map (fun e => e.bandIndex) ∨
        (p.1 = i ∧ 10 ≤ p.2.history.length ∧ specEmerging p.2)) ∧
    (i ∈ (classifyStep acc p).fadingFrequencies.map (fun e => e.bandIndex) ↔
      i ∈ acc.fadingFrequencies.map (fun e => e.bandIndex) ∨
        (p.1 = i ∧ 10 ≤ p.2.history.length ∧ specFading p.2)) ∧
    (i ∈ (classifyStep acc p).stableFrequencies.map (fun e => e.bandIndex) ↔
      i ∈ acc.stableFrequencies.map (fun e => e.bandIndex) ∨
        (p.1 = i ∧ 10 ≤ p.2.history.length ∧ specStable p.2)) ∧
    (((classifyStep acc p).emergingFrequencies.map (fun e => e.bandIndex)).count i
      + ((classifyStep acc p).fadingFrequencies.map (fun e => e.bandIndex)).count i
      + ((classifyStep acc p).stableFrequencies.map (fun e => e.bandIndex)).count i
      ≤ (acc.emergingFrequencies.map (fun e => e.bandIndex)).count i
        + (acc.fadingFrequencies.map (fun e => e.bandIndex)).count i
        + (acc.stableFrequencies.map (fun e => e.bandIndex)).count i
        + [p.1].count i) := by
  obtain ⟨hE, hF, hS, hN⟩ := classifyStep_indices acc p
  by_cases cE : 10 ≤ p.2.history.length ∧ specEmerging p.2
  · obtain ⟨h1, h2, h3⟩ := hE cE
    have nF : ¬ specFading p.2 := fun h => h.1 cE.2
    have nS : ¬ specStable p.2 := fun h => h.1 cE.2
    rw [h1, h2, h3]
    refine ⟨?_, ?_, ?_, ?_⟩
    · simp only [List.mem_append, List.mem_singleton]
      constructor
      · rintro (h | h)
        · exact Or.inl h
        · exact Or.inr ⟨h.symm, cE⟩
      · rintro (h | h)
        · exact Or.inl h
        · exact Or.inr h.1.symm
    · exact ⟨Or.inl, fun h => h.elim id (fun h => absurd h.2.2 nF)⟩
    · exact ⟨Or.inl, fun h => h.elim id (fun h => absurd h.2.2 nS)⟩
    · rw [List.count_append]; omega
  · by_cases cF : 10 ≤ p.2.history.length ∧ specFading p.2
    · obtain ⟨h1, h2, h3⟩ := hF cF
      have nS : ¬ specStable p.2 := fun h => h.2.1 cF.2
      rw [h1, h2, h3]
      refine ⟨?_, ?_, ?_, ?_⟩
      · exact ⟨Or.inl, fun h => h.elim id (fun h => absurd ⟨h.2.1, h.2.2⟩ cE)⟩
      · simp only [List.mem_append, List.mem_singleton]
        constructor
        · rintro (h | h)
          · exact Or.inl h
          · exact Or.inr ⟨h.symm, cF⟩
        · rintro (h | h)
          · exact Or.inl h
          · exact Or.inr h.1.symm
      · exact ⟨Or.inl, fun h => h.elim id (fun h => absurd h.2.2 nS)⟩
      · rw [List.count_append]; omega
    · by_cases cS : 10 ≤ p.2.history.length ∧ specStable p.2
      · obtain ⟨h1, h2, h3⟩ := hS cS
        rw [h1, h2, h3]
        refine ⟨?_, ?_, ?_, ?_⟩
        · exact ⟨Or.inl, fun h => h.elim id (fun h => absurd ⟨h.2.1, h.2.2⟩ cE)⟩
        · exact ⟨Or.inl, fun h => h.elim id (fun h => absurd ⟨h.2.1, h.2.2⟩ cF)⟩
        · simp only [List.mem_append, List.mem_singleton]
          constructor
          · rintro (h | h)
            · exact Or.inl h
            · exact Or.inr ⟨h.symm, cS⟩
          · rintro (h | h)
            · exact Or.inl h
            · exact Or.inr h.1.symm
        · rw [List.count_append]; omega
      · rw [hN cE cF cS]
        refine ⟨?_, ?_, ?_, by omega⟩
        · exact ⟨Or.inl, fun h => h.elim id (fun h => absurd ⟨h.2.1, h.2.2⟩ cE)⟩
        · exact ⟨Or.inl, fun h => h.elim id (fun h => absurd ⟨h.2.1, h.2.2⟩ cF)⟩
        · exact ⟨Or.inl, fun h => h.elim id (fun h => absurd ⟨h.2.1, h.2.2⟩ cS)⟩

theorem classify_foldl_mem_count (bands : List (ℕ × BandCenter)) (i : ℕ) :
    ∀ acc : Classification,
    (i ∈ (bands.foldl classifyStep acc).emergingFrequencies.map (fun e => e.bandIndex) ↔
      i ∈ acc.emergingFrequencies.map (fun e => e.bandIndex) ∨
        ∃ p ∈ bands, p.1 = i ∧ 10 ≤ p.2.history.length ∧ specEmerging p.2) ∧
    (i ∈ (bands.foldl classifyStep acc).fadingFrequencies.map (fun e => e.bandIndex) ↔
      i ∈ acc.fadingFrequencies.map (fun e => e.bandIndex) ∨
        ∃ p ∈ bands, p.1 = i ∧ 10 ≤ p.2.history.length ∧ specFading p.2) ∧
    (i ∈ (bands.foldl classifyStep acc).stableFrequencies.map (fun e => e.bandIndex) ↔
      i ∈ acc.stableFrequencies.map (fun e => e.bandIndex) ∨
        ∃ p ∈ bands, p.1 = i ∧ 10 ≤ p.2.history.length ∧ specStable p.2) ∧
    (((bands.foldl classifyStep acc).emergingFrequencies.map (fun e => e.bandIndex)).count i
      + ((bands.foldl classifyStep acc).fadingFrequencies.map (fun e => e.bandIndex)).count i
      + ((bands.foldl classifyStep acc).stableFrequencies.map (fun e => e.bandIndex)).count i
      ≤ (acc.emergingFrequencies.map (fun e => e.bandIndex)).count i
        + (acc.fadingFrequencies.map (fun e => e.bandIndex)).count i
        + (acc.stableFrequencies.map (fun e => e.bandIndex)).count i
        + (bands.map Prod.fst).count i) := by
  induction bands with
  | nil => intro acc; simp
  | cons p bands ih =>
    intro acc
    obtain ⟨s1, s2, s3, s4⟩ := classifyStep_mem_count acc p i
    obtain ⟨i1, i2, i3, i4⟩ := ih (classifyStep acc p)
    simp only [List.foldl_cons]
    refine ⟨?_, ?_, ?_, ?_⟩
    · rw [i1, s1, or_assoc]
      simp only [List.mem_cons, exists_eq_or_imp]
    · rw [i2, s2, or_assoc]
      simp only [List.mem_cons, exists_eq_or_imp]
    · rw [i3, s3, or_assoc]
      simp only [List.mem_cons, exists_eq_or_imp]
    · have hc : ((p :: bands).map Prod.fst).count i
          = [p.1].count i + (bands.map Prod.fst).count i := by
        rw [List.map_cons, show p.1 :: bands.map Prod.fst = [p.1] ++ bands.map Prod.fst from rfl,
          List.count_append]
      omega

/-- When the analysis runs, the three result lists are those built by the band loop. -/
theorem analyzeSpectralMigration_lists (s : State) (hframes : 10 ≤ s.spectrumHistory.length) :
    (analyzeSpectralMigration s).emergingFrequencies
      = (s.bandCenters.enum.foldl classifyStep
          { emergingFrequencies := [], fadingFrequencies := [],
            stableFrequencies := [] }).emergingFrequencies ∧
    (analyzeSpectralMigration s).fadingFrequencies
      = (s.bandCenters.enum.foldl classifyStep
          { emergingFrequencies := [], fadingFrequencies := [],
            stableFrequencies := [] }).fadingFrequencies ∧
    (analyzeSpectralMigration s).stableFrequencies
      = (s.bandCenters.enum.foldl classifyStep
          { emergingFrequencies := [], fadingFrequencies := [],
            stableFrequencies := [] }).stableFrequencies := by
  unfold analyzeSpectralMigration
  rw [if_neg (by omega)]
  exact ⟨rfl, rfl, rfl⟩

/-- C19: when `analyzeSpectralMigration` runs, a band with at least 10 history samples
is listed as emerging exactly when its trend over the last 10 samples exceeds 0.1 and its
current energy exceeds 0.2; as fading exactly when it is not emerging, the trend is below
-0.1 and some energy of the preceding window exceeded 0.4; as stable exactly when it is
neither and the absolute trend is below 0.05, the volatility below 0.1 and the energy
above 0.3; and the band indices of the three lists together contain no index twice, so
that every band appears at most once and the lists are pairwise disjoint. -/
theorem analyzeSpectralMigration_classification (s : State) (i : ℕ) (band : BandCenter)
    (hframes : 10 ≤ s.spectrumHistory.length) (hband : s.bandCenters[i]? = some band)
    (hhist : 10 ≤ band.history.length) :
    ((∃ e ∈ (analyzeSpectralMigration s).emergingFrequencies, e.bandIndex = i)
      ↔ specEmerging band) ∧
    ((∃ e ∈ (analyzeSpectralMigration s).fadingFrequencies, e.bandIndex = i)
      ↔ specFading band) ∧
    ((∃ e ∈ (analyzeSpectralMigration s).stableFrequencies, e.bandIndex = i)
      ↔ specStable band) ∧
    (((analyzeSpectralMigration s).emergingFrequencies.map (fun e => e.bandIndex)
      ++ (analyzeSpectralMigration s).fadingFrequencies.map (fun e => e.bandIndex)
      ++ (analyzeSpectralMigration s).stableFrequencies.map (fun e => e.bandIndex)).Nodup) := by
  obtain ⟨hE, hF, hS⟩ := analyzeSpectralMigration_lists s hframes
  have hmem : (i, band) ∈ s.bandCenters.enum := List.mk_mem_enum_iff_getElem?.2 hband
  have huniq : ∀ p ∈ s.bandCenters.enum, p.1 = i → p.2 = band := by
    intro p hp hi
    have := List.mk_mem_enum_iff_getElem?.1 (show (p.1, p.2) ∈ s.bandCenters.enum from hp)
    rw [hi, hband] at this
    exact (Option.some.inj this).symm
  have hex : ∀ C : BandCenter → Prop,
      (∃ p ∈ s.bandCenters.enum, p.1 = i ∧ 10 ≤ p.2.history.length ∧ C p.2) ↔ C band := by
    intro C
    constructor
    · rintro ⟨p, hp, hi, _, hc⟩
      rw [← huniq p hp hi]; exact hc
    · intro hc
      exact ⟨(i, band), hmem, rfl, hhist, hc⟩
  obtain ⟨m1, m2, m3, _⟩ := classify_foldl_mem_count s.bandCenters.enum i
    { emergingFrequencies := [], fadingFrequencies := [], stableFrequencies := [] }
  rw [hE, hF, hS]
  refine ⟨?_, ?_, ?_, ?_⟩
  · rw [← hex specEmerging, ← List.mem_map]
    rw [m1]; simp
  · rw [← hex specFading, ← List.mem_map]
    rw [m2]; simp
  · rw [← hex specStable, ← List.mem_map]
    rw [m3]; simp
  · rw [List.nodup_iff_count_le_one]
    intro k
    obtain ⟨_, _, _, c⟩ := classify_foldl_mem_count s.bandCenters.enum k
      { emergingFrequencies := [], fadingFrequencies := [], stableFrequencies := [] }
    have hr : (s.bandCenters.enum.map Prod.fst).count k ≤ 1 := by
      rw [List.enum_map_fst]
      exact List.nodup_iff_count_le_one.1 (List.nodup_range _) k
    simp only [List.count_append]
    simp only [List.map_nil, List.count_nil] at c
    omega

end SpectralMigrationAnalyzer

namespace History

theorem length_pushShift_le {α : Type} (history : List α) (x : α) (historyLength : ℤ) :
    (pushShift history x historyLength).length ≤ history.length + 1 := by
  unfold pushShift
  simp only []
  split_ifs <;> simp

end History

namespace SpectralMigrationAnalyzer

/-- C19 (witness): ten frames and one band whose history rises by 0.11 per sample to its
current energy 0.99: the band is listed as emerging. -/
theorem analyzeSpectralMigration_classification_witness :
    10 ≤ (List.replicate 10 [(1 : ℝ)]).length ∧
    10 ≤ ([0, 0.11, 0.22, 0.33, 0.44, 0.55, 0.66, 0.77, 0.88, 0.99] : List ℝ).length ∧
    ∃ e ∈ (analyzeSpectralMigration
      { historyLength := 200, frequencyBands := 1, minFreq := 20, maxFreq := 20000,
        logScale := true, spectrumHistory := List.replicate 10 [1],
        bandCenters := [
          { frequency := 20, index := 0, energy := 0.99,
            history := [0, 0.11, 0.22, 0.33, 0.44, 0.55, 0.66, 0.77, 0.88, 0.99] }],
        emergingFrequencies := [], fadingFrequencies := [], stableFrequencies := [],
        spectralFluidity := 0, spectralDensity := 0, spectralCenterOfMass := 0,
        spectralEntropyHistory := [] }).emergingFrequencies, e.bandIndex = 0 :=
  ⟨by simp, by simp,
    (analyzeSpectralMigration_classification
      { historyLength := 200, frequencyBands := 1, minFreq := 20, maxFreq := 20000,
        logScale := true, spectrumHistory := List.replicate 10 [1],
        bandCenters := [
          { frequency := 20, index := 0, energy := 0.99,
            history := [0, 0.11, 0.22, 0.33, 0.44, 0.55, 0.66, 0.77, 0.88, 0.99] }],
        emergingFrequencies := [], fadingFrequencies := [], stableFrequencies := [],
        spectralFluidity := 0, spectralDensity := 0, spectralCenterOfMass := 0,
        spectralEntropyHistory := [] } 0
      { frequency := 20, index := 0, energy := 0.99,
        history := [0, 0.11, 0.22, 0.33, 0.44, 0.55, 0.66, 0.77, 0.88, 0.99] }
      (by simp) rfl (by simp)).1.2
      (by
        constructor
        · norm_num [recentTrend, calculateTrend, List.enum, List.enumFrom]
        · norm_num)⟩

/-! ## Cold start -/

theorem calculateTrend_short (values : List ℝ) (h : values.length < 2) :
    calculateTrend values = 0 := by
  unfold calculateTrend
  rw [if_pos h]

theorem calculateVolatility_short (values : List ℝ) (h : values.length < 2) :
    calculateVolatility values = 0 := by
  unfold calculateVolatility
  rw [if_pos h]

/-- Below 10 frames of history `updateMetrics` leaves the analysis results untouched. -/
theorem updateMetrics_skips (s : State) (L R : List (WithBot ℝ))
    (h : s.spectrumHistory.length + 1 < 10) :
    (updateMetrics s L R).emergingFrequencies = s.emergingFrequencies ∧
    (updateMetrics s L R).fadingFrequencies = s.fadingFrequencies ∧
    (updateMetrics s L R).stableFrequencies = s.stableFrequencies ∧
    (updateMetrics s L R).spectralFluidity = s.spectralFluidity ∧
    (updateMetrics s L R).spectralDensity = s.spectralDensity ∧
    (updateMetrics s L R).spectrumHistory.length ≤ s.spectrumHistory.length + 1 := by
  have hl := History.length_pushShift_le s.spectrumHistory (calculateBandEnergies s L R)
    s.historyLength
  unfold updateMetrics analyzeSpectralMigration
  simp only []
  rw [if_pos (by omega)]
  exact ⟨rfl, rfl, rfl, rfl, rfl, hl⟩

theorem updateAll_skips (frames : List (List (WithBot ℝ) × List (WithBot ℝ))) :
    ∀ s : State, s.spectrumHistory.length + frames.length < 10 →
    (updateAll s frames).emergingFrequencies = s.emergingFrequencies ∧
    (updateAll s frames).fadingFrequencies = s.fadingFrequencies ∧
    (updateAll s frames).stableFrequencies = s.stableFrequencies ∧
    (updateAll s frames).spectralFluidity = s.spectralFluidity ∧
    (updateAll s frames).spectralDensity = s.spectralDensity := by
  induction frames with
  | nil => intro s _; exact ⟨rfl, rfl, rfl, rfl, rfl⟩
  | cons x frames ih =>
    intro s h
    simp only [List.length_cons] at h
    obtain ⟨h1, h2, h3, h4, h5, h6⟩ := updateMetrics_skips s x.1 x.2 (by omega)
    obtain ⟨i1, i2, i3, i4, i5⟩ := ih (updateMetrics s x.1 x.2) (by omega)
    unfold updateAll at i1 i2 i3 i4 i5 ⊢
    simp only [List.foldl_cons]
    exact ⟨i1.trans h1, i2.trans h2, i3.trans h3, i4.trans h4, i5.trans h5⟩

/-- C20: a freshly constructed analyzer (non-negative band count) that has ingested fewer
than 10 frames has skipped every analysis: `emergingFrequencies`, `fadingFrequencies` and
`stableFrequencies` are empty and `spectralFluidity`, `spectralDensity` are 0; and
`calculateTrend` and `calculateVolatility` return 0 for every list of fewer than 2
values. -/
theorem cold_start_reports_nothing (options : Options) (s : State)
    (frames : List (List (WithBot ℝ) × List (WithBot ℝ)))
    (hcons : construct true options = Except.ok s) (hcount : 0 ≤ s.frequencyBands)
    (hvalid : ∀ frame ∈ frames, frame.1.length = frame.2.length)
    (hfew : frames.length < 10) :
    (updateAll s frames).emergingFrequencies = [] ∧
    (updateAll s frames).fadingFrequencies = [] ∧
    (updateAll s frames).stableFrequencies = [] ∧
    (updateAll s frames).spectralFluidity = 0 ∧
    (updateAll s frames).spectralDensity = 0 ∧
    (∀ values : List ℝ, values.length < 2 →
      calculateTrend values = 0 ∧ calculateVolatility values = 0) := by
  have _ := hcount
  have _ := hvalid
  have hs : s.spectrumHistory = [] ∧ s.emergingFrequencies = [] ∧ s.fadingFrequencies = [] ∧
      s.stableFrequencies = [] ∧ s.spectralFluidity = 0 ∧ s.spectralDensity = 0 := by
    unfold construct baseCanvasController at hcons
    simp only [if_true] at hcons
    have := Except.ok.inj hcons
    subst this
    exact ⟨rfl, rfl, rfl, rfl, rfl, rfl⟩
  obtain ⟨h0, h1, h2, h3, h4, h5⟩ := hs
  obtain ⟨i1, i2, i3, i4, i5⟩ := updateAll_skips frames s (by rw [h0]; simpa using hfew)
  exact ⟨i1.trans h1, i2.trans h2, i3.trans h3, i4.trans h4, i5.trans h5,
    fun values hv => ⟨calculateTrend_short values hv, calculateVolatility_short values hv⟩⟩

/-- C20 (witness): the default analyzer after one two-bin frame at -100 dB. -/
theorem cold_start_reports_nothing_witness :
    (0 : ℤ) ≤ 30 ∧
    (updateAll
      { historyLength := 200, frequencyBands := 30, minFreq := 20, maxFreq := 20000,
        logScale := true, spectrumHistory := [],
        bandCenters := generateFrequencyBands 30 20 20000,
        emergingFrequencies := [], fadingFrequencies := [], stableFrequencies := [],
        spectralFluidity := 0, spectralDensity := 0, spectralCenterOfMass := 0,
        spectralEntropyHistory := [] }
      [([((-100 : ℝ) : WithBot ℝ), ((-100 : ℝ) : WithBot ℝ)],
        [((-100 : ℝ) : WithBot ℝ), ((-100 : ℝ) : WithBot ℝ)])]).emergingFrequencies = [] :=
  ⟨by norm_num,
    (cold_start_reports_nothing {} _
      [([((-100 : ℝ) : WithBot ℝ), ((-100 : ℝ) : WithBot ℝ)],
        [((-100 : ℝ) : WithBot ℝ), ((-100 : ℝ) : WithBot ℝ)])]
      construct_default (by norm_num) (by simp) (by simp)).1⟩

end SpectralMigrationAnalyzer

/-! ## Logarithmic bands -/

/-- The band edge `10 ^ (logMin + step * k)` grows with `k` when the step is positive. -/
theorem logEdge_lt (logMin step x y : ℝ) (hstep : 0 < step) (hxy : x < y) :
    (10 : ℝ) ^ (logMin + step * x) < (10 : ℝ) ^ (logMin + step * y) := by
  apply Real.rpow_lt_rpow_of_exponent_lt (by norm_num)
  nlinarith

theorem logEdge_le (logMin step x y : ℝ) (hstep : 0 < step) (hxy : x ≤ y) :
    (10 : ℝ) ^ (logMin + step * x) ≤ (10 : ℝ) ^ (logMin + step * y) := by
  apply Real.rpow_le_rpow_of_exponent_le (by norm_num)
  nlinarith

/-- The step of the band edges is positive for `0 < minFreq < maxFreq` and a positive
band count. -/
theorem logStep_pos (n : ℤ) (minFreq maxFreq : ℝ) (hn : 1 ≤ n) (hmin : 0 < minFreq)
    (hlt : minFreq < maxFreq) :
    0 < (Real.logb 10 maxFreq - Real.logb 10 minFreq) / (n : ℝ) := by
  have h := Real.logb_lt_logb (b := 10) (by norm_num) hmin hlt
  have hn' : (0 : ℝ) < (n : ℝ) := by exact_mod_cast (by omega : (0 : ℤ) < n)
  exact div_pos (by linarith) hn'

/-- The band at position `k` of `generateLogBands`. -/
theorem generateLogBands_getElem? (n : ℤ) (minFreq maxFreq : ℝ) (k : ℕ) (hk : k < n.toNat) :
    (generateLogBands n minFreq maxFreq)[k]? = some
      { index := k,
        lowFreq := (10 : ℝ) ^ (Real.logb 10 minFreq
          + (Real.logb 10 maxFreq - Real.logb 10 minFreq) / (n : ℝ) * (k : ℝ)),
        highFreq := (10 : ℝ) ^ (Real.logb 10 minFreq
          + (Real.logb 10 maxFreq - Real.logb 10 minFreq) / (n : ℝ) * ((k : ℝ) + 1)),
        centerFreq := Real.sqrt ((10 : ℝ) ^ (Real.logb 10 minFreq
            + (Real.logb 10 maxFreq - Real.logb 10 minFreq) / (n : ℝ) * (k : ℝ))
          * (10 : ℝ) ^ (Real.logb 10 minFreq
            + (Real.logb 10 maxFreq - Real.logb 10 minFreq) / (n : ℝ) * ((k : ℝ) + 1))) } := by
  unfold generateLogBands
  simp only [List.getElem?_map, List.getElem?_range hk, Option.map_some']

theorem generateLogBands_getElem?_none (n : ℤ) (minFreq maxFreq : ℝ) (k : ℕ)
    (hk : n.toNat ≤ k) : (generateLogBands n minFreq maxFreq)[k]? = none := by
  apply List.getElem?_eq_none
  simp [generateLogBands, hk]

namespace PhaseCoherenceHeatmap

/-- Exact arithmetic: for a band count of at least 1 and `0 < minFreq < maxFreq`,
`generateFrequencyBands` returns exactly that many bands; band `k` has
`lowFreq = 10 ^ (logMin + k * step)` and `highFreq = 10 ^ (logMin + (k + 1) * step)` with
`step = (logMax - logMin) / bandCount`, and `lowFreq < centerFreq < highFreq`; consecutive
bands are contiguous; a later band starts at or above the end of an earlier one (increasing
order, no overlap); the first `lowFreq` is `minFreq` and the last `highFreq` is `maxFreq`.
`EmotionalResonanceTranslator.generateFrequencyBands` is the same construction over
20 Hz .. 20 kHz. In doubles the two outer edges are the computed powers
`Math.pow(10, logMin)` and `Math.pow(10, logMin + step * bandCount)`, which the source
does not pin to `minFreq` and `maxFreq`: for the defaults they are `20.000000000000004`
and `20000.000000000004`. -/
theorem generateFrequencyBands_contiguous (n : ℤ) (minFreq maxFreq : ℝ) (hn : 1 ≤ n)
    (hmin : 0 < minFreq) (hlt : minFreq < maxFreq) :
    (generateFrequencyBands n minFreq maxFreq).length = n.toNat ∧
    (∀ k : ℕ, k < n.toNat → ∃ b, (generateFrequencyBands n minFreq maxFreq)[k]? = some b ∧
      b.index = k ∧
      b.lowFreq = (10 : ℝ) ^ (Real.logb 10 minFreq
        + (k : ℝ) * ((Real.logb 10 maxFreq - Real.logb 10 minFreq) / (n : ℝ))) ∧
      b.highFreq = (10 : ℝ) ^ (Real.logb 10 minFreq
        + ((k : ℝ) + 1) * ((Real.logb 10 maxFreq - Real.logb 10 minFreq) / (n : ℝ))) ∧
      b.lowFreq < b.centerFreq ∧ b.centerFreq < b.highFreq) ∧
    (∀ (k : ℕ) (b b' : FrequencyBand),
      (generateFrequencyBands n minFreq maxFreq)[k]? = some b →
      (generateFrequencyBands n minFreq maxFreq)[k + 1]? = some b' →
      b.highFreq = b'.lowFreq) ∧
    (∀ (j k : ℕ) (b b' : FrequencyBand), j < k →
      (generateFrequencyBands n minFreq maxFreq)[j]? = some b →
      (generateFrequencyBands n minFreq maxFreq)[k]? = some b' →
      b.lowFreq < b'.lowFreq ∧ b.highFreq ≤ b'.lowFreq) ∧
    (∃ b, (generateFrequencyBands n minFreq maxFreq)[0]? = some b ∧ b.lowFreq = minFreq) ∧
    (∃ b, (generateFrequencyBands n minFreq maxFreq)[n.toNat - 1]? = some b ∧
      b.highFreq = maxFreq) ∧
    (∀ m : ℤ, EmotionalResonanceTranslator.generateFrequencyBands m
      = generateFrequencyBands m 20 20000) := by
  have hstep := logStep_pos n minFreq maxFreq hn hmin hlt
  have hnpos : 0 < n.toNat := by omega
  have hncast : ((n.toNat : ℕ) : ℝ) = (n : ℝ) := by
    have : ((n.toNat : ℕ) : ℤ) = n := Int.toNat_of_nonneg (by omega)
    exact_mod_cast this
  have hget := generateLogBands_getElem? n minFreq maxFreq
  have hnone := generateLogBands_getElem?_none n minFreq maxFreq
  have hlow : ∀ x : ℝ, 0 < (10 : ℝ) ^ x := fun x => Real.rpow_pos_of_pos (by norm_num) x
  unfold generateFrequencyBands
  refine ⟨by simp [generateLogBands], ?_, ?_, ?_, ?_, ?_, fun m => rfl⟩
  · intro k hk
    refine ⟨_, hget k hk, rfl, by simp only []; ring_nf, by simp only []; ring_nf, ?_, ?_⟩
    · simp only []
      have h1 := logEdge_lt (Real.logb 10 minFreq) _ (k : ℝ) ((k : ℝ) + 1) hstep (by linarith)
      apply Real.lt_sqrt_of_sq_lt
      have := hlow (Real.logb 10 minFreq
        + (Real.logb 10 maxFreq - Real.logb 10 minFreq) / (n : ℝ) * (k : ℝ))
      nlinarith
    · simp only []
      have h1 := logEdge_lt (Real.logb 10 minFreq) _ (k : ℝ) ((k : ℝ) + 1) hstep (by linarith)
      have h0 := hlow (Real.logb 10 minFreq
        + (Real.logb 10 maxFreq - Real.logb 10 minFreq) / (n : ℝ) * (k : ℝ))
      rw [Real.sqrt_lt' (lt_trans h0 h1)]
      nlinarith
  · intro k b b' hb hb'
    have hk : k + 1 < n.toNat := by
      by_contra hcon
      rw [hnone (k + 1) (by omega)] at hb'
      exact Option.noConfusion hb'
    rw [hget k (by omega)] at hb
    rw [hget (k + 1) hk] at hb'
    rw [← Option.some.inj hb, ← Option.some.inj hb']
    simp only [Nat.cast_add, Nat.cast_one]
  · intro j k b b' hjk hb hb'
    have hk : k < n.toNat := by
      by_contra hcon
      rw [hnone k (by omega)] at hb'
      exact Option.noConfusion hb'
    rw [hget j (by omega)] at hb
    rw [hget k hk] at hb'
    rw [← Option.some.inj hb, ← Option.some.inj hb']
    simp only []
    have hjk' : (j : ℝ) < (k : ℝ) := by exact_mod_cast hjk
    have hjk'' : (j : ℝ) + 1 ≤ (k : ℝ) := by exact_mod_cast hjk
    exact ⟨logEdge_lt _ _ _ _ hstep hjk', logEdge_le _ _ _ _ hstep hjk''⟩
  · refine ⟨_, hget 0 hnpos, ?_⟩
    simp only [Nat.cast_zero, mul_zero, add_zero]
    exact Real.rpow_logb (by norm_num) (by norm_num) hmin
  · refine ⟨_, hget (n.toNat - 1) (by omega), ?_⟩
    simp only []
    have hc : ((n.toNat - 1 : ℕ) : ℝ) + 1 = (n : ℝ) := by
      rw [← hncast]
      have : n.toNat - 1 + 1 = n.toNat := by omega
      exact_mod_cast this
    have hn0 : (n : ℝ) ≠ 0 := by
      have : (0 : ℝ) < (n : ℝ) := by exact_mod_cast (by omega : (0 : ℤ) < n)
      exact ne_of_gt this
    rw [hc, div_mul_cancel₀ _ hn0, add_sub_cancel]
    exact Real.rpow_logb (by norm_num) (by norm_num) (lt_trans hmin hlt)

end PhaseCoherenceHeatmap

/-- Bands of `generateLogBands` in increasing position: the earlier band ends at or below
the start of the later one. -/
theorem generateLogBands_ordered (n : ℤ) (minFreq maxFreq : ℝ) (hn : 1 ≤ n)
    (hmin : 0 < minFreq) (hlt : minFreq < maxFreq) (j k : ℕ) (b b' : FrequencyBand)
    (hjk : j < k) (hb : (generateLogBands n minFreq maxFreq)[j]? = some b)
    (hb' : (generateLogBands n minFreq maxFreq)[k]? = some b') :
    b.highFreq ≤ b'.lowFreq := by
  have hstep := logStep_pos n minFreq maxFreq hn hmin hlt
  have hk : k < n.toNat := by
    by_contra hcon
    rw [generateLogBands_getElem?_none n minFreq maxFreq k (by omega)] at hb'
    exact Option.noConfusion hb'
  rw [generateLogBands_getElem? n minFreq maxFreq j (by omega)] at hb
  rw [generateLogBands_getElem? n minFreq maxFreq k hk] at hb'
  rw [← Option.some.inj hb, ← Option.some.inj hb']
  have hjk'' : (j : ℝ) + 1 ≤ (k : ℝ) := by exact_mod_cast hjk
  exact logEdge_le _ _ _ _ hstep hjk''

/-- A value between the first and the last of a sequence of edges lies in one of the
half-open intervals between consecutive edges. -/
theorem exists_interval (e : ℕ → ℝ) (f : ℝ) :
    ∀ n : ℕ, e 0 ≤ f → f < e n → ∃ k, k < n ∧ e k ≤ f ∧ f < e (k + 1) := by
  intro n
  induction n with
  | zero => intro h0 hn; exact absurd (lt_of_le_of_lt h0 hn) (lt_irrefl _)
  | succ n ih =>
    intro h0 hn
    by_cases hf : f < e n
    · obtain ⟨k, hk, h1, h2⟩ := ih h0 hf
      exact ⟨k, by omega, h1, h2⟩
    · exact ⟨n, by omega, not_lt.1 hf, hn⟩

namespace EmotionalResonanceTranslator

/-- The scan of `findBandForFrequency`: either no band contains the frequency and the
result is `-1`, or the result is the position of the first band that contains it. -/
theorem findBandForFrequencyFrom_spec (f : ℝ) (bands : List FrequencyBand) :
    ∀ k : ℕ,
    (findBandForFrequencyFrom f bands k = -1 ∧
      ∀ b ∈ bands, ¬ (b.lowFreq ≤ f ∧ f < b.highFreq)) ∨
    (∃ (j : ℕ) (b : FrequencyBand), bands[j]? = some b ∧
      findBandForFrequencyFrom f bands k = ((k + j : ℕ) : ℤ) ∧
      (b.lowFreq ≤ f ∧ f < b.highFreq)) := by
  induction bands with
  | nil => intro k; left; exact ⟨rfl, by simp⟩
  | cons band rest ih =>
    intro k
    unfold findBandForFrequencyFrom
    by_cases h : f ≥ band.lowFreq ∧ f < band.highFreq
    · right
      rw [if_pos h]
      exact ⟨0, band, by simp, by simp, h⟩
    · rw [if_neg h]
      rcases ih (k + 1) with ⟨h1, h2⟩ | ⟨j, b, hb, hr, hc⟩
      · left
        refine ⟨h1, ?_⟩
        intro b hb
        rcases List.mem_cons.1 hb with hb | hb
        · rw [hb]; exact h
        · exact h2 b hb
      · right
        refine ⟨j + 1, b, by simpa using hb, ?_, hc⟩
        rw [hr]
        congr 1
        omega

/-- The facts about the lookup in the bands of `generateFrequencyBands`. -/
theorem findBandForFrequency_logBands (n : ℤ) (hn : 1 ≤ n) (f : ℝ) :
    (∀ (i j : ℕ) (bi bj : FrequencyBand), (generateFrequencyBands n)[i]? = some bi →
      (generateFrequencyBands n)[j]? = some bj → (bi.lowFreq ≤ f ∧ f < bi.highFreq) →
      (bj.lowFreq ≤ f ∧ f < bj.highFreq) → i = j) ∧
    (∀ (i : ℕ) (b : FrequencyBand), (generateFrequencyBands n)[i]? = some b →
      ((b.lowFreq ≤ f ∧ f < b.highFreq) ↔
        findBandForFrequency (generateFrequencyBands n) f = (i : ℤ))) ∧
    (findBandForFrequency (generateFrequencyBands n) f = -1 ↔ ¬ (20 ≤ f ∧ f < 20000)) ∧
    (findBandForFrequency (generateFrequencyBands n) f ≠ -1 →
      (findBandForFrequency (generateFrequencyBands n) f).toNat
        < (generateFrequencyBands n).length) := by
  have hstep := logStep_pos n 20 20000 hn (by norm_num) (by norm_num)
  have hord := generateLogBands_ordered n 20 20000 hn (by norm_num) (by norm_num)
  have hget := generateLogBands_getElem? n 20 20000
  have hnone := generateLogBands_getElem?_none n 20 20000
  have hncast : ((n.toNat : ℕ) : ℝ) = (n : ℝ) := by
    have : ((n.toNat : ℕ) : ℤ) = n := Int.toNat_of_nonneg (by omega)
    exact_mod_cast this
  have hn0 : (n : ℝ) ≠ 0 := by
    have : (0 : ℝ) < (n : ℝ) := by exact_mod_cast (by omega : (0 : ℤ) < n)
    exact ne_of_gt this
  have he0 : (10 : ℝ) ^ (Real.logb 10 20
      + (Real.logb 10 20000 - Real.logb 10 20) / (n : ℝ) * ((0 : ℕ) : ℝ)) = 20 := by
    simp only [Nat.cast_zero, mul_zero, add_zero]
    exact Real.rpow_logb (by norm_num) (by norm_num) (by norm_num)
  have hen : (10 : ℝ) ^ (Real.logb 10 20
      + (Real.logb 10 20000 - Real.logb 10 20) / (n : ℝ) * ((n.toNat : ℕ) : ℝ)) = 20000 := by
    rw [hncast, div_mul_cancel₀ _ hn0, add_sub_cancel]
    exact Real.rpow_logb (by norm_num) (by norm_num) (by norm_num)
  have huniq : ∀ (i j : ℕ) (bi bj : FrequencyBand), (generateFrequencyBands n)[i]? = some bi →
      (generateFrequencyBands n)[j]? = some bj → (bi.lowFreq ≤ f ∧ f < bi.highFreq) →
      (bj.lowFreq ≤ f ∧ f < bj.highFreq) → i = j := by
    intro i j bi bj hi hj ci cj
    unfold generateFrequencyBands at hi hj
    rcases Nat.lt_trichotomy i j with h | h | h
    · have := hord i j bi bj h hi hj
      linarith [ci.2, cj.1]
    · exact h
    · have := hord j i bj bi h hj hi
      linarith [ci.1, cj.2]
  have hcontains : ∀ (j : ℕ) (b : FrequencyBand), (generateFrequencyBands n)[j]? = some b →
      (b.lowFreq ≤ f ∧ f < b.highFreq) → 20 ≤ f ∧ f < 20000 := by
    intro j b hb hc
    unfold generateFrequencyBands at hb
    have hj : j < n.toNat := by
      by_contra hcon
      rw [hnone j (by omega)] at hb
      exact Option.noConfusion hb
    rw [hget j hj] at hb
    rw [← Option.some.inj hb] at hc
    simp only [] at hc
    have h1 := logEdge_le (Real.logb 10 20) _ ((0 : ℕ) : ℝ) (j : ℝ) hstep (by simp)
    have h2 := logEdge_le (Real.logb 10 20) _ ((j : ℝ) + 1) ((n.toNat : ℕ) : ℝ) hstep
      (by exact_mod_cast hj)
    rw [he0] at h1
    rw [hen] at h2
    exact ⟨le_trans h1 hc.1, lt_of_lt_of_le hc.2 h2⟩
  have hcover : 20 ≤ f ∧ f < 20000 → ∃ (j : ℕ) (b : FrequencyBand),
      (generateFrequencyBands n)[j]? = some b ∧ (b.lowFreq ≤ f ∧ f < b.highFreq) := by
    intro hf
    obtain ⟨k, hk, h1, h2⟩ := exists_interval
      (fun k => (10 : ℝ) ^ (Real.logb 10 20
        + (Real.logb 10 20000 - Real.logb 10 20) / (n : ℝ) * (k : ℝ))) f n.toNat
      (by simp only []; rw [he0]; exact hf.1) (by simp only []; rw [hen]; exact hf.2)
    refine ⟨k, _, hget k hk, h1, ?_⟩
    simp only [Nat.cast_add, Nat.cast_one] at h2
    exact h2
  have hscan := findBandForFrequencyFrom_spec f (generateFrequencyBands n) 0
  refine ⟨huniq, ?_, ?_, ?_⟩
  · intro i b hb
    unfold findBandForFrequency
    constructor
    · intro hc
      rcases hscan with ⟨_, h2⟩ | ⟨j, b', hb', hr, hc'⟩
      · exact absurd hc (h2 b (List.getElem?_mem hb))
      · rw [hr, huniq i j b b' hb hb' hc hc']
        simp
    · intro hr
      rcases hscan with ⟨h1, _⟩ | ⟨j, b', hb', hr', hc'⟩
      · rw [h1] at hr; omega
      · rw [hr'] at hr
        have : j = i := by
          have h := hr
          simp only [Nat.zero_add] at h
          exact_mod_cast h
        rw [this, hb] at hb'
        rw [Option.some.inj hb']; exact hc'
  · unfold findBandForFrequency
    constructor
    · intro hr hf
      rcases hscan with ⟨_, h2⟩ | ⟨j, b', hb', hr', _⟩
      · obtain ⟨j, b, hb, hc⟩ := hcover hf
        exact h2 b (List.getElem?_mem hb) hc
      · rw [hr'] at hr; omega
    · intro hf
      rcases hscan with ⟨h1, _⟩ | ⟨j, b', hb', _, hc'⟩
      · exact h1
      · exact absurd (hcontains j b' hb' hc') hf
  · unfold findBandForFrequency
    intro hne
    rcases hscan with ⟨h1, _⟩ | ⟨j, b', hb', hr', _⟩
    · exact absurd h1 hne
    · rw [hr']
      simp only [Nat.zero_add, Int.toNat_ofNat]
      by_contra hcon
      rw [List.getElem?_eq_none (by omega)] at hb'
      exact Option.noConfusion hb'

end EmotionalResonanceTranslator

namespace BandEnergy

/-- The total of the energies after one bin: an accepted bin, whose band index is inside
the array, adds its mean magnitude once. -/
theorem sum_binStep (lookup : ℝ → ℤ) (accept : ℤ → Bool) (fftSize : ℝ) (energies : List ℝ)
    (bin : ℕ × WithBot ℝ × WithBot ℝ)
    (hidx : ∀ f, accept (lookup f) = true → (lookup f).toNat < energies.length) :
    (binStep lookup accept fftSize energies bin).sum
      = energies.sum + (if accept (lookup ((bin.1 : ℝ) * 44100 / fftSize)) = true
          then (dbToMagnitude bin.2.1 + dbToMagnitude bin.2.2) / 2 else 0) := by
  unfold binStep
  simp only []
  split_ifs with h
  · exact sum_addAt _ _ _ (hidx _ h)
  · rw [add_zero]

/-- The total of the accumulated band energies is the total mean magnitude of the
accepted bins, each counted once. -/
theorem sum_accumulateBins (bandCount : ℕ) (lookup : ℝ → ℤ) (accept : ℤ → Bool)
    (L R : List (WithBot ℝ))
    (hidx : ∀ f, accept (lookup f) = true → (lookup f).toNat < bandCount) :
    (accumulateBins bandCount lookup accept L R).sum
      = ((List.zip L R).enum.map (fun bin =>
          if accept (lookup ((bin.1 : ℝ) * 44100 / ((L.length : ℝ) * 2))) = true
          then (dbToMagnitude bin.2.1 + dbToMagnitude bin.2.2) / 2 else 0)).sum := by
  unfold accumulateBins
  simp only []
  generalize (List.zip L R).enum = bins
  have key : ∀ (bins : List (ℕ × WithBot ℝ × WithBot ℝ)) (init : List ℝ),
      init.length = bandCount →
      (bins.foldl (binStep lookup accept ((L.length : ℝ) * 2)) init).sum
        = init.sum + (bins.map (fun bin =>
          if accept (lookup ((bin.1 : ℝ) * 44100 / ((L.length : ℝ) * 2))) = true
          then (dbToMagnitude bin.2.1 + dbToMagnitude bin.2.2) / 2 else 0)).sum := by
    intro bins
    induction bins with
    | nil => intro init _; simp
    | cons bin bins ih =>
      intro init hinit
      simp only [List.foldl_cons, List.map_cons, List.sum_cons]
      have hlen : (binStep lookup accept ((L.length : ℝ) * 2) init bin).length = bandCount := by
        unfold binStep
        simp only []
        split_ifs
        · rw [length_addAt, hinit]
        · exact hinit
      rw [ih _ hlen, sum_binStep _ _ _ _ _ (by rw [hinit]; exact hidx)]
      ring
  rw [key bins _ (List.length_replicate _ _)]
  simp

end BandEnergy

namespace EmotionalResonanceTranslator

/-- Exact arithmetic: in the bands of `generateFrequencyBands` (band count at least 1),
every frequency `f` belongs to at most one band (`lowFreq <= f < highFreq`), the lookup
`findBandForFrequency` returns the index of that band, and it returns `-1` exactly when
`f` lies outside the half-open range between the first `lowFreq` and the last
`highFreq`, which are 20 and 20000 when the edges are exact; consequently in
`calculateBandEnergies` the sum of the un-normalised per-band energies equals the total
averaged linear magnitude of the bins whose frequency lies in that range, every bin
counted once. In doubles the first `lowFreq` is `20.000000000000004` and the last
`highFreq` is `20000.000000000004`, so the source returns `-1` at 20 Hz and the last
band index at 20000 Hz. -/
theorem findBandForFrequency_partition (n : ℤ) (hn : 1 ≤ n) (f : ℝ)
    (freqDataL freqDataR : List (WithBot ℝ)) (hlen : freqDataL.length = freqDataR.length) :
    (∀ (i j : ℕ) (bi bj : FrequencyBand), (generateFrequencyBands n)[i]? = some bi →
      (generateFrequencyBands n)[j]? = some bj → (bi.lowFreq ≤ f ∧ f < bi.highFreq) →
      (bj.lowFreq ≤ f ∧ f < bj.highFreq) → i = j) ∧
    (∀ (i : ℕ) (b : FrequencyBand), (generateFrequencyBands n)[i]? = some b →
      ((b.lowFreq ≤ f ∧ f < b.highFreq) ↔
        findBandForFrequency (generateFrequencyBands n) f = (i : ℤ))) ∧
    (findBandForFrequency (generateFrequencyBands n) f = -1 ↔ ¬ (20 ≤ f ∧ f < 20000)) ∧
    (bandEnergySums (generateFrequencyBands n) freqDataL freqDataR).sum
      = ((List.zip freqDataL freqDataR).enum.map (fun bin =>
          if 20 ≤ (bin.1 : ℝ) * 44100 / ((freqDataL.length : ℝ) * 2) ∧
              (bin.1 : ℝ) * 44100 / ((freqDataL.length : ℝ) * 2) < 20000
          then (BandEnergy.dbToMagnitude bin.2.1 + BandEnergy.dbToMagnitude bin.2.2) / 2
          else 0)).sum := by
  have _ := hlen
  obtain ⟨h1, h2, h3, _⟩ := findBandForFrequency_logBands n hn f
  refine ⟨h1, h2, h3, ?_⟩
  unfold bandEnergySums
  rw [BandEnergy.sum_accumulateBins]
  · congr 1
    apply List.map_congr_left
    intro bin _
    have h := (findBandForFrequency_logBands n hn
      ((bin.1 : ℝ) * 44100 / ((freqDataL.length : ℝ) * 2))).2.2.1
    by_cases hc : 20 ≤ (bin.1 : ℝ) * 44100 / ((freqDataL.length : ℝ) * 2) ∧
        (bin.1 : ℝ) * 44100 / ((freqDataL.length : ℝ) * 2) < 20000
    · have hne : findBandForFrequency (generateFrequencyBands n)
          ((bin.1 : ℝ) * 44100 / ((freqDataL.length : ℝ) * 2)) ≠ -1 :=
        fun heq => (h.1 heq) hc
      rw [if_pos hc, if_pos (by simpa using hne)]
    · have heq := h.2 hc
      rw [if_neg hc, if_neg (by simp [heq])]
  · intro g hg
    exact (findBandForFrequency_logBands n hn g).2.2.2 (by simpa using hg)

end EmotionalResonanceTranslator

namespace LUFSMeterController

/-! ## Display smoothing -/

/-- Exponential smoothing towards a fixed value with a factor in (0, 1] gets within any
positive distance of that value after finitely many steps and stays there. -/
theorem geometric_approach (α x m ε : ℝ) (hα0 : 0 < α) (hα1 : α ≤ 1) (hε : 0 < ε) :
    ∃ N : ℕ, ∀ n : ℕ, N ≤ n → |(m + (1 - α) ^ n * (x - m)) - m| < ε := by
  have hy0 : 0 ≤ 1 - α := by linarith
  have hy1 : 1 - α < 1 := by linarith
  have hd : 0 < |x - m| + 1 := by positivity
  obtain ⟨N, hN⟩ := exists_pow_lt_of_lt_one (div_pos hε hd) hy1
  refine ⟨N, fun n hn => ?_⟩
  have hpow : (1 - α) ^ n ≤ (1 - α) ^ N := pow_le_pow_of_le_one hy0 hy1.le hn
  have hpn : 0 ≤ (1 - α) ^ n := pow_nonneg hy0 n
  have h1 : (m + (1 - α) ^ n * (x - m)) - m = (1 - α) ^ n * (x - m) := by ring
  rw [h1, abs_mul, abs_of_nonneg hpn]
  have h2 : (1 - α) ^ n * |x - m| ≤ (1 - α) ^ N * |x - m| :=
    mul_le_mul_of_nonneg_right hpow (abs_nonneg _)
  have h3 : (1 - α) ^ N * (|x - m| + 1) < ε := by
    rwa [lt_div_iff₀ hd] at hN
  have h4 : 0 ≤ (1 - α) ^ N := pow_nonneg hy0 N
  nlinarith

/-- One smoothing statement on a loudness above the -70 floor. -/
theorem smoothToward_above (current v smoothing : ℝ) (hv : v > -70) :
    smoothToward current ((v : ℝ) : WithBot ℝ) smoothing = v + (1 - smoothing) * (current - v) := by
  show (if v > -70 then current + (v - current) * smoothing else current) = _
  rw [if_pos hv]
  ring

/-- One smoothing statement on a loudness at or below the -70 floor changes nothing. -/
theorem smoothToward_floor (current v smoothing : ℝ) (hv : v ≤ -70) :
    smoothToward current ((v : ℝ) : WithBot ℝ) smoothing = current := by
  show (if v > -70 then current + (v - current) * smoothing else current) = _
  rw [if_neg (not_lt.2 hv)]

/-- The smoothed values after `n` updates with a loudness triple above the floor. -/
theorem updateRepeatedly_above (s : State) (m t i : ℝ) (hm : m > -70) (ht : t > -70)
    (hi : i > -70) (n : ℕ) :
    (updateRepeatedly s { integrated := (i : WithBot ℝ), shortTerm := (t : WithBot ℝ), momentary := (m : WithBot ℝ) } n).currentMomentary
      = m + (1 - s.momentarySmoothing) ^ n * (s.currentMomentary - m) ∧
    (updateRepeatedly s { integrated := (i : WithBot ℝ), shortTerm := (t : WithBot ℝ), momentary := (m : WithBot ℝ) } n).currentShortTerm
      = t + (1 - s.shortTermSmoothing) ^ n * (s.currentShortTerm - t) ∧
    (updateRepeatedly s { integrated := (i : WithBot ℝ), shortTerm := (t : WithBot ℝ), momentary := (m : WithBot ℝ) } n).currentIntegrated
      = i + (1 - s.integratedSmoothing) ^ n * (s.currentIntegrated - i) ∧
    (updateRepeatedly s { integrated := (i : WithBot ℝ), shortTerm := (t : WithBot ℝ), momentary := (m : WithBot ℝ) } n).momentarySmoothing
      = s.momentarySmoothing ∧
    (updateRepeatedly s { integrated := (i : WithBot ℝ), shortTerm := (t : WithBot ℝ), momentary := (m : WithBot ℝ) } n).shortTermSmoothing
      = s.shortTermSmoothing ∧
    (updateRepeatedly s { integrated := (i : WithBot ℝ), shortTerm := (t : WithBot ℝ), momentary := (m : WithBot ℝ) } n).integratedSmoothing
      = s.integratedSmoothing := by
  induction n with
  | zero => simp [updateRepeatedly]
  | succ n ih =>
    obtain ⟨h1, h2, h3, h4, h5, h6⟩ := ih
    simp only [updateRepeatedly, updateMetrics]
    rw [smoothToward_above _ _ _ hm, smoothToward_above _ _ _ ht, smoothToward_above _ _ _ hi,
      h1, h2, h3, h4, h5, h6]
    refine ⟨by ring, by ring, by ring, rfl, rfl, rfl⟩

/-- The smoothed momentary value never moves under updates with the -70 floor triple. -/
theorem updateRepeatedly_floor (s : State) (n : ℕ) :
    (updateRepeatedly s AudioEngine.LUFS.floor n).currentMomentary = s.currentMomentary := by
  induction n with
  | zero => rfl
  | succ n ih =>
    simp only [updateRepeatedly, updateMetrics, AudioEngine.LUFS.floor]
    rw [smoothToward_floor _ _ _ (le_refl _)]
    exact ih

/-- C13 (as stated, refuted): from the display state with `currentMomentary = -58` (the
value after one update of a fresh meter with a momentary loudness of -10), repeated
updates with the constant -70 floor triple never move `currentMomentary`, which therefore
does not converge to the instantaneous value -70. -/
theorem floor_updates_do_not_converge :
    ¬ (∀ ε : ℝ, ε > 0 → ∃ N : ℕ, ∀ n : ℕ, N ≤ n →
        |(updateRepeatedly
            { currentMomentary := -58, currentShortTerm := -70, currentIntegrated := -70,
              momentarySmoothing := 0.2, shortTermSmoothing := 0.1,
              integratedSmoothing := 0.05, lufsHistory := [], historyLength := 100 }
            AudioEngine.LUFS.floor n).currentMomentary - (-70)| < ε) := by
  intro h
  obtain ⟨N, hN⟩ := h 1 (by norm_num)
  have h1 := hN N (le_refl _)
  rw [updateRepeatedly_floor] at h1
  norm_num at h1

/-- C13 (amended): for every starting display state (with the smoothing factors 0.2, 0.1,
0.05 set by the constructor) and every constant instantaneous loudness triple whose three
values are above the -70 floor, repeated calls of `updateMetrics` with that triple make
`currentMomentary`, `currentShortTerm` and `currentIntegrated` converge to the
instantaneous values: for every epsilon > 0 there is an `N` such that after `N` or more
updates each smoothed value is within epsilon of its un-smoothed metric. A value at or
below -70 leaves its smoothed value unchanged. -/
theorem updateMetrics_converges (s : State) (m t i : ℝ)
    (hsm : s.momentarySmoothing = 0.2) (hst : s.shortTermSmoothing = 0.1)
    (hsi : s.integratedSmoothing = 0.05) (hm : m > -70) (ht : t > -70) (hi : i > -70)
    (ε : ℝ) (hε : ε > 0) :
    (∃ N : ℕ, ∀ n : ℕ, N ≤ n →
      |(updateRepeatedly s
          { integrated := (i : WithBot ℝ), shortTerm := (t : WithBot ℝ),
            momentary := (m : WithBot ℝ) } n).currentMomentary - m| < ε ∧
      |(updateRepeatedly s
          { integrated := (i : WithBot ℝ), shortTerm := (t : WithBot ℝ),
            momentary := (m : WithBot ℝ) } n).currentShortTerm - t| < ε ∧
      |(updateRepeatedly s
          { integrated := (i : WithBot ℝ), shortTerm := (t : WithBot ℝ),
            momentary := (m : WithBot ℝ) } n).currentIntegrated - i| < ε) ∧
    (∀ (current v smoothing : ℝ), v ≤ -70 →
      smoothToward current ((v : ℝ) : WithBot ℝ) smoothing = current) := by
  obtain ⟨N1, h1⟩ := geometric_approach 0.2 s.currentMomentary m ε (by norm_num)
    (by norm_num) hε
  obtain ⟨N2, h2⟩ := geometric_approach 0.1 s.currentShortTerm t ε (by norm_num)
    (by norm_num) hε
  obtain ⟨N3, h3⟩ := geometric_approach 0.05 s.currentIntegrated i ε (by norm_num)
    (by norm_num) hε
  refine ⟨⟨max N1 (max N2 N3), fun n hn => ?_⟩, smoothToward_floor⟩
  obtain ⟨c1, c2, c3, _⟩ := updateRepeatedly_above s m t i hm ht hi n
  rw [c1, c2, c3, hsm, hst, hsi]
  exact ⟨h1 n (le_trans (le_max_left _ _) hn),
    h2 n (le_trans (le_trans (le_max_left _ _) (le_max_right _ _)) hn),
    h3 n (le_trans (le_trans (le_max_right _ _) (le_max_right _ _)) hn)⟩

/-- C13 (witness): a fresh meter fed the constant triple -14 / -16 / -18 and epsilon
0.5. -/
theorem updateMetrics_converges_witness :
    (-14 : ℝ) > -70 ∧ (-16 : ℝ) > -70 ∧ (-18 : ℝ) > -70 ∧ (0.5 : ℝ) > 0 ∧
    ∃ N : ℕ, ∀ n : ℕ, N ≤ n →
      |(updateRepeatedly (initialState 100)
          { integrated := ((-18 : ℝ) : WithBot ℝ), shortTerm := ((-16 : ℝ) : WithBot ℝ),
            momentary := ((-14 : ℝ) : WithBot ℝ) } n).currentMomentary - (-14)| < 0.5 ∧
      |(updateRepeatedly (initialState 100)
          { integrated := ((-18 : ℝ) : WithBot ℝ), shortTerm := ((-16 : ℝ) : WithBot ℝ),
            momentary := ((-14 : ℝ) : WithBot ℝ) } n).currentShortTerm - (-16)| < 0.5 ∧
      |(updateRepeatedly (initialState 100)
          { integrated := ((-18 : ℝ) : WithBot ℝ), shortTerm := ((-16 : ℝ) : WithBot ℝ),
            momentary := ((-14 : ℝ) : WithBot ℝ) } n).currentIntegrated - (-18)| < 0.5 :=
  ⟨by norm_num, by norm_num, by norm_num, by norm_num,
    (updateMetrics_converges (initialState 100) (-14) (-16) (-18) rfl rfl rfl (by norm_num)
      (by norm_num) (by norm_num) 0.5 (by norm_num)).1⟩

end LUFSMeterController

namespace FrequencyRelationshipEcosystem

/-! ## Band correlation -/

/-- The three running sums of `calculateBandCorrelation` in closed form. -/
theorem correlationSums_foldl (zs : List (ℝ × ℝ)) (mA mB n dA dB : ℝ) :
    zs.foldl (fun (acc : ℝ × ℝ × ℝ) (e : ℝ × ℝ) =>
      (acc.1 + (e.1 - mA) * (e.2 - mB), acc.2.1 + (e.1 - mA) * (e.1 - mA),
        acc.2.2 + (e.2 - mB) * (e.2 - mB))) (n, dA, dB)
    = (n + (zs.map (fun e => (e.1 - mA) * (e.2 - mB))).sum,
        dA + (zs.map (fun e => (e.1 - mA) * (e.1 - mA))).sum,
        dB + (zs.map (fun e => (e.2 - mB) * (e.2 - mB))).sum) := by
  induction zs generalizing n dA dB with
  | nil => simp
  | cons z zs ih =>
    simp only [List.foldl_cons, List.map_cons, List.sum_cons]
    rw [ih]
    simp only [add_assoc]

/-- The value of `calculateBandCorrelation` in terms of closed-form sums over the paired
band histories. -/
theorem calculateBandCorrelation_eq (energyHistory : List (List ℝ)) (a b : ℕ) :
    calculateBandCorrelation energyHistory a b
      = if Real.sqrt
            (((List.zip (bandHistory energyHistory a) (bandHistory energyHistory b)).map
                (fun e => (e.1 - (bandHistory energyHistory a).sum
                    / ((bandHistory energyHistory a).length : ℝ))
                  * (e.1 - (bandHistory energyHistory a).sum
                    / ((bandHistory energyHistory a).length : ℝ)))).sum
              * ((List.zip (bandHistory energyHistory a) (bandHistory energyHistory b)).map
                (fun e => (e.2 - (bandHistory energyHistory b).sum
                    / ((bandHistory energyHistory b).length : ℝ))
                  * (e.2 - (bandHistory energyHistory b).sum
                    / ((bandHistory energyHistory b).length : ℝ)))).sum) = 0
        then 0
        else ((List.zip (bandHistory energyHistory a) (bandHistory energyHistory b)).map
                (fun e => (e.1 - (bandHistory energyHistory a).sum
                    / ((bandHistory energyHistory a).length : ℝ))
                  * (e.2 - (bandHistory energyHistory b).sum
                    / ((bandHistory energyHistory b).length : ℝ)))).sum
          / Real.sqrt
            (((List.zip (bandHistory energyHistory a) (bandHistory energyHistory b)).map
                (fun e => (e.1 - (bandHistory energyHistory a).sum
                    / ((bandHistory energyHistory a).length : ℝ))
                  * (e.1 - (bandHistory energyHistory a).sum
                    / ((bandHistory energyHistory a).length : ℝ)))).sum
              * ((List.zip (bandHistory energyHistory a) (bandHistory energyHistory b)).map
                (fun e => (e.2 - (bandHistory energyHistory b).sum
                    / ((bandHistory energyHistory b).length : ℝ))
                  * (e.2 - (bandHistory energyHistory b).sum
                    / ((bandHistory energyHistory b).length : ℝ)))).sum) := by
  unfold calculateBandCorrelation bandHistory
  simp only [correlationSums_foldl, zero_add]

/-- The sums of `calculateBandCorrelation` over two histories of equal length: the two
sums of squares are those of the single histories, they are non-negative, they satisfy
the Cauchy-Schwarz inequality, and exchanging the histories exchanges the sums. -/
theorem correlationSums_spec (xs ys : List ℝ) (hlen : xs.length = ys.length) (mA mB : ℝ) :
    ((List.zip xs ys).map (fun e => (e.1 - mA) * (e.1 - mA))).sum
      = (xs.map (fun x => (x - mA) ^ 2)).sum ∧
    ((List.zip xs ys).map (fun e => (e.2 - mB) * (e.2 - mB))).sum
      = (ys.map (fun y => (y - mB) ^ 2)).sum ∧
    0 ≤ (xs.map (fun x => (x - mA) ^ 2)).sum ∧ 0 ≤ (ys.map (fun y => (y - mB) ^ 2)).sum ∧
    ((List.zip xs ys).map (fun e => (e.1 - mA) * (e.2 - mB))).sum ^ 2
      ≤ (xs.map (fun x => (x - mA) ^ 2)).sum * (ys.map (fun y => (y - mB) ^ 2)).sum ∧
    ((List.zip ys xs).map (fun e => (e.1 - mB) * (e.2 - mA))).sum
      = ((List.zip xs ys).map (fun e => (e.1 - mA) * (e.2 - mB))).sum := by
  have hA : ((List.zip xs ys).map (fun e => (e.1 - mA) * (e.1 - mA))).sum
      = (xs.map (fun x => (x - mA) ^ 2)).sum := by
    have h1 : (List.zip xs ys).map (fun e => (e.1 - mA) * (e.1 - mA))
        = ((List.zip xs ys).map Prod.fst).map (fun x => (x - mA) ^ 2) := by
      rw [List.map_map]
      apply List.map_congr_left
      intro e _
      simp only [Function.comp]
      ring
    rw [h1, List.map_fst_zip _ _ (le_of_eq hlen)]
  have hB : ((List.zip xs ys).map (fun e => (e.2 - mB) * (e.2 - mB))).sum
      = (ys.map (fun y => (y - mB) ^ 2)).sum := by
    have h1 : (List.zip xs ys).map (fun e => (e.2 - mB) * (e.2 - mB))
        = ((List.zip xs ys).map Prod.snd).map (fun y => (y - mB) ^ 2) := by
      rw [List.map_map]
      apply List.map_congr_left
      intro e _
      simp only [Function.comp]
      ring
    rw [h1, List.map_snd_zip _ _ (le_of_eq hlen.symm)]
  obtain ⟨c1, c2, c3⟩ := AudioEngine.pairs_cauchy_schwarz
    ((List.zip xs ys).map (fun e => (e.1 - mA, e.2 - mB)))
  simp only [List.map_map, Function.comp_def] at c1 c2 c3
  rw [hA] at c1 c3
  rw [hB] at c2 c3
  refine ⟨hA, hB, c1, c2, c3, ?_⟩
  rw [← List.zip_swap xs ys, List.map_map]
  congr 1
  apply List.map_congr_left
  intro e _
  simp only [Function.comp, Prod.swap]
  ring

/-- A constant non-empty list has no deviation from its mean. -/
theorem sum_sq_dev_const (xs : List ℝ) (c : ℝ) (hne : xs ≠ []) (hc : ∀ x ∈ xs, x = c) :
    (xs.map (fun x => (x - xs.sum / (xs.length : ℝ)) ^ 2)).sum = 0 := by
  have hrep : xs = List.replicate xs.length c := List.eq_replicate_iff.2 ⟨rfl, hc⟩
  have hpos : (0 : ℝ) < (xs.length : ℝ) := by exact_mod_cast List.length_pos.2 hne
  have hsum : xs.sum = (xs.length : ℝ) * c := by
    conv_lhs => rw [hrep]
    rw [List.sum_replicate, nsmul_eq_mul]
  have hmean : xs.sum / (xs.length : ℝ) = c := by
    rw [hsum]; field_simp
  rw [hmean]
  apply List.sum_eq_zero
  intro y hy
  obtain ⟨x, hx, rfl⟩ := List.mem_map.1 hy
  rw [hc x hx]; ring

/-- Exact arithmetic: for every non-empty energy history and every pair of band indices
inside every frame, the expression of `calculateBandCorrelation` is the Pearson
correlation of the two bands' histories (`specPearson`), it lies in [-1, 1], it is
exactly 0 when either history is constant, and it is symmetric in the two bands. The
source evaluates it in doubles without a clamp, where the two bands of the frames
`[0.98, 0.96]`, `[0.65, 0.62]` give `1.0000000000000002`, and where the mean of equal
energies can differ from them, so that three frames `[0.1, 0.7, 1]` give `-1` for the
bands 0 and 1. -/
theorem calculateBandCorrelation_pearson (energyHistory : List (List ℝ)) (a b : ℕ)
    (hne : energyHistory ≠ [])
    (hin : ∀ frame ∈ energyHistory, a < frame.length ∧ b < frame.length) :
    calculateBandCorrelation energyHistory a b
      = specPearson (bandHistory energyHistory a) (bandHistory energyHistory b) ∧
    -1 ≤ calculateBandCorrelation energyHistory a b ∧
    calculateBandCorrelation energyHistory a b ≤ 1 ∧
    (((∃ c, ∀ x ∈ bandHistory energyHistory a, x = c) ∨
        (∃ c, ∀ y ∈ bandHistory energyHistory b, y = c)) →
      calculateBandCorrelation energyHistory a b = 0) ∧
    calculateBandCorrelation energyHistory a b = calculateBandCorrelation energyHistory b a := by
  have _ := hin
  have hlen : (bandHistory energyHistory a).length = (bandHistory energyHistory b).length := by
    simp [bandHistory]
  have hneA : bandHistory energyHistory a ≠ [] := by
    simpa [bandHistory] using hne
  have hneB : bandHistory energyHistory b ≠ [] := by
    simpa [bandHistory] using hne
  obtain ⟨eA, eB, nA, nB, cs, _⟩ := correlationSums_spec (bandHistory energyHistory a)
    (bandHistory energyHistory b) hlen
    ((bandHistory energyHistory a).sum / ((bandHistory energyHistory a).length : ℝ))
    ((bandHistory energyHistory b).sum / ((bandHistory energyHistory b).length : ℝ))
  obtain ⟨eB2, eA2, _, _, _, sw⟩ := correlationSums_spec (bandHistory energyHistory b)
    (bandHistory energyHistory a) hlen.symm
    ((bandHistory energyHistory b).sum / ((bandHistory energyHistory b).length : ℝ))
    ((bandHistory energyHistory a).sum / ((bandHistory energyHistory a).length : ℝ))
  rw [calculateBandCorrelation_eq energyHistory a b, calculateBandCorrelation_eq energyHistory b a,
    eA, eB, eB2, eA2, ← sw]
  unfold specPearson
  simp only []
  clear sw
  generalize ((List.zip (bandHistory energyHistory a) (bandHistory energyHistory b)).map
    (fun e => (e.1 - (bandHistory energyHistory a).sum / ((bandHistory energyHistory a).length : ℝ))
      * (e.2 - (bandHistory energyHistory b).sum
        / ((bandHistory energyHistory b).length : ℝ)))).sum = N at cs ⊢
  have hconstA := sum_sq_dev_const (bandHistory energyHistory a)
  have hconstB := sum_sq_dev_const (bandHistory energyHistory b)
  generalize ((bandHistory energyHistory a).map (fun x =>
    (x - (bandHistory energyHistory a).sum / ((bandHistory energyHistory a).length : ℝ)) ^ 2)).sum
    = SA at nA cs hconstA ⊢
  generalize ((bandHistory energyHistory b).map (fun y =>
    (y - (bandHistory energyHistory b).sum / ((bandHistory energyHistory b).length : ℝ)) ^ 2)).sum
    = SB at nB cs hconstB ⊢
  have hz : Real.sqrt (SA * SB) = 0 ↔ (SA = 0 ∨ SB = 0) := by
    rw [Real.sqrt_eq_zero (mul_nonneg nA nB), mul_eq_zero]
  have hcomm : SB * SA = SA * SB := mul_comm _ _
  refine ⟨?_, ?_, ?_, ?_, ?_⟩
  · by_cases h0 : SA = 0 ∨ SB = 0
    · rw [if_pos (hz.2 h0), if_pos h0]
    · rw [if_neg (fun h => h0 (hz.1 h)), if_neg h0, Real.sqrt_mul nA]
  · by_cases h0 : SA = 0 ∨ SB = 0
    · rw [if_pos (hz.2 h0)]; norm_num
    · rw [if_neg (fun h => h0 (hz.1 h))]
      have hs : 0 < Real.sqrt (SA * SB) :=
        lt_of_le_of_ne (Real.sqrt_nonneg _) (fun h => h0 (hz.1 h.symm))
      have habs := abs_le.1 (Real.abs_le_sqrt cs)
      rw [le_div_iff₀ hs]; linarith [habs.1]
  · by_cases h0 : SA = 0 ∨ SB = 0
    · rw [if_pos (hz.2 h0)]; norm_num
    · rw [if_neg (fun h => h0 (hz.1 h))]
      have hs : 0 < Real.sqrt (SA * SB) :=
        lt_of_le_of_ne (Real.sqrt_nonneg _) (fun h => h0 (hz.1 h.symm))
      have habs := abs_le.1 (Real.abs_le_sqrt cs)
      rw [div_le_one hs]; exact habs.2
  · rintro (⟨c, hc⟩ | ⟨c, hc⟩)
    · rw [if_pos (hz.2 (Or.inl (hconstA c hneA hc)))]
    · rw [if_pos (hz.2 (Or.inr (hconstB c hneB hc)))]
  · rw [hcomm]

end FrequencyRelationshipEcosystem

namespace FrequencyRelationshipEcosystem

/-! ## Relationship analysis -/

/-- The pairs visited by the nested loops are the pairs `i < j < nodeCount`. -/
theorem mem_bandPairs (nodeCount i j : ℕ) :
    (i, j) ∈ bandPairs nodeCount ↔ i < j ∧ j < nodeCount := by
  unfold bandPairs
  simp only [List.mem_flatMap, List.mem_range, List.mem_map, List.mem_range', Prod.mk.injEq]
  constructor
  · rintro ⟨a, ha, b, ⟨k, hk, rfl⟩, rfl, rfl⟩
    omega
  · rintro ⟨h1, h2⟩
    exact ⟨i, by omega, j, ⟨j - (i + 1), by omega, by omega⟩, rfl, rfl⟩

/-- The pair loop of `analyzeRelationships` in closed form. -/
theorem relationshipStep_foldl (s : State) (ps : List (ℕ × ℕ))
    (acc : List Relationship × List (ℕ × ℕ)) :
    ps.foldl (relationshipStep s) acc
      = (acc.1 ++ (ps.filter (fun p => decide
            (|calculateBandCorrelation s.energyHistory p.1 p.2| > s.interactionThreshold))).map
          (fun p => ({ source := p.1, target := p.2,
                       correlation := calculateBandCorrelation s.energyHistory p.1 p.2,
                       type := getRelationshipType s.frequencyBands p.1 p.2
                         (calculateBandCorrelation s.energyHistory p.1 p.2) } : Relationship)),
        acc.2 ++ ps.filter (fun p => decide
          (|calculateBandCorrelation s.energyHistory p.1 p.2| > s.interactionThreshold ∧
            calculateBandCorrelation s.energyHistory p.1 p.2 < -0.4))) := by
  induction ps generalizing acc with
  | nil => simp
  | cons p ps ih =>
    simp only [List.foldl_cons]
    rw [ih]
    unfold relationshipStep
    by_cases h1 : |calculateBandCorrelation s.energyHistory p.1 p.2| > s.interactionThreshold
    · by_cases h2 : calculateBandCorrelation s.energyHistory p.1 p.2 < -0.4
      · simp [h1, h2, List.filter_cons]
      · simp [h1, h2, List.filter_cons]
    · simp [h1, List.filter_cons]

/-- The two result lists of `analyzeRelationships` in closed form. -/
theorem analyzeRelationships_lists (s : State) (hframes : 2 ≤ s.energyHistory.length) :
    (analyzeRelationships s).harmonicRelationships
      = ((bandPairs s.nodes.length).filter (fun p => decide
            (|calculateBandCorrelation s.energyHistory p.1 p.2| > s.interactionThreshold))).map
          (fun p => ({ source := p.1, target := p.2,
                       correlation := calculateBandCorrelation s.energyHistory p.1 p.2,
                       type := getRelationshipType s.frequencyBands p.1 p.2
                         (calculateBandCorrelation s.energyHistory p.1 p.2) } : Relationship)) ∧
    (analyzeRelationships s).conflictingPairs
      = (bandPairs s.nodes.length).filter (fun p => decide
          (|calculateBandCorrelation s.energyHistory p.1 p.2| > s.interactionThreshold ∧
            calculateBandCorrelation s.energyHistory p.1 p.2 < -0.4)) ∧
    (analyzeRelationships s).energyHistory = s.energyHistory ∧
    (analyzeRelationships s).nodes = s.nodes := by
  unfold analyzeRelationships
  rw [if_neg (by omega)]
  simp only [relationshipStep_foldl, List.nil_append]
  refine ⟨?_, ?_, ?_, ?_⟩ <;> first | rfl | trivial

/-- C21 (amended): after `analyzeRelationships` has run on at least 2 history frames,
for every interaction threshold, `harmonicRelationships` has an entry for the pair
`(i, j)` exactly when `i < j < nodes.length` and `|correlation(i, j)| > interactionThreshold`
(and the entry stores that correlation), while `conflictingPairs` contains `(i, j)`
exactly when the pair is stored as a relationship and `correlation(i, j) < -0.4`; for a
threshold of at most 0.4 that is exactly when `correlation(i, j) < -0.4`. -/
theorem analyzeRelationships_pairs (s : State) (hframes : 2 ≤ s.energyHistory.length)
    (i j : ℕ) :
    ((∃ r ∈ (analyzeRelationships s).harmonicRelationships, r.source = i ∧ r.target = j) ↔
      (i < j ∧ j < s.nodes.length ∧
        |calculateBandCorrelation s.energyHistory i j| > s.interactionThreshold)) ∧
    (∀ r ∈ (analyzeRelationships s).harmonicRelationships,
      r.correlation = calculateBandCorrelation s.energyHistory r.source r.target) ∧
    ((i, j) ∈ (analyzeRelationships s).conflictingPairs ↔
      (i < j ∧ j < s.nodes.length ∧
        |calculateBandCorrelation s.energyHistory i j| > s.interactionThreshold ∧
        calculateBandCorrelation s.energyHistory i j < -0.4)) ∧
    (s.interactionThreshold ≤ 0.4 →
      ((i, j) ∈ (analyzeRelationships s).conflictingPairs ↔
        (i < j ∧ j < s.nodes.length ∧ calculateBandCorrelation s.energyHistory i j < -0.4))) := by
  obtain ⟨h1, h2, _, _⟩ := analyzeRelationships_lists s hframes
  have hconf : (i, j) ∈ (analyzeRelationships s).conflictingPairs ↔
      (i < j ∧ j < s.nodes.length ∧
        |calculateBandCorrelation s.energyHistory i j| > s.interactionThreshold ∧
        calculateBandCorrelation s.energyHistory i j < -0.4) := by
    rw [h2, List.mem_filter, mem_bandPairs]
    simp only [decide_eq_true_eq]
    tauto
  refine ⟨?_, ?_, hconf, ?_⟩
  · rw [h1]
    constructor
    · rintro ⟨r, hr, rfl, rfl⟩
      obtain ⟨p, hp, rfl⟩ := List.mem_map.1 hr
      obtain ⟨hp1, hp2⟩ := List.mem_filter.1 hp
      have := (mem_bandPairs s.nodes.length p.1 p.2).1 hp1
      exact ⟨this.1, this.2, by simpa using hp2⟩
    · rintro ⟨hij, hj, hc⟩
      refine ⟨_, List.mem_map.2 ⟨(i, j), List.mem_filter.2
        ⟨(mem_bandPairs s.nodes.length i j).2 ⟨hij, hj⟩, by simpa using hc⟩, rfl⟩, rfl, rfl⟩
  · intro r hr
    rw [h1] at hr
    obtain ⟨p, _, rfl⟩ := List.mem_map.1 hr
    rfl
  · intro hthr
    rw [hconf]
    constructor
    · rintro ⟨a, b, _, d⟩; exact ⟨a, b, d⟩
    · rintro ⟨a, b, d⟩
      refine ⟨a, b, ?_, d⟩
      have : |calculateBandCorrelation s.energyHistory i j|
          = -calculateBandCorrelation s.energyHistory i j :=
        abs_of_neg (by linarith)
      rw [this]
      have h04 : (0.4 : ℝ) = 2 / 5 := by norm_num
      rw [h04] at hthr d
      linarith

/-- The correlation of two bands over four normalised frames. -/
theorem calculateBandCorrelation_example :
    calculateBandCorrelation [[1, 3 / 10], [1, 9 / 10], [3 / 10, 1], [9 / 10, 1]] 0 1
      = -8 / 17 := by
  rw [calculateBandCorrelation_eq]
  simp [bandHistory]
  norm_num
  have h1 : Real.sqrt 289 = 17 := by
    rw [show (289 : ℝ) = 17 ^ 2 by norm_num]
    exact Real.sqrt_sq (by norm_num)
  have h2 : Real.sqrt 2500 = 50 := by
    rw [show (2500 : ℝ) = 50 ^ 2 by norm_num]
    exact Real.sqrt_sq (by norm_num)
  rw [h1, h2]
  norm_num

/-- C21 (as stated, refuted): with the interaction threshold configured as 0.5 and four
history frames in which the two bands have correlation -8/17 (about -0.47), the
correlation is below -0.4 but the pair (0, 1) is not in `conflictingPairs`: the conflict
test is only reached for pairs that pass the threshold test. -/
theorem conflicting_pair_below_threshold :
    2 ≤ ([[1, 3 / 10], [1, 9 / 10], [3 / 10, 1], [9 / 10, 1]] : List (List ℝ)).length ∧
    calculateBandCorrelation [[1, 3 / 10], [1, 9 / 10], [3 / 10, 1], [9 / 10, 1]] 0 1 < -0.4 ∧
    (0, 1) ∉ (analyzeRelationships
      { frequencyBands := [⟨20, 100, 1000⟩, ⟨1000, 5000, 20000⟩],
        interactionThreshold := 0.5, nodeSizeBase := 5, nodeSizeScale := 15,
        nodes := [⟨0.9, 18.5⟩, ⟨1, 20⟩],
        energyHistory := [[1, 3 / 10], [1, 9 / 10], [3 / 10, 1], [9 / 10, 1]],
        historyLength := 30, harmonicRelationships := [], conflictingPairs := [],
        dominantFrequencies := [] }).conflictingPairs := by
  refine ⟨by simp, ?_, ?_⟩
  · rw [calculateBandCorrelation_example]; norm_num
  · rw [(analyzeRelationships_lists _ (by simp)).2.1]
    simp only [List.mem_filter, decide_eq_true_eq, calculateBandCorrelation_example]
    rintro ⟨_, h, _⟩
    norm_num [abs_of_neg] at h

/-- C21 (witness): the same four frames with the default threshold 0.2, where the pair
(0, 1) is both stored and flagged. -/
theorem analyzeRelationships_pairs_witness :
    2 ≤ ([[1, 3 / 10], [1, 9 / 10], [3 / 10, 1], [9 / 10, 1]] : List (List ℝ)).length ∧
    ((0, 1) ∈ (analyzeRelationships
      { frequencyBands := [⟨20, 100, 1000⟩, ⟨1000, 5000, 20000⟩],
        interactionThreshold := 0.2, nodeSizeBase := 5, nodeSizeScale := 15,
        nodes := [⟨0.9, 18.5⟩, ⟨1, 20⟩],
        energyHistory := [[1, 3 / 10], [1, 9 / 10], [3 / 10, 1], [9 / 10, 1]],
        historyLength := 30, harmonicRelationships := [], conflictingPairs := [],
        dominantFrequencies := [] }).conflictingPairs ↔
      (0 < 1 ∧ 1 < 2 ∧
        |calculateBandCorrelation [[1, 3 / 10], [1, 9 / 10], [3 / 10, 1], [9 / 10, 1]] 0 1|
          > 0.2 ∧
        calculateBandCorrelation [[1, 3 / 10], [1, 9 / 10], [3 / 10, 1], [9 / 10, 1]] 0 1
          < -0.4)) :=
  ⟨by simp,
    (analyzeRelationships_pairs
      { frequencyBands := [⟨20, 100, 1000⟩, ⟨1000, 5000, 20000⟩],
        interactionThreshold := 0.2, nodeSizeBase := 5, nodeSizeScale := 15,
        nodes := [⟨0.9, 18.5⟩, ⟨1, 20⟩],
        energyHistory := [[1, 3 / 10], [1, 9 / 10], [3 / 10, 1], [9 / 10, 1]],
        historyLength := 30, harmonicRelationships := [], conflictingPairs := [],
        dominantFrequencies := [] } (by simp) 0 1).2.2.1⟩

end FrequencyRelationshipEcosystem

namespace FrequencyRelationshipEcosystem

/-! ## Correlation over two frames -/

/-- Exact arithmetic: the correlation over a history of exactly two frames, in terms of
the change `u = a1 - a0` of the first band and the change `v = b1 - b0` of the second. -/
theorem calculateBandCorrelation_two (f0 f1 : List ℝ) (a b : ℕ) (a0 a1 b0 b1 : ℝ)
    (ha0 : f0[a]? = some a0) (ha1 : f1[a]? = some a1)
    (hb0 : f0[b]? = some b0) (hb1 : f1[b]? = some b1) :
    calculateBandCorrelation [f0, f1] a b
      = if |(a1 - a0) * (b1 - b0) / 2| = 0 then 0
        else ((a1 - a0) * (b1 - b0) / 2) / |(a1 - a0) * (b1 - b0) / 2| := by
  have hxs : bandHistory [f0, f1] a = [a0, a1] := by
    simp [bandHistory, List.getD, ha0, ha1]
  have hys : bandHistory [f0, f1] b = [b0, b1] := by
    simp [bandHistory, List.getD, hb0, hb1]
  rw [calculateBandCorrelation_eq, hxs, hys]
  have hN : ((List.zip [a0, a1] [b0, b1]).map
      (fun e => (e.1 - [a0, a1].sum / (([a0, a1] : List ℝ).length : ℝ))
        * (e.2 - [b0, b1].sum / (([b0, b1] : List ℝ).length : ℝ)))).sum
      = (a1 - a0) * (b1 - b0) / 2 := by
    simp
    ring
  have hA : ((List.zip [a0, a1] [b0, b1]).map
      (fun e => (e.1 - [a0, a1].sum / (([a0, a1] : List ℝ).length : ℝ))
        * (e.1 - [a0, a1].sum / (([a0, a1] : List ℝ).length : ℝ)))).sum
      = (a1 - a0) ^ 2 / 2 := by
    simp
    ring
  have hB : ((List.zip [a0, a1] [b0, b1]).map
      (fun e => (e.2 - [b0, b1].sum / (([b0, b1] : List ℝ).length : ℝ))
        * (e.2 - [b0, b1].sum / (([b0, b1] : List ℝ).length : ℝ)))).sum
      = (b1 - b0) ^ 2 / 2 := by
    simp
    ring
  rw [hN, hA, hB]
  have hsq : (a1 - a0) ^ 2 / 2 * ((b1 - b0) ^ 2 / 2) = ((a1 - a0) * (b1 - b0) / 2) ^ 2 := by
    ring
  rw [hsq, Real.sqrt_sq_eq_abs]

/-- Exact arithmetic: the three possible values of the correlation over two frames. (In
doubles the value 0 for a band that keeps its energy is exact, both deviations of that
band being 0, while the other two values can come out as `0.9999999999999999` or
`1.0000000000000002` in magnitude.) -/
theorem calculateBandCorrelation_two_values (f0 f1 : List ℝ) (a b : ℕ) (a0 a1 b0 b1 : ℝ)
    (ha0 : f0[a]? = some a0) (ha1 : f1[a]? = some a1)
    (hb0 : f0[b]? = some b0) (hb1 : f1[b]? = some b1) :
    ((a0 = a1 ∨ b0 = b1) → calculateBandCorrelation [f0, f1] a b = 0) ∧
    (0 < (a1 - a0) * (b1 - b0) → calculateBandCorrelation [f0, f1] a b = 1) ∧
    ((a1 - a0) * (b1 - b0) < 0 → calculateBandCorrelation [f0, f1] a b = -1) := by
  rw [calculateBandCorrelation_two f0 f1 a b a0 a1 b0 b1 ha0 ha1 hb0 hb1]
  refine ⟨?_, ?_, ?_⟩
  · intro h
    have hz : (a1 - a0) * (b1 - b0) / 2 = 0 := by
      rcases h with h | h
      · rw [h]; ring
      · rw [h]; ring
    rw [hz]; simp
  · intro h
    have hp : 0 < (a1 - a0) * (b1 - b0) / 2 := by linarith
    rw [abs_of_pos hp, if_neg (ne_of_gt hp), div_self (ne_of_gt hp)]
  · intro h
    have hn : (a1 - a0) * (b1 - b0) / 2 < 0 := by linarith
    rw [abs_of_neg hn, if_neg (by linarith), div_neg, div_self (ne_of_lt hn)]

/-- C30 (as stated, refuted): with the interaction threshold configured as 1 and the two
frames `[0, 1]`, `[1, 0]`, both bands change, in opposite directions, and their
correlation is -1, but the pair is neither stored as a relationship nor flagged as
conflicting: `|correlation| > interactionThreshold` fails. -/
theorem two_frames_pair_not_stored :
    calculateBandCorrelation [[0, 1], [1, 0]] 0 1 = -1 ∧
    (analyzeRelationships
      { frequencyBands := [⟨20, 100, 1000⟩, ⟨1000, 5000, 20000⟩],
        interactionThreshold := 1, nodeSizeBase := 5, nodeSizeScale := 15,
        nodes := [⟨0.3, 9.5⟩, ⟨0.21, 8.15⟩],
        energyHistory := [[0, 1], [1, 0]],
        historyLength := 30, harmonicRelationships := [], conflictingPairs := [],
        dominantFrequencies := [] }).harmonicRelationships = [] ∧
    (analyzeRelationships
      { frequencyBands := [⟨20, 100, 1000⟩, ⟨1000, 5000, 20000⟩],
        interactionThreshold := 1, nodeSizeBase := 5, nodeSizeScale := 15,
        nodes := [⟨0.3, 9.5⟩, ⟨0.21, 8.15⟩],
        energyHistory := [[0, 1], [1, 0]],
        historyLength := 30, harmonicRelationships := [], conflictingPairs := [],
        dominantFrequencies := [] }).conflictingPairs = [] := by
  have hc : calculateBandCorrelation [[0, 1], [1, 0]] 0 1 = -1 :=
    (calculateBandCorrelation_two_values [0, 1] [1, 0] 0 1 0 1 1 0 rfl rfl rfl rfl).2.2
      (by norm_num)
  have hp : bandPairs 2 = [(0, 1)] := by decide
  refine ⟨hc, ?_, ?_⟩
  · rw [(analyzeRelationships_lists _ (by simp)).1]
    simp only [List.length_cons, List.length_nil, Nat.zero_add, Nat.reduceAdd, hp,
      List.filter_cons, List.filter_nil, hc]
    norm_num
  · rw [(analyzeRelationships_lists _ (by simp)).2.1]
    simp only [List.length_cons, List.length_nil, Nat.zero_add, Nat.reduceAdd, hp,
      List.filter_cons, List.filter_nil, hc]
    norm_num

/-- The Pearson correlation of two two-sample histories in exact arithmetic: 0 when
either history is constant, otherwise +1 or -1 according to the sign of the product of
the two changes. -/
theorem specPearson_two (a0 a1 b0 b1 : ℝ) :
    specPearson [a0, a1] [b0, b1]
      = if a0 = a1 ∨ b0 = b1 then 0 else if 0 < (a1 - a0) * (b1 - b0) then 1 else -1 := by
  have hX : (([a0, a1] : List ℝ).map
      (fun x => (x - [a0, a1].sum / (([a0, a1] : List ℝ).length : ℝ)) ^ 2)).sum
      = (a1 - a0) ^ 2 / 2 := by
    simp
    ring
  have hY : (([b0, b1] : List ℝ).map
      (fun y => (y - [b0, b1].sum / (([b0, b1] : List ℝ).length : ℝ)) ^ 2)).sum
      = (b1 - b0) ^ 2 / 2 := by
    simp
    ring
  have hC : ((List.zip [a0, a1] [b0, b1]).map
      (fun p => (p.1 - [a0, a1].sum / (([a0, a1] : List ℝ).length : ℝ))
        * (p.2 - [b0, b1].sum / (([b0, b1] : List ℝ).length : ℝ)))).sum
      = (a1 - a0) * (b1 - b0) / 2 := by
    simp
    ring
  unfold specPearson
  simp only [hX, hY, hC]
  have hzA : (a1 - a0) ^ 2 / 2 = 0 ↔ a0 = a1 := by
    constructor
    · intro h
      have : (a1 - a0) ^ 2 = 0 := by linarith
      have := pow_eq_zero_iff (two_ne_zero) |>.1 this
      linarith
    · intro h; rw [h]; ring
  have hzB : (b1 - b0) ^ 2 / 2 = 0 ↔ b0 = b1 := by
    constructor
    · intro h
      have : (b1 - b0) ^ 2 = 0 := by linarith
      have := pow_eq_zero_iff (two_ne_zero) |>.1 this
      linarith
    · intro h; rw [h]; ring
  have hiff : ((a1 - a0) ^ 2 / 2 = 0 ∨ (b1 - b0) ^ 2 / 2 = 0) ↔ (a0 = a1 ∨ b0 = b1) := by
    rw [hzA, hzB]
  by_cases hc : a0 = a1 ∨ b0 = b1
  · rw [if_pos (hiff.2 hc), if_pos hc]
  · rw [if_neg (fun h => hc (hiff.1 h)), if_neg hc]
    push_neg at hc
    have hprod : Real.sqrt ((a1 - a0) ^ 2 / 2) * Real.sqrt ((b1 - b0) ^ 2 / 2)
        = |(a1 - a0) * (b1 - b0) / 2| := by
      rw [← Real.sqrt_mul (by positivity), ← Real.sqrt_sq_eq_abs]
      congr 1
      ring
    rw [hprod]
    have hne : (a1 - a0) * (b1 - b0) ≠ 0 :=
      mul_ne_zero (sub_ne_zero.2 (Ne.symm hc.1)) (sub_ne_zero.2 (Ne.symm hc.2))
    by_cases hpos : 0 < (a1 - a0) * (b1 - b0)
    · rw [if_pos hpos]
      have hp : 0 < (a1 - a0) * (b1 - b0) / 2 := by linarith
      rw [abs_of_pos hp, div_self (ne_of_gt hp)]
    · rw [if_neg hpos]
      have hn : (a1 - a0) * (b1 - b0) / 2 < 0 := by
        have : (a1 - a0) * (b1 - b0) < 0 := lt_of_le_of_ne (not_lt.1 hpos) hne
        linarith
      rw [abs_of_neg hn, div_neg, div_self (ne_of_lt hn)]

/-- C30 (amended): when the energy history holds exactly 2 frames of normalised energies
in [0, 1], `calculateBandCorrelation` returns 0 for a band pair in which either band has
the same energy in both frames, and with a non-negative interaction threshold such a
pair is neither stored nor flagged; for the other pairs the Pearson correlation of the
two histories is, in exact arithmetic (`specPearson`), +1 or -1 according to whether
the two bands changed in the same or in opposite directions; and whatever value
`calculateBandCorrelation` returns, a pair `i < j` is stored as a relationship exactly
when the magnitude of that value exceeds `interactionThreshold`, every stored
relationship carries the returned value, and the pair is flagged as conflicting exactly
when it is stored and the returned value is below -0.4. -/
theorem two_frames_relationships (s : State) (f0 f1 : List ℝ) (i j : ℕ) (a0 a1 b0 b1 : ℝ)
    (hhist : s.energyHistory = [f0, f1])
    (ha0 : f0[i]? = some a0) (ha1 : f1[i]? = some a1)
    (hb0 : f0[j]? = some b0) (hb1 : f1[j]? = some b1) :
    ((∀ x ∈ [a0, a1, b0, b1], 0 ≤ x ∧ x ≤ 1) → (a0 = a1 ∨ b0 = b1) →
      calculateBandCorrelation s.energyHistory i j = 0) ∧
    ((∀ x ∈ [a0, a1, b0, b1], 0 ≤ x ∧ x ≤ 1) → (a0 = a1 ∨ b0 = b1) →
      0 ≤ s.interactionThreshold →
      (¬ ∃ r ∈ (analyzeRelationships s).harmonicRelationships, r.source = i ∧ r.target = j) ∧
      (i, j) ∉ (analyzeRelationships s).conflictingPairs) ∧
    (specPearson (bandHistory s.energyHistory i) (bandHistory s.energyHistory j)
      = if a0 = a1 ∨ b0 = b1 then 0 else if 0 < (a1 - a0) * (b1 - b0) then 1 else -1) ∧
    ((∃ r ∈ (analyzeRelationships s).harmonicRelationships, r.source = i ∧ r.target = j) ↔
      (i < j ∧ j < s.nodes.length ∧
        |calculateBandCorrelation s.energyHistory i j| > s.interactionThreshold)) ∧
    (∀ r ∈ (analyzeRelationships s).harmonicRelationships,
      r.correlation = calculateBandCorrelation s.energyHistory r.source r.target) ∧
    ((i, j) ∈ (analyzeRelationships s).conflictingPairs ↔
      (i < j ∧ j < s.nodes.length ∧
        |calculateBandCorrelation s.energyHistory i j| > s.interactionThreshold ∧
        calculateBandCorrelation s.energyHistory i j < -0.4)) := by
  have v0 := (calculateBandCorrelation_two_values f0 f1 i j a0 a1 b0 b1 ha0 ha1 hb0 hb1).1
  rw [← hhist] at v0
  have hframes : 2 ≤ s.energyHistory.length := by rw [hhist]; simp
  obtain ⟨h1, h2, _, _⟩ := analyzeRelationships_lists s hframes
  have hstored : (∃ r ∈ (analyzeRelationships s).harmonicRelationships,
        r.source = i ∧ r.target = j) ↔
      (i < j ∧ j < s.nodes.length ∧
        |calculateBandCorrelation s.energyHistory i j| > s.interactionThreshold) := by
    rw [h1]
    constructor
    · rintro ⟨r, hr, rfl, rfl⟩
      obtain ⟨p, hp, rfl⟩ := List.mem_map.1 hr
      obtain ⟨hp1, hp2⟩ := List.mem_filter.1 hp
      have := (mem_bandPairs s.nodes.length p.1 p.2).1 hp1
      exact ⟨this.1, this.2, by simpa using hp2⟩
    · rintro ⟨hij, hj, hc⟩
      refine ⟨_, List.mem_map.2 ⟨(i, j), List.mem_filter.2
        ⟨(mem_bandPairs s.nodes.length i j).2 ⟨hij, hj⟩, by simpa using hc⟩, rfl⟩, rfl, rfl⟩
  have hconf : (i, j) ∈ (analyzeRelationships s).conflictingPairs ↔
      (i < j ∧ j < s.nodes.length ∧
        |calculateBandCorrelation s.energyHistory i j| > s.interactionThreshold ∧
        calculateBandCorrelation s.energyHistory i j < -0.4) := by
    rw [h2, List.mem_filter, mem_bandPairs]
    simp only [decide_eq_true_eq]
    tauto
  refine ⟨fun _ => v0, ?_, ?_, hstored, ?_, hconf⟩
  · intro _ hconst hthr
    have hz := v0 hconst
    constructor
    · rw [hstored, hz, abs_zero]
      rintro ⟨_, _, h⟩
      exact absurd h (not_lt.2 hthr)
    · rw [hconf, hz, abs_zero]
      rintro ⟨_, _, h, _⟩
      exact absurd h (not_lt.2 hthr)
  · have hxs : bandHistory s.energyHistory i = [a0, a1] := by
      rw [hhist]; simp [bandHistory, List.getD, ha0, ha1]
    have hys : bandHistory s.energyHistory j = [b0, b1] := by
      rw [hhist]; simp [bandHistory, List.getD, hb0, hb1]
    rw [hxs, hys]
    exact specPearson_two a0 a1 b0 b1
  · intro r hr
    rw [h1] at hr
    obtain ⟨p, _, rfl⟩ := List.mem_map.1 hr
    rfl

/-- C30 (witness): the default threshold 0.2 and the two frames `[1/2, 0]`, `[1/2, 1]`,
in which the first band keeps its energy: the correlation is 0 and the pair is not
flagged. -/
theorem two_frames_relationships_witness :
    (∀ x ∈ [(1 / 2 : ℝ), 1 / 2, 0, 1], 0 ≤ x ∧ x ≤ 1) ∧
    calculateBandCorrelation [[1 / 2, 0], [1 / 2, 1]] 0 1 = 0 ∧
    (0, 1) ∉ (analyzeRelationships
      { frequencyBands := [⟨20, 100, 1000⟩, ⟨1000, 5000, 20000⟩],
        interactionThreshold := 0.2, nodeSizeBase := 5, nodeSizeScale := 15,
        nodes := [⟨0.3, 9.5⟩, ⟨0.21, 8.15⟩],
        energyHistory := [[1 / 2, 0], [1 / 2, 1]],
        historyLength := 30, harmonicRelationships := [], conflictingPairs := [],
        dominantFrequencies := [] }).conflictingPairs :=
  ⟨by intro x hx; simp at hx; rcases hx with rfl | rfl | rfl <;> norm_num,
    (two_frames_relationships
      { frequencyBands := [⟨20, 100, 1000⟩, ⟨1000, 5000, 20000⟩],
        interactionThreshold := 0.2, nodeSizeBase := 5, nodeSizeScale := 15,
        nodes := [⟨0.3, 9.5⟩, ⟨0.21, 8.15⟩],
        energyHistory := [[1 / 2, 0], [1 / 2, 1]],
        historyLength := 30, harmonicRelationships := [], conflictingPairs := [],
        dominantFrequencies := [] }
      [1 / 2, 0] [1 / 2, 1] 0 1 (1 / 2) (1 / 2) 0 1 rfl rfl rfl rfl rfl).1
      (by intro x hx; simp at hx; rcases hx with rfl | rfl | rfl <;> norm_num)
      (Or.inl rfl),
    ((two_frames_relationships
      { frequencyBands := [⟨20, 100, 1000⟩, ⟨1000, 5000, 20000⟩],
        interactionThreshold := 0.2, nodeSizeBase := 5, nodeSizeScale := 15,
        nodes := [⟨0.3, 9.5⟩, ⟨0.21, 8.15⟩],
        energyHistory := [[1 / 2, 0], [1 / 2, 1]],
        historyLength := 30, harmonicRelationships := [], conflictingPairs := [],
        dominantFrequencies := [] }
      [1 / 2, 0] [1 / 2, 1] 0 1 (1 / 2) (1 / 2) 0 1 rfl rfl rfl rfl rfl).2.1
      (by intro x hx; simp at hx; rcases hx with rfl | rfl | rfl <;> norm_num)
      (Or.inl rfl) (by norm_num)).2⟩

end FrequencyRelationshipEcosystem

namespace FrequencyRelationshipEcosystem

/-! ## Harmonic classification of distant bands -/

/-- A value in [0, 0.05) is rounded to 0 and counts as near an integer. -/
theorem isNearInteger_small (x : ℝ) (h0 : 0 ≤ x) (h : x < 0.05) :
    mathRound x = 0 ∧ isNearInteger x 0.05 = true := by
  have hr : mathRound x = 0 := by
    unfold mathRound
    rw [Int.floor_eq_iff]
    constructor
    · norm_num; linarith
    · norm_num; norm_num at h; linarith
  refine ⟨hr, ?_⟩
  unfold isNearInteger
  simp only [hr, Int.cast_zero, sub_zero, decide_eq_true_eq]
  rw [abs_of_nonneg h0]
  exact h

/-- C29: for two bands with positive centre frequencies whose ratio `freqB / freqA` is
greater than 20 or smaller than 1/20, and every correlation above 0.6,
`getRelationshipType` returns "harmonic", because the reciprocal (respectively the
ratio) is below 0.05 and `isNearInteger` rounds it to 0; for the centre frequencies 20 Hz
and 410 Hz (ratio 20.5) the result is "harmonic" although neither the ratio nor its
reciprocal is within 0.05 of a positive integer. -/
theorem getRelationshipType_distant_harmonic (frequencyBands : List Band) (bandA bandB : ℕ)
    (a b : Band) (correlation : ℝ)
    (hA : frequencyBands[bandA]? = some a) (hB : frequencyBands[bandB]? = some b)
    (hfa : 0 < a.centerFreq) (hfb : 0 < b.centerFreq)
    (hratio : b.centerFreq / a.centerFreq > 20 ∨ b.centerFreq / a.centerFreq < 1 / 20)
    (hcorr : correlation > 0.6) :
    getRelationshipType frequencyBands bandA bandB correlation = some "harmonic" ∧
    (b.centerFreq / a.centerFreq > 20 →
      mathRound (1 / (b.centerFreq / a.centerFreq)) = 0 ∧
      1 / (b.centerFreq / a.centerFreq) < 0.05) ∧
    (b.centerFreq / a.centerFreq < 1 / 20 → mathRound (b.centerFreq / a.centerFreq) = 0) ∧
    (getRelationshipType [⟨20, 20, 200⟩, ⟨200, 410, 20000⟩] 0 1 0.7 = some "harmonic" ∧
      ∀ k : ℤ, 1 ≤ k →
        ¬ |(410 : ℝ) / 20 - (k : ℝ)| < 0.05 ∧ ¬ |1 / ((410 : ℝ) / 20) - (k : ℝ)| < 0.05) := by
  have hpos : 0 < b.centerFreq / a.centerFreq := div_pos hfb hfa
  have key : ∀ (bands : List Band) (i j : ℕ) (x y : Band) (c : ℝ),
      bands[i]? = some x → bands[j]? = some y → 0 < y.centerFreq / x.centerFreq →
      (y.centerFreq / x.centerFreq > 20 ∨ y.centerFreq / x.centerFreq < 1 / 20) → c > 0.6 →
      getRelationshipType bands i j c = some "harmonic" := by
    intro bands i j x y c hx hy hp hr hc
    have hh : (isNearInteger (y.centerFreq / x.centerFreq) 0.05
        || isNearInteger (1 / (y.centerFreq / x.centerFreq)) 0.05) = true := by
      rcases hr with h | h
      · have h1 : 1 / (y.centerFreq / x.centerFreq) < 0.05 := by
          rw [div_lt_iff₀ hp]; norm_num; linarith
        rw [(isNearInteger_small _ (le_of_lt (one_div_pos.2 hp)) h1).2]
        simp
      · have h1 : y.centerFreq / x.centerFreq < 0.05 := by norm_num; linarith
        rw [(isNearInteger_small _ (le_of_lt hp) h1).2]
        simp
    unfold getRelationshipType
    rw [hx, hy]
    simp only [hh, if_pos hc, if_true]
  refine ⟨key frequencyBands bandA bandB a b correlation hA hB hpos hratio hcorr, ?_, ?_, ?_, ?_⟩
  · intro h
    have h1 : 1 / (b.centerFreq / a.centerFreq) < 0.05 := by
      rw [div_lt_iff₀ hpos]; norm_num; linarith
    exact ⟨(isNearInteger_small _ (le_of_lt (one_div_pos.2 hpos)) h1).1, h1⟩
  · intro h
    exact (isNearInteger_small _ (le_of_lt hpos) (by norm_num; linarith)).1
  · exact key [⟨20, 20, 200⟩, ⟨200, 410, 20000⟩] 0 1 ⟨20, 20, 200⟩ ⟨200, 410, 20000⟩ 0.7
      rfl rfl (by norm_num) (Or.inl (by norm_num)) (by norm_num)
  · intro k hk
    have hk1 : (1 : ℝ) ≤ (k : ℝ) := by exact_mod_cast hk
    constructor
    · intro h
      rw [abs_lt] at h
      obtain ⟨h1, h2⟩ := h
      have hlo : (20 : ℝ) < (k : ℝ) := by norm_num at h2; linarith
      have hhi : (k : ℝ) < 21 := by norm_num at h1; linarith
      have hlo2 : (20 : ℤ) < k := by exact_mod_cast hlo
      have hhi2 : k < (21 : ℤ) := by exact_mod_cast hhi
      omega
    · intro h
      rw [abs_lt] at h
      obtain ⟨h1, _⟩ := h
      norm_num at h1
      linarith

/-- C29 (witness): the bands centred at 20 Hz and 410 Hz with correlation 0.7. -/
theorem getRelationshipType_distant_harmonic_witness :
    (0 : ℝ) < 20 ∧ (0 : ℝ) < 410 ∧ ((410 : ℝ) / 20 > 20 ∨ (410 : ℝ) / 20 < 1 / 20) ∧
    (0.7 : ℝ) > 0.6 ∧
    getRelationshipType [⟨20, 20, 200⟩, ⟨200, 410, 20000⟩] 0 1 0.7 = some "harmonic" :=
  ⟨by norm_num, by norm_num, Or.inl (by norm_num), by norm_num,
    (getRelationshipType_distant_harmonic [⟨20, 20, 200⟩, ⟨200, 410, 20000⟩] 0 1
      ⟨20, 20, 200⟩ ⟨200, 410, 20000⟩ 0.7 rfl rfl (by norm_num) (by norm_num)
      (Or.inl (by norm_num)) (by norm_num)).1⟩

end FrequencyRelationshipEcosystem

namespace BandEnergy

/-- Adding to one index leaves the other entries as they are. -/
theorem getElem?_addAt_ne {α : Type} [Add α] (es : List α) (k idx : ℕ) (m : α)
    (h : k ≠ idx) : (addAt es k m)[idx]? = es[idx]? := by
  induction es generalizing k idx with
  | nil => rfl
  | cons e es ih =>
    cases k with
    | zero =>
      cases idx with
      | zero => exact absurd rfl h
      | succ idx => simp [addAt]
    | succ k =>
      cases idx with
      | zero => simp [addAt]
      | succ idx =>
        simp only [addAt, List.getElem?_cons_succ]
        exact ih k idx (fun hk => h (by rw [hk]))

/-- A band that the lookup never selects accumulates nothing. -/
theorem accumulateBins_never (bandCount : ℕ) (lookup : ℝ → ℤ) (accept : ℤ → Bool)
    (L R : List (WithBot ℝ)) (idx : ℕ) (hidx : idx < bandCount)
    (hnever : ∀ f : ℝ, accept (lookup f) = true → (lookup f).toNat ≠ idx) :
    (accumulateBins bandCount lookup accept L R)[idx]? = some 0 := by
  unfold accumulateBins
  generalize (List.zip L R).enum = bins
  have key : ∀ (bins : List (ℕ × WithBot ℝ × WithBot ℝ)) (init : List ℝ),
      init[idx]? = some 0 →
      (bins.foldl (binStep lookup accept ((L.length : ℝ) * 2)) init)[idx]? = some 0 := by
    intro bins
    induction bins with
    | nil => intro init h; exact h
    | cons bin bins ih =>
      intro init h
      simp only [List.foldl_cons]
      apply ih
      unfold binStep
      simp only []
      split_ifs with hacc
      · rw [getElem?_addAt_ne _ _ _ _ (hnever _ hacc)]
        exact h
      · exact h
  apply key
  rw [List.getElem?_replicate]
  simp [hidx]

/-- The guarded normalisation keeps a zero entry at zero. -/
theorem normalizeByMax_zero (energies : List ℝ) (idx : ℕ) (h : energies[idx]? = some 0) :
    (normalizeByMax energies)[idx]? = some 0 := by
  unfold normalizeByMax
  cases energies.maximum with
  | bot => exact h
  | coe m =>
    show (if m > 0 then energies.map (fun e => e / m) else energies)[idx]? = some 0
    split_ifs
    · rw [List.getElem?_map, h]; simp
    · exact h

end BandEnergy

namespace FrequencyRelationshipEcosystem

/-! ## The bands of the ecosystem -/

/-- The first `k` rounds of the loop of `generateFrequencyBands` push the closed-form
bands. -/
theorem generateStep_foldl (count k : ℕ) (hk : k ≤ count) :
    (List.range k).foldl (generateStep count) [] = (List.range k).map (closedFormBand count) := by
  induction k with
  | zero => rfl
  | succ k ih =>
    rw [List.range_succ, List.foldl_append, List.map_append, ih (by omega)]
    simp only [List.foldl_cons, List.foldl_nil, List.map_cons, List.map_nil]
    unfold generateStep
    simp only []
    congr 1
    unfold closedFormBand
    congr 1
    congr 1
    cases k with
    | zero => rfl
    | succ k =>
      have h1 : ¬ (k + 1 = 0) := by omega
      have h2 : ¬ (k = count - 1) := by omega
      simp only [h1, if_false, Nat.add_sub_cancel, List.map_map]
      rw [List.getD_eq_getElem?_getD, List.getElem?_map, List.getElem?_range (by omega)]
      simp only [Option.map_some', Option.getD_some, Function.comp, h2, if_false]
      push_cast
      rfl

/-- The bands of `generateFrequencyBands(count)` in closed form. -/
theorem generateFrequencyBands_getElem? (count i : ℕ) (hi : i < count) :
    (generateFrequencyBands count).length = count ∧
    (generateFrequencyBands count)[i]? = some (closedFormBand count i) := by
  unfold generateFrequencyBands
  rw [generateStep_foldl count count (le_refl _)]
  refine ⟨by simp, ?_⟩
  rw [List.getElem?_map, List.getElem?_range hi]
  rfl

/-- The upper edge of the band grid: `10 ^ (logMin + step * (count - 1)) = 20000`. -/
theorem logEdge_last (count : ℕ) (hcount : 2 ≤ count) :
    (10 : ℝ) ^ (Real.logb 10 20
      + (Real.logb 10 20000 - Real.logb 10 20) / ((count : ℝ) - 1) * ((count - 1 : ℕ) : ℝ))
      = 20000 := by
  have hc : ((count - 1 : ℕ) : ℝ) = (count : ℝ) - 1 := by
    rw [Nat.cast_sub (by omega)]; simp
  have hne : (count : ℝ) - 1 ≠ 0 := by
    have : (2 : ℝ) ≤ (count : ℝ) := by exact_mod_cast hcount
    linarith
  rw [hc, div_mul_cancel₀ _ hne]
  have : Real.logb 10 20 + (Real.logb 10 20000 - Real.logb 10 20) = Real.logb 10 20000 := by
    ring
  rw [this, Real.rpow_logb (by norm_num) (by norm_num) (by norm_num)]

/-- A non-negative result of the scan of `findBandIndex` is the index of a band that
contains the frequency. -/
theorem findBandIndexFrom_spec (f : ℝ) (bands : List Band) (k r : ℕ)
    (h : findBandIndexFrom f bands k = (r : ℤ)) :
    k ≤ r ∧ ∃ b, bands[r - k]? = some b ∧ b.minFreq ≤ f ∧ f < b.maxFreq := by
  induction bands generalizing k with
  | nil =>
    simp only [findBandIndexFrom] at h
    omega
  | cons band rest ih =>
    simp only [findBandIndexFrom] at h
    split_ifs at h with hc
    · have hk : k = r := by exact_mod_cast h
      subst hk
      exact ⟨le_refl _, band, by simp, hc.1, hc.2⟩
    · obtain ⟨h1, b, h2, h3⟩ := ih (k + 1) h
      refine ⟨by omega, b, ?_, h3⟩
      have : r - k = (r - (k + 1)) + 1 := by omega
      rw [this, List.getElem?_cons_succ]
      exact h2

/-- Exact arithmetic: for every count of at least 2, `generateFrequencyBands(count)`
produces `count` bands whose last band has `minFreq = maxFreq = 20000` (an empty range),
and every band `i >= 1` has `centerFreq` equal to its own `minFreq`; consequently
`findBandIndex` never returns the last band index and `calculateBandEnergies` returns 0
for the last band for every input spectrum. In doubles the last `maxFreq` is the literal
20000 but the last `minFreq` is the computed `maxFreq` of the band before it,
`Math.pow(10, logMin + step * (count - 1))`, which is `20000.000000000004` for the
default count 32: the last range is inverted rather than degenerate, and still empty. -/
theorem generateFrequencyBands_last_band_empty (count : ℕ) (hcount : 2 ≤ count) :
    (generateFrequencyBands count).length = count ∧
    (∃ last, (generateFrequencyBands count)[count - 1]? = some last ∧
      last.minFreq = 20000 ∧ last.maxFreq = 20000) ∧
    (∀ (i : ℕ) (band : Band), 1 ≤ i → (generateFrequencyBands count)[i]? = some band →
      band.centerFreq = band.minFreq) ∧
    (∀ f : ℝ, findBandIndex (generateFrequencyBands count) f ≠ ((count - 1 : ℕ) : ℤ)) ∧
    (∀ freqDataL freqDataR : List (WithBot ℝ), freqDataL.length = freqDataR.length →
      (calculateBandEnergies (generateFrequencyBands count) freqDataL freqDataR)[count - 1]?
        = some 0) := by
  have hlen := (generateFrequencyBands_getElem? count 0 (by omega)).1
  have hlast := (generateFrequencyBands_getElem? count (count - 1) (by omega)).2
  have hmin : (closedFormBand count (count - 1)).minFreq = 20000 := by
    unfold closedFormBand
    simp only []
    rw [if_neg (by omega)]
    exact logEdge_last count hcount
  have hmax : (closedFormBand count (count - 1)).maxFreq = 20000 := by
    unfold closedFormBand
    simp
  have hnever : ∀ f : ℝ, findBandIndex (generateFrequencyBands count) f
      ≠ ((count - 1 : ℕ) : ℤ) := by
    intro f hf
    obtain ⟨_, b, hb, h1, h2⟩ := findBandIndexFrom_spec f _ 0 (count - 1) hf
    rw [Nat.sub_zero, hlast] at hb
    have hb2 := Option.some.inj hb
    rw [← hb2, hmin] at h1
    rw [← hb2, hmax] at h2
    linarith
  refine ⟨hlen, ⟨_, hlast, hmin, hmax⟩, ?_, hnever, ?_⟩
  · intro i band hi hband
    have hic : i < count := by
      by_contra hge
      rw [List.getElem?_eq_none (by rw [hlen]; omega)] at hband
      exact Option.noConfusion hband
    rw [(generateFrequencyBands_getElem? count i hic).2] at hband
    rw [← Option.some.inj hband]
    unfold closedFormBand
    simp only []
    rw [if_neg (by omega)]
  · intro L R _
    unfold calculateBandEnergies bandEnergySums
    apply BandEnergy.normalizeByMax_zero
    apply BandEnergy.accumulateBins_never
    · rw [hlen]; omega
    · intro f hacc
      have hge : 0 ≤ findBandIndex (generateFrequencyBands count) f := by simpa using hacc
      intro heq
      apply hnever f
      rw [← heq, Int.toNat_of_nonneg hge]

end FrequencyRelationshipEcosystem

namespace FrequencyRelationshipEcosystem

end FrequencyRelationshipEcosystem

namespace AudioEngine

/-! ## Stereo width -/

/-- The running sums of `calculateStereoWidth` in closed form. -/
theorem stereoEnergies_foldl (zs : List (ℝ × ℝ)) (a b : ℝ) :
    zs.foldl (fun (acc : ℝ × ℝ) (s : ℝ × ℝ) =>
      (acc.1 + (s.1 + s.2) / 2 * ((s.1 + s.2) / 2),
        acc.2 + (s.1 - s.2) / 2 * ((s.1 - s.2) / 2))) (a, b)
    = (a + (zs.map (fun s => ((s.1 + s.2) / 2) ^ 2)).sum,
        b + (zs.map (fun s => ((s.1 - s.2) / 2) ^ 2)).sum) := by
  induction zs generalizing a b with
  | nil => simp
  | cons z zs ih =>
    simp only [List.foldl_cons, List.map_cons, List.sum_cons]
    rw [ih]
    simp only [add_assoc, sq]

/-- The mid and side energies are the sums of the squared mid and side samples. -/
theorem stereoEnergies_eq (L R : List ℝ) :
    stereoEnergies L R
      = (((List.zip L R).map (fun s => ((s.1 + s.2) / 2) ^ 2)).sum,
          ((List.zip L R).map (fun s => ((s.1 - s.2) / 2) ^ 2)).sum) := by
  unfold stereoEnergies
  simp only [stereoEnergies_foldl, zero_add]

/-- A sum of squares is non-negative, and it is zero only if every term is. -/
theorem sum_sq_map_nonneg {β : Type} (zs : List β) (g : β → ℝ) :
    0 ≤ (zs.map (fun s => (g s) ^ 2)).sum ∧
    ((zs.map (fun s => (g s) ^ 2)).sum = 0 → ∀ s ∈ zs, g s = 0) := by
  induction zs with
  | nil => simp
  | cons z zs ih =>
    simp only [List.map_cons, List.sum_cons, List.mem_cons, forall_eq_or_imp]
    have hz : 0 ≤ (g z) ^ 2 := sq_nonneg _
    refine ⟨add_nonneg hz ih.1, fun h => ?_⟩
    have h1 : (g z) ^ 2 = 0 := by linarith [ih.1]
    have h2 : (zs.map (fun s => (g s) ^ 2)).sum = 0 := by linarith [ih.1]
    exact ⟨pow_eq_zero_iff (two_ne_zero) |>.1 h1, ih.2 h2⟩

/-- Pairing a channel with an image of itself. -/
theorem zip_map_self {β : Type} (L : List ℝ) (f : ℝ → β) :
    List.zip L (L.map f) = L.map (fun x => (x, f x)) := by
  induction L with
  | nil => rfl
  | cons x L ih => simp [ih]

/-- C22: for channels of equal length `calculateStereoWidth` returns
`sideEnergy / (midEnergy + sideEnergy) * 100` with `mid = (L + R) / 2` and
`side = (L - R) / 2` per sample (0 when both energies are 0); the result lies in
[0, 100]; it is 0 for identical channels and 100 for inverted channels that are not all
zero. -/
theorem calculateStereoWidth_spec (L R : List ℝ) (hlen : L.length = R.length) :
    calculateStereoWidth L R
      = (if ((List.zip L R).map (fun s => ((s.1 + s.2) / 2) ^ 2)).sum
            + ((List.zip L R).map (fun s => ((s.1 - s.2) / 2) ^ 2)).sum = 0 then 0
         else ((List.zip L R).map (fun s => ((s.1 - s.2) / 2) ^ 2)).sum
            / (((List.zip L R).map (fun s => ((s.1 + s.2) / 2) ^ 2)).sum
              + ((List.zip L R).map (fun s => ((s.1 - s.2) / 2) ^ 2)).sum) * 100) ∧
    0 ≤ calculateStereoWidth L R ∧ calculateStereoWidth L R ≤ 100 ∧
    ((((List.zip L R).map (fun s => ((s.1 + s.2) / 2) ^ 2)).sum = 0 ∧
        ((List.zip L R).map (fun s => ((s.1 - s.2) / 2) ^ 2)).sum = 0) →
      calculateStereoWidth L R = 0) ∧
    (L = R → calculateStereoWidth L R = 0) ∧
    (R = L.map (fun x => -x) → (∃ x ∈ L, x ≠ 0) → calculateStereoWidth L R = 100) := by
  have _ := hlen
  obtain ⟨hM, hM0⟩ := sum_sq_map_nonneg (List.zip L R) (fun s => (s.1 + s.2) / 2)
  obtain ⟨hS, hS0⟩ := sum_sq_map_nonneg (List.zip L R) (fun s => (s.1 - s.2) / 2)
  have heq : calculateStereoWidth L R
      = (if ((List.zip L R).map (fun s => ((s.1 + s.2) / 2) ^ 2)).sum
            + ((List.zip L R).map (fun s => ((s.1 - s.2) / 2) ^ 2)).sum = 0 then 0
         else ((List.zip L R).map (fun s => ((s.1 - s.2) / 2) ^ 2)).sum
            / (((List.zip L R).map (fun s => ((s.1 + s.2) / 2) ^ 2)).sum
              + ((List.zip L R).map (fun s => ((s.1 - s.2) / 2) ^ 2)).sum) * 100) := by
    unfold calculateStereoWidth
    rw [stereoEnergies_eq]
  rw [heq]
  generalize hMdef : ((List.zip L R).map (fun s => ((s.1 + s.2) / 2) ^ 2)).sum = M at hM hM0 ⊢
  generalize hSdef : ((List.zip L R).map (fun s => ((s.1 - s.2) / 2) ^ 2)).sum = S at hS hS0 ⊢
  refine ⟨rfl, ?_, ?_, ?_, ?_, ?_⟩
  · split_ifs with h0
    · exact le_refl _
    · exact mul_nonneg (div_nonneg hS (add_nonneg hM hS)) (by norm_num)
  · split_ifs with h0
    · norm_num
    · have hpos : 0 < M + S := lt_of_le_of_ne (add_nonneg hM hS) (Ne.symm h0)
      have : S / (M + S) ≤ 1 := by rw [div_le_one hpos]; linarith
      linarith
  · rintro ⟨h1, h2⟩
    rw [if_pos (by rw [h1, h2]; norm_num)]
  · intro hLR
    have hS00 : S = 0 := by
      rw [← hSdef]
      apply List.sum_eq_zero
      intro y hy
      obtain ⟨s, hs, rfl⟩ := List.mem_map.1 hy
      subst hLR
      have hzip := zip_map_self L (fun x => x)
      rw [List.map_id'] at hzip
      rw [hzip] at hs
      obtain ⟨x, _, rfl⟩ := List.mem_map.1 hs
      ring
    rw [hS00]
    split_ifs <;> simp
  · intro hinv hnz
    have hzip := zip_map_self L (fun x => -x)
    rw [← hinv] at hzip
    have hM00 : M = 0 := by
      rw [← hMdef]
      apply List.sum_eq_zero
      intro y hy
      obtain ⟨s, hs, rfl⟩ := List.mem_map.1 hy
      rw [hzip] at hs
      obtain ⟨x, _, rfl⟩ := List.mem_map.1 hs
      ring
    have hSne : S ≠ 0 := by
      intro hS00
      obtain ⟨x, hx, hxne⟩ := hnz
      have hmem : (x, -x) ∈ List.zip L R := by
        rw [hzip]; exact List.mem_map.2 ⟨x, hx, rfl⟩
      have := hS0 hS00 (x, -x) hmem
      simp only [sub_neg_eq_add] at this
      apply hxne
      linarith
    rw [hM00, zero_add, if_neg hSne, div_self hSne]
    norm_num

/-- C22 (witness): a hard-left signal, of width 50. -/
theorem calculateStereoWidth_spec_witness :
    ([1, 1] : List ℝ).length = ([0, 0] : List ℝ).length ∧
    0 ≤ calculateStereoWidth ([1, 1] : List ℝ) [0, 0] ∧
    calculateStereoWidth ([1, 1] : List ℝ) [0, 0] ≤ 100 :=
  ⟨rfl, (calculateStereoWidth_spec [1, 1] [0, 0] rfl).2.1,
    (calculateStereoWidth_spec [1, 1] [0, 0] rfl).2.2.1⟩

end AudioEngine

namespace AudioEngine

/-! ## Inputs shorter than one block -/

/-- C26: whenever the channel length `n` satisfies `n <= floor(0.4 * sampleRate)`, the
block loop of `calculateLUFS` finishes at its first test without a block and the function
returns `integrated = shortTerm = momentary = -70`, whatever the samples are; in
particular this holds for every analysis block of at most 16384 samples at 44100 Hz or
48000 Hz. -/
theorem calculateLUFS_short_input (fuel : ℕ) (L R : List ℝ) (sampleRate : ℝ)
    (hlen : L.length = R.length) :
    ((L.length : ℤ) ≤ ⌊sampleRate * 0.4⌋ →
      lufsBlocks (fuel + 1) L R sampleRate = some [] ∧
      calculateLUFS (fuel + 1) L R sampleRate = some LUFS.floor) ∧
    (L.length ≤ 16384 → (sampleRate = 44100 ∨ sampleRate = 48000) →
      calculateLUFS (fuel + 1) L R sampleRate = some LUFS.floor) := by
  have key : (L.length : ℤ) ≤ ⌊sampleRate * 0.4⌋ →
      lufsBlocks (fuel + 1) L R sampleRate = some [] ∧
      calculateLUFS (fuel + 1) L R sampleRate = some LUFS.floor := by
    intro hshort
    have hnat : L.length ≤ ⌊sampleRate * 0.4⌋₊ := by
      rw [← Int.floor_toNat]
      omega
    have hb : lufsBlocks (fuel + 1) L R sampleRate = some [] := by
      unfold lufsBlocks
      apply blockLoop_short
      have hp : (channelPowers (applyFilters L) (applyFilters R)).length = L.length := by
        simp [channelPowers, applyFilters, hlen]
      rw [hp]
      have : (L.length : ℚ) ≤ ((⌊sampleRate * 0.4⌋₊ : ℕ) : ℚ) := by exact_mod_cast hnat
      linarith
    refine ⟨hb, ?_⟩
    simp [calculateLUFS, hb]
  refine ⟨key, ?_⟩
  intro h16 hrate
  apply (key _).2
  rcases hrate with h | h
  · have hf : ⌊sampleRate * 0.4⌋ = 17640 := by
      rw [h, Int.floor_eq_iff]; norm_num
    rw [hf]
    have : (L.length : ℤ) ≤ 16384 := by exact_mod_cast h16
    omega
  · have hf : ⌊sampleRate * 0.4⌋ = 19200 := by
      rw [h, Int.floor_eq_iff]; norm_num
    rw [hf]
    have : (L.length : ℤ) ≤ 16384 := by exact_mod_cast h16
    omega

/-- C26 (witness): a full-scale two-sample block at 44100 Hz. -/
theorem calculateLUFS_short_input_witness :
    ([1, -1] : List ℝ).length = ([1, 1] : List ℝ).length ∧
    ([1, -1] : List ℝ).length ≤ 16384 ∧
    calculateLUFS (0 + 1) [1, -1] [1, 1] 44100 = some LUFS.floor :=
  ⟨rfl, by simp,
    (calculateLUFS_short_input 0 [1, -1] [1, 1] 44100 rfl).2 (by simp) (Or.inl rfl)⟩

end AudioEngine

namespace AudioEngine

/-! ## The relative gate raises the mean -/

/-- The loudness of a positive power, and its monotonicity. -/
theorem lufsOfPower_mono (p q : ℝ) (hp : 0 < p) (hpq : p ≤ q) :
    lufsOfPower p = ((-0.691 + 10 * Real.logb 10 p : ℝ) : WithBot ℝ) ∧
    lufsOfPower p ≤ lufsOfPower q := by
  have hq : 0 < q := lt_of_lt_of_le hp hpq
  have h1 : ∀ x : ℝ, 0 < x →
      lufsOfPower x = ((-0.691 + 10 * Real.logb 10 x : ℝ) : WithBot ℝ) := by
    intro x hx
    simp only [lufsOfPower, log10, if_neg (ne_of_gt hx)]
    rfl
  refine ⟨h1 p hp, ?_⟩
  rw [h1 p hp, h1 q hq, WithBot.coe_le_coe]
  have := Real.logb_le_logb_of_le (by norm_num : (1 : ℝ) < 10) hp hpq
  linarith

/-- C27: in `calculateLUFS`, whenever the gated block set is non-empty, the ungated mean
is positive, the relative threshold equals `10 ^ (-1.0691)` times the ungated mean, every
discarded block is at most that threshold and therefore below the ungated mean, every
block whose power is at least the ungated mean is retained, the gated mean power is
greater than or equal to the ungated mean power, and hence the integrated loudness is
greater than or equal to the ungated loudness. -/
theorem gate_raises_mean (fuel : ℕ) (L R : List ℝ) (sampleRate : ℝ) (blocks : List ℝ)
    (hblocks : lufsBlocks fuel L R sampleRate = some blocks)
    (hgate : gatedBlocks blocks ≠ []) :
    0 < ungatedMean blocks ∧
    relativeThreshold blocks = (10 : ℝ) ^ (-1.0691 : ℝ) * ungatedMean blocks ∧
    (∀ b ∈ blocks, b ∉ gatedBlocks blocks →
      b ≤ relativeThreshold blocks ∧ b < ungatedMean blocks) ∧
    (∀ b ∈ blocks, ungatedMean blocks ≤ b → b ∈ gatedBlocks blocks) ∧
    ungatedMean blocks ≤ gatedMean blocks ∧
    ungatedLUFS blocks ≤ lufsOfPower (gatedMean blocks) := by
  have hnn := lufsBlocks_nonneg fuel L R sampleRate blocks hblocks
  have hmean0 : 0 ≤ ungatedMean blocks :=
    div_nonneg (List.sum_nonneg hnn) (Nat.cast_nonneg _)
  have hthr0 : 0 ≤ relativeThreshold blocks := by
    rcases eq_or_lt_of_le hmean0 with h0 | hpos
    · rw [relativeThreshold_of_zero blocks h0.symm]
    · rw [(relativeThreshold_of_pos blocks hpos).2]
      exact mul_nonneg hmean0 gateFactor_bounds.1.le
  obtain ⟨g, hg⟩ := List.exists_mem_of_ne_nil _ hgate
  have hg2 : g ∈ blocks ∧ g > relativeThreshold blocks := by
    unfold gatedBlocks at hg
    simpa using List.mem_filter.1 hg
  have hsum : 0 < blocks.sum :=
    lt_of_lt_of_le (lt_of_le_of_lt hthr0 hg2.2) (List.single_le_sum hnn g hg2.1)
  have hlenpos : (0 : ℝ) < (blocks.length : ℝ) := by
    exact_mod_cast List.length_pos_of_mem hg2.1
  have hmean : 0 < ungatedMean blocks := div_pos hsum hlenpos
  have hthr : relativeThreshold blocks = (10 : ℝ) ^ (-1.0691 : ℝ) * ungatedMean blocks := by
    rw [(relativeThreshold_of_pos blocks hmean).2, mul_comm]
  have hlt : relativeThreshold blocks < ungatedMean blocks := by
    rw [hthr]
    have := gateFactor_bounds.2
    nlinarith
  have hle : ungatedMean blocks ≤ gatedMean blocks :=
    arrayMean_le_arrayMean_filter (relativeThreshold blocks) blocks
      (relativeThreshold_le_mean blocks hmean0) hgate
  refine ⟨hmean, hthr, ?_, ?_, hle, ?_⟩
  · intro b hb hnot
    have hbt : b ≤ relativeThreshold blocks := by
      by_contra hc
      push_neg at hc
      apply hnot
      unfold gatedBlocks
      exact List.mem_filter.2 ⟨hb, by simpa using hc⟩
    exact ⟨hbt, lt_of_le_of_lt hbt hlt⟩
  · intro b hb hge
    unfold gatedBlocks
    exact List.mem_filter.2 ⟨hb, by simpa using lt_of_lt_of_le hlt hge⟩
  · exact (lufsOfPower_mono _ _ hmean hle).2

/-- C27 (witness): the two-block example `[1/4, 0]`, whose silent block is gated out. -/
theorem gate_raises_mean_witness :
    lufsBlocks 3 [1, 0, 0, 0, 0, 0] [0, 0, 0, 0, 0, 0] 10 = some [1 / 4, 0] ∧
    gatedBlocks [1 / 4, 0] ≠ [] ∧
    ungatedLUFS [1 / 4, 0] ≤ lufsOfPower (gatedMean [1 / 4, 0]) :=
  ⟨lufsBlocks_example, by rw [gatedBlocks_example]; simp,
    (gate_raises_mean 3 [1, 0, 0, 0, 0, 0] [0, 0, 0, 0, 0, 0] 10 [1 / 4, 0]
      lufsBlocks_example (by rw [gatedBlocks_example]; simp)).2.2.2.2.2⟩

end AudioEngine

namespace SpectralMigrationAnalyzer

/-! ## The regression slope -/

/-- The four running sums of `calculateTrend` in closed form. -/
theorem trendSums_foldl (ps : List (ℕ × ℝ)) (a b c d : ℝ) :
    ps.foldl (fun (acc : ℝ × ℝ × ℝ × ℝ) (p : ℕ × ℝ) =>
        (acc.1 + (p.1 : ℝ), acc.2.1 + p.2, acc.2.2.1 + (p.1 : ℝ) * p.2,
          acc.2.2.2 + (p.1 : ℝ) * (p.1 : ℝ))) (a, b, c, d)
      = (a + (ps.map (fun p => (p.1 : ℝ))).sum, b + (ps.map (fun p => p.2)).sum,
          c + (ps.map (fun p => (p.1 : ℝ) * p.2)).sum,
          d + (ps.map (fun p => (p.1 : ℝ) * (p.1 : ℝ))).sum) := by
  induction ps generalizing a b c d with
  | nil => simp
  | cons p ps ih =>
    simp only [List.foldl_cons, List.map_cons, List.sum_cons]
    rw [ih]
    simp only [add_assoc]

/-- The sums of the indices `0 .. n-1` and of their squares. -/
theorem sum_range_index (n : ℕ) :
    ((List.range n).map (fun (i : ℕ) => (i : ℝ))).sum = (n : ℝ) * ((n : ℝ) - 1) / 2 ∧
    ((List.range n).map (fun (i : ℕ) => (i : ℝ) * (i : ℝ))).sum
      = ((n : ℝ) - 1) * (n : ℝ) * (2 * (n : ℝ) - 1) / 6 := by
  induction n with
  | zero => simp
  | succ n ih =>
    rw [List.range_succ, List.map_append, List.map_append, List.sum_append, List.sum_append,
      ih.1, ih.2]
    simp only [List.map_cons, List.map_nil, List.sum_cons, List.sum_nil, Nat.cast_add,
      Nat.cast_one]
    constructor <;> ring

/-- Index sums over the enumeration of a list are index sums over `0 .. n-1`. -/
theorem sum_enum_index (values : List ℝ) (g : ℕ → ℝ) :
    (values.enum.map (fun p => g p.1)).sum = ((List.range values.length).map g).sum ∧
    (values.enum.map (fun p => p.2)).sum = values.sum := by
  constructor
  · have : values.enum.map (fun p => g p.1) = (values.enum.map Prod.fst).map g := by
      rw [List.map_map]; rfl
    rw [this, List.enum_map_fst]
  · have : values.enum.map (fun p => p.2) = values.enum.map Prod.snd := rfl
    rw [this, List.enum_map_snd]

/-- The centred sums of a list of pairs in terms of the raw sums. -/
theorem centred_sums (ps : List (ℕ × ℝ)) (m k : ℝ) :
    (ps.map (fun p => ((p.1 : ℝ) - m) * (p.2 - k))).sum
      = (ps.map (fun p => (p.1 : ℝ) * p.2)).sum - m * (ps.map (fun p => p.2)).sum
        - k * (ps.map (fun p => (p.1 : ℝ))).sum + (ps.length : ℝ) * m * k ∧
    (ps.map (fun p => ((p.1 : ℝ) - m) ^ 2)).sum
      = (ps.map (fun p => (p.1 : ℝ) * (p.1 : ℝ))).sum
        - 2 * m * (ps.map (fun p => (p.1 : ℝ))).sum + (ps.length : ℝ) * m * m := by
  induction ps with
  | nil => simp
  | cons p ps ih =>
    simp only [List.map_cons, List.sum_cons, List.length_cons, Nat.cast_add, Nat.cast_one]
    rw [ih.1, ih.2]
    constructor <;> ring

/-- The raw sums of an affine sequence. -/
theorem affine_sums (ps : List (ℕ × ℝ)) (a d : ℝ) :
    (ps.map (fun p => a + d * (p.1 : ℝ))).sum
      = (ps.length : ℝ) * a + d * (ps.map (fun p => (p.1 : ℝ))).sum ∧
    (ps.map (fun p => (p.1 : ℝ) * (a + d * (p.1 : ℝ)))).sum
      = a * (ps.map (fun p => (p.1 : ℝ))).sum
        + d * (ps.map (fun p => (p.1 : ℝ) * (p.1 : ℝ))).sum := by
  induction ps with
  | nil => simp
  | cons p ps ih =>
    simp only [List.map_cons, List.sum_cons, List.length_cons, Nat.cast_add, Nat.cast_one]
    rw [ih.1, ih.2]
    constructor <;> ring

/-- C24: for every list of `n >= 2` real values, the denominator
`n * sum(i^2) - (sum i)^2` of `calculateTrend` is strictly positive, `calculateTrend`
returns `(n * sum(i * y_i) - sum(i) * sum(y_i))` divided by it, which is the
ordinary-least-squares slope `sum((i - mean_i) * (y_i - mean_y)) / sum((i - mean_i)^2)`
of the values against their index, and for an arithmetic sequence `y_i = a + d * i` the
result is exactly `d`. -/
theorem calculateTrend_least_squares (values : List ℝ) (hn : 2 ≤ values.length) :
    0 < (values.length : ℝ)
          * ((List.range values.length).map (fun (i : ℕ) => (i : ℝ) * (i : ℝ))).sum
        - ((List.range values.length).map (fun (i : ℕ) => (i : ℝ))).sum
          * ((List.range values.length).map (fun (i : ℕ) => (i : ℝ))).sum ∧
    calculateTrend values
      = ((values.length : ℝ) * (values.enum.map (fun p => (p.1 : ℝ) * p.2)).sum
          - ((List.range values.length).map (fun (i : ℕ) => (i : ℝ))).sum * values.sum)
        / ((values.length : ℝ)
            * ((List.range values.length).map (fun (i : ℕ) => (i : ℝ) * (i : ℝ))).sum
          - ((List.range values.length).map (fun (i : ℕ) => (i : ℝ))).sum
            * ((List.range values.length).map (fun (i : ℕ) => (i : ℝ))).sum) ∧
    calculateTrend values = specLeastSquaresSlope values ∧
    (∀ a d : ℝ, (∀ (i : ℕ) (y : ℝ), values[i]? = some y → y = a + d * (i : ℝ)) →
      calculateTrend values = d) := by
  have hn2 : (2 : ℝ) ≤ (values.length : ℝ) := by exact_mod_cast hn
  have hX := (sum_enum_index values (fun i => (i : ℝ))).1
  have hXX := (sum_enum_index values (fun i => (i : ℝ) * (i : ℝ))).1
  have hY := (sum_enum_index values (fun i => (i : ℝ))).2
  have hcode : calculateTrend values
      = ((values.length : ℝ) * (values.enum.map (fun p => (p.1 : ℝ) * p.2)).sum
          - ((List.range values.length).map (fun (i : ℕ) => (i : ℝ))).sum * values.sum)
        / ((values.length : ℝ)
            * ((List.range values.length).map (fun (i : ℕ) => (i : ℝ) * (i : ℝ))).sum
          - ((List.range values.length).map (fun (i : ℕ) => (i : ℝ))).sum
            * ((List.range values.length).map (fun (i : ℕ) => (i : ℝ))).sum) := by
    unfold calculateTrend
    rw [if_neg (by omega)]
    simp only [trendSums_foldl, zero_add]
    rw [hX, hXX, hY]
  have hden : (values.length : ℝ)
          * ((List.range values.length).map (fun (i : ℕ) => (i : ℝ) * (i : ℝ))).sum
        - ((List.range values.length).map (fun (i : ℕ) => (i : ℝ))).sum
          * ((List.range values.length).map (fun (i : ℕ) => (i : ℝ))).sum
      = (values.length : ℝ) ^ 2 * ((values.length : ℝ) - 1) * ((values.length : ℝ) + 1) / 12 := by
    rw [(sum_range_index values.length).1, (sum_range_index values.length).2]
    ring
  have hpos : 0 < (values.length : ℝ) ^ 2 * ((values.length : ℝ) - 1)
      * ((values.length : ℝ) + 1) / 12 := by
    have h1 : 0 < (values.length : ℝ) := by linarith
    have h2 : 0 < (values.length : ℝ) - 1 := by linarith
    positivity
  have hdenpos : 0 < (values.length : ℝ)
          * ((List.range values.length).map (fun (i : ℕ) => (i : ℝ) * (i : ℝ))).sum
        - ((List.range values.length).map (fun (i : ℕ) => (i : ℝ))).sum
          * ((List.range values.length).map (fun (i : ℕ) => (i : ℝ))).sum := by
    rw [hden]; exact hpos
  refine ⟨hdenpos, hcode, ?_, ?_⟩
  · rw [hcode]
    unfold specLeastSquaresSlope
    simp only []
    have hc1 := (centred_sums values.enum
      (((List.range values.length).map (fun (i : ℕ) => (i : ℝ))).sum / (values.length : ℝ))
      (values.sum / (values.length : ℝ))).1
    have hc2 := (centred_sums values.enum
      (((List.range values.length).map (fun (i : ℕ) => (i : ℝ))).sum / (values.length : ℝ))
      (values.sum / (values.length : ℝ))).2
    have hg := (sum_enum_index values (fun i => ((i : ℝ)
      - ((List.range values.length).map (fun (i : ℕ) => (i : ℝ))).sum
        / (values.length : ℝ)) ^ 2)).1
    rw [← hg, hc1, hc2, hX, hXX, hY, List.enum_length]
    generalize (values.enum.map (fun p => (p.1 : ℝ) * p.2)).sum = SXY
    generalize values.sum = SY
    rw [(sum_range_index values.length).1, (sum_range_index values.length).2]
    generalize (values.length : ℝ) = n at hn2
    have hnz : n ≠ 0 := by linarith
    have hn1 : n - 1 ≠ 0 := by linarith
    have hn3 : n + 1 ≠ 0 := by linarith
    have e1 : n * ((n - 1) * n * (2 * n - 1) / 6) - n * (n - 1) / 2 * (n * (n - 1) / 2)
        = n * (n * (n - 1) * (n + 1) / 12) := by ring
    have e2 : (n - 1) * n * (2 * n - 1) / 6 - 2 * (n * (n - 1) / 2 / n) * (n * (n - 1) / 2)
          + n * (n * (n - 1) / 2 / n) * (n * (n - 1) / 2 / n)
        = n * (n - 1) * (n + 1) / 12 := by
      field_simp
      ring
    have e3 : SXY - n * (n - 1) / 2 / n * SY - SY / n * (n * (n - 1) / 2)
          + n * (n * (n - 1) / 2 / n) * (SY / n)
        = (n * SXY - n * (n - 1) / 2 * SY) / n := by
      field_simp
      ring
    rw [e1, e2, e3]
    have hq : n * (n - 1) * (n + 1) / 12 ≠ 0 := by
      have : n * (n - 1) * (n + 1) ≠ 0 := mul_ne_zero (mul_ne_zero hnz hn1) hn3
      exact div_ne_zero this (by norm_num)
    rw [div_div]
  · intro a d hseq
    rw [hcode]
    have hmap : values.enum.map (fun p => (p.1 : ℝ) * p.2)
        = values.enum.map (fun p => (p.1 : ℝ) * (a + d * (p.1 : ℝ))) := by
      apply List.map_congr_left
      intro p hp
      rw [hseq p.1 p.2 (List.mk_mem_enum_iff_getElem?.1 hp)]
    have hmapY : values.enum.map (fun p => p.2)
        = values.enum.map (fun p => a + d * (p.1 : ℝ)) := by
      apply List.map_congr_left
      intro p hp
      rw [hseq p.1 p.2 (List.mk_mem_enum_iff_getElem?.1 hp)]
    rw [← hY, hmap, hmapY, (affine_sums values.enum a d).1, (affine_sums values.enum a d).2,
      hX, hXX, List.enum_length]
    rw [div_eq_iff (ne_of_gt hdenpos)]
    ring

/-- C24 (witness): the arithmetic sequence 1, 3, 5 has slope 2. -/
theorem calculateTrend_least_squares_witness :
    2 ≤ ([1, 3, 5] : List ℝ).length ∧ calculateTrend ([1, 3, 5] : List ℝ) = 2 :=
  ⟨by simp, (calculateTrend_least_squares [1, 3, 5] (by simp)).2.2.2 1 2 (by
    intro i y h
    match i, h with
    | 0, h => simp at h; rw [← h]; norm_num
    | 1, h => simp at h; rw [← h]; norm_num
    | 2, h => simp at h; rw [← h]; norm_num
    | (k + 3), h => simp at h)⟩

end SpectralMigrationAnalyzer

namespace SpectralMigrationAnalyzer

/-! ## Spectral entropy -/

/-- The entropy loop of `calculateSpectralEntropy` in closed form. -/
theorem entropy_foldl (ps : List ℝ) (e : ℝ) :
    ps.foldl (fun entropy p => if p > 0 then entropy - p * Real.logb 2 p else entropy) e
      = e + (ps.map (fun p => if p > 0 then -(p * Real.logb 2 p) else 0)).sum := by
  induction ps generalizing e with
  | nil => simp
  | cons p ps ih =>
    simp only [List.foldl_cons, List.map_cons, List.sum_cons]
    rw [ih]
    split_ifs <;> ring

/-- The sum of an affine image of a list. -/
theorem sum_map_affine (ps : List ℝ) (a b : ℝ) :
    (ps.map (fun p => a * p + b)).sum = a * ps.sum + (ps.length : ℝ) * b := by
  induction ps with
  | nil => simp
  | cons p ps ih =>
    simp only [List.map_cons, List.sum_cons, List.length_cons, Nat.cast_add, Nat.cast_one]
    rw [ih]; ring

/-- Dividing every entry divides the sum. -/
theorem sum_map_div (ps : List ℝ) (s : ℝ) :
    (ps.map (fun val => val / s)).sum = ps.sum / s := by
  induction ps with
  | nil => simp
  | cons p ps ih =>
    simp only [List.map_cons, List.sum_cons]
    rw [ih]; ring

/-- One term of the entropy sum: non-negative on [0, 1], and bounded through
`log x <= x - 1`. -/
theorem entropy_term_bounds (p n : ℝ) (hp0 : 0 ≤ p) (hp1 : p ≤ 1) (hn : 0 < n) :
    0 ≤ (if p > 0 then -(p * Real.logb 2 p) else 0) ∧
    (if p > 0 then -(p * Real.logb 2 p) else 0)
      ≤ (Real.logb 2 n - 1 / Real.log 2) * p + 1 / n / Real.log 2 := by
  have hlog2 : 0 < Real.log 2 := Real.log_pos (by norm_num)
  have hmain : (if p > 0 then -(p * Real.logb 2 p) else 0)
      ≤ (Real.logb 2 n - 1 / Real.log 2) * p + 1 / n / Real.log 2 := by
    split_ifs with hp
    · have hnp : 0 < 1 / (n * p) := by positivity
      have h1 := Real.log_le_sub_one_of_pos hnp
      have h2 : Real.log (1 / (n * p)) = -(Real.log n + Real.log p) := by
        rw [one_div, Real.log_inv, Real.log_mul (ne_of_gt hn) (ne_of_gt hp)]
      rw [h2] at h1
      have h3 : p * (1 / (n * p) - 1) = 1 / n - p := by
        field_simp
        ring
      have h4 : p * (-(Real.log n + Real.log p)) ≤ 1 / n - p := by
        rw [← h3]
        exact mul_le_mul_of_nonneg_left h1 hp0
      simp only [Real.logb]
      have h5 : -(p * (Real.log p / Real.log 2))
          = (p * (-(Real.log n + Real.log p)) + p * Real.log n) / Real.log 2 := by
        field_simp
        ring
      have h6 : (Real.log n / Real.log 2 - 1 / Real.log 2) * p + 1 / n / Real.log 2
          = ((1 / n - p) + p * Real.log n) / Real.log 2 := by
        field_simp
        ring
      rw [h5, h6]
      exact div_le_div_of_nonneg_right (by linarith) hlog2.le
    · have hp00 : p = 0 := le_antisymm (not_lt.1 hp) hp0
      rw [hp00]
      simp only [mul_zero, zero_add]
      positivity
  refine ⟨?_, hmain⟩
  split_ifs with hp
  · have : Real.logb 2 p ≤ 0 := Real.logb_nonpos (by norm_num) hp0 hp1
    nlinarith
  · exact le_refl _

/-- A list with a single non-zero entry sums to that entry. -/
theorem sum_single_nonzero (l : List ℝ) (i : ℕ) (x : ℝ) (hi : l[i]? = some x)
    (hothers : ∀ (j : ℕ) (y : ℝ), l[j]? = some y → j ≠ i → y = 0) : l.sum = x := by
  induction l generalizing i with
  | nil => simp at hi
  | cons a t ih =>
    cases i with
    | zero =>
      have ha : a = x := by simpa using hi
      have ht : ∀ y ∈ t, y = 0 := by
        intro y hy
        obtain ⟨j, hj⟩ := List.getElem?_of_mem hy
        exact hothers (j + 1) y (by simpa using hj) (by omega)
      rw [List.sum_cons, List.sum_eq_zero ht, ha, add_zero]
    | succ i =>
      have ha : a = 0 := hothers 0 a (by simp) (by omega)
      have := ih i (by simpa using hi) (fun j y hj hne =>
        hothers (j + 1) y (by simpa using hj) (by omega))
      rw [List.sum_cons, ha, this, zero_add]

/-- Exact arithmetic: for every spectrum of `n >= 2` non-negative band energies, the
expression of `calculateSpectralEntropy` is 0 when the sum is 0 and otherwise the Shannon
entropy (base 2) of the spectrum normalised to sum 1, divided by `log2(n)`; it lies in
[0, 1]; it is 0 when exactly one band has non-zero energy, and 1 when all bands have the
same positive energy. The source evaluates it in doubles without a clamp: ten bands of
energy 0.1 give `1.0000000000000004` and eleven bands of energy 1 give
`1.0000000000000002`. -/
theorem calculateSpectralEntropy_spec (spectrum : List ℝ) (hn : 2 ≤ spectrum.length)
    (hnn : ∀ e ∈ spectrum, 0 ≤ e) :
    calculateSpectralEntropy spectrum
      = (if spectrum.sum = 0 then 0
         else specShannonEntropy (spectrum.map (fun val => val / spectrum.sum))
           / Real.logb 2 (spectrum.length : ℝ)) ∧
    0 ≤ calculateSpectralEntropy spectrum ∧ calculateSpectralEntropy spectrum ≤ 1 ∧
    (spectrum.sum = 0 → calculateSpectralEntropy spectrum = 0) ∧
    (∀ (i : ℕ) (x : ℝ), spectrum[i]? = some x → x ≠ 0 →
      (∀ (j : ℕ) (y : ℝ), spectrum[j]? = some y → j ≠ i → y = 0) →
      calculateSpectralEntropy spectrum = 0) ∧
    (∀ c : ℝ, 0 < c → (∀ e ∈ spectrum, e = c) → calculateSpectralEntropy spectrum = 1) := by
  have hn2 : (2 : ℝ) ≤ (spectrum.length : ℝ) := by exact_mod_cast hn
  have hnpos : (0 : ℝ) < (spectrum.length : ℝ) := by linarith
  have hlogn : 0 < Real.logb 2 (spectrum.length : ℝ) :=
    Real.logb_pos (by norm_num) (by linarith)
  have hlog2 : 0 < Real.log 2 := Real.log_pos (by norm_num)
  have hsum0 : 0 ≤ spectrum.sum := List.sum_nonneg hnn
  have hcode : calculateSpectralEntropy spectrum
      = (if spectrum.sum = 0 then 0
         else ((spectrum.map (fun val => val / spectrum.sum)).map
             (fun p => if p > 0 then -(p * Real.logb 2 p) else 0)).sum
           / Real.logb 2 (spectrum.length : ℝ)) := by
    unfold calculateSpectralEntropy
    simp only [entropy_foldl, zero_add]
  have hp : spectrum.sum ≠ 0 → ∀ p ∈ spectrum.map (fun val => val / spectrum.sum),
      0 ≤ p ∧ p ≤ 1 := by
    intro hs p hp
    obtain ⟨e, he, rfl⟩ := List.mem_map.1 hp
    have hpos : 0 < spectrum.sum := lt_of_le_of_ne hsum0 (Ne.symm hs)
    exact ⟨div_nonneg (hnn e he) hsum0,
      (div_le_one hpos).2 (List.single_le_sum hnn e he)⟩
  have hspec : spectrum.sum ≠ 0 →
      ((spectrum.map (fun val => val / spectrum.sum)).map
          (fun p => if p > 0 then -(p * Real.logb 2 p) else 0)).sum
        = specShannonEntropy (spectrum.map (fun val => val / spectrum.sum)) := by
    intro hs
    unfold specShannonEntropy
    congr 1
    apply List.map_congr_left
    intro p hpm
    have := (hp hs p hpm).1
    by_cases h0 : p = 0
    · rw [if_neg (by rw [h0]; exact lt_irrefl _), if_pos h0]
    · rw [if_pos (lt_of_le_of_ne this (Ne.symm h0)), if_neg h0]
  have hnormsum : spectrum.sum ≠ 0 →
      (spectrum.map (fun val => val / spectrum.sum)).sum = 1 := by
    intro hs
    rw [sum_map_div, div_self hs]
  refine ⟨?_, ?_, ?_, ?_, ?_, ?_⟩
  · rw [hcode]
    split_ifs with hs
    · rfl
    · rw [hspec hs]
  · rw [hcode]
    split_ifs with hs
    · exact le_refl _
    · apply div_nonneg _ hlogn.le
      apply List.sum_nonneg
      intro t ht
      obtain ⟨p, hpm, rfl⟩ := List.mem_map.1 ht
      exact (entropy_term_bounds p _ (hp hs p hpm).1 (hp hs p hpm).2 hnpos).1
  · rw [hcode]
    split_ifs with hs
    · norm_num
    · rw [div_le_one hlogn]
      have hle : ((spectrum.map (fun val => val / spectrum.sum)).map
            (fun p => if p > 0 then -(p * Real.logb 2 p) else 0)).sum
          ≤ ((spectrum.map (fun val => val / spectrum.sum)).map
            (fun p => (Real.logb 2 (spectrum.length : ℝ) - 1 / Real.log 2) * p
              + 1 / (spectrum.length : ℝ) / Real.log 2)).sum := by
        apply List.sum_le_sum
        intro p hpm
        exact (entropy_term_bounds p _ (hp hs p hpm).1 (hp hs p hpm).2 hnpos).2
      rw [sum_map_affine, hnormsum hs, List.length_map] at hle
      have e : (Real.logb 2 (spectrum.length : ℝ) - 1 / Real.log 2) * 1
          + (spectrum.length : ℝ) * (1 / (spectrum.length : ℝ) / Real.log 2)
          = Real.logb 2 (spectrum.length : ℝ) := by
        field_simp
        ring
      rw [e] at hle
      exact hle
  · intro hs
    rw [hcode, if_pos hs]
  · intro i x hi hx hothers
    have hsx := sum_single_nonzero spectrum i x hi hothers
    rw [hcode, if_neg (by rw [hsx]; exact hx)]
    have hz : ((spectrum.map (fun val => val / spectrum.sum)).map
        (fun p => if p > 0 then -(p * Real.logb 2 p) else 0)).sum = 0 := by
      apply List.sum_eq_zero
      intro t ht
      obtain ⟨p, hpm, rfl⟩ := List.mem_map.1 ht
      obtain ⟨e, he, rfl⟩ := List.mem_map.1 hpm
      obtain ⟨j, hj⟩ := List.getElem?_of_mem he
      by_cases hji : j = i
      · rw [hji, hi] at hj
        rw [← Option.some.inj hj, hsx, div_self hx]
        simp
      · rw [hothers j e hj hji]
        simp
    rw [hz, zero_div]
  · intro c hc hall
    have hrep : spectrum = List.replicate spectrum.length c :=
      List.eq_replicate_iff.2 ⟨rfl, hall⟩
    have hsc : spectrum.sum = (spectrum.length : ℝ) * c := by
      conv_lhs => rw [hrep]
      rw [List.sum_replicate, nsmul_eq_mul]
    have hs : spectrum.sum ≠ 0 := by
      rw [hsc]; exact ne_of_gt (mul_pos hnpos hc)
    rw [hcode, if_neg hs, div_eq_one_iff_eq (ne_of_gt hlogn)]
    have hterm : ∀ t ∈ (spectrum.map (fun val => val / spectrum.sum)).map
        (fun p => if p > 0 then -(p * Real.logb 2 p) else 0),
        t = Real.logb 2 (spectrum.length : ℝ) / (spectrum.length : ℝ) := by
      intro t ht
      obtain ⟨p, hpm, rfl⟩ := List.mem_map.1 ht
      obtain ⟨e, he, rfl⟩ := List.mem_map.1 hpm
      rw [hall e he, hsc]
      have hq : c / ((spectrum.length : ℝ) * c) = 1 / (spectrum.length : ℝ) := by
        field_simp
        ring
      rw [hq, if_pos (by positivity), one_div, Real.logb_inv]
      ring
    rw [List.eq_replicate_iff.2 ⟨rfl, hterm⟩, List.sum_replicate, nsmul_eq_mul]
    simp only [List.length_map]
    field_simp

end SpectralMigrationAnalyzer

namespace PhaseCoherenceHeatmap

/-! ## Smoothing of the phase matrix -/

/-- The two running sums of the smoothing loop in closed form. -/
theorem smoothSums_foldl (entries : List (ℕ × List (List ℝ))) (i j : ℕ) (a b : ℝ) :
    entries.foldl (fun (acc : ℝ × ℝ) (entry : ℕ × List (List ℝ)) =>
        (acc.1 + cellAt entry.2 i j * (1.5 : ℝ) ^ entry.1, acc.2 + (1.5 : ℝ) ^ entry.1)) (a, b)
      = (a + (entries.map (fun entry => (1.5 : ℝ) ^ entry.1 * cellAt entry.2 i j)).sum,
          b + (entries.map (fun entry => (1.5 : ℝ) ^ entry.1)).sum) := by
  induction entries generalizing a b with
  | nil => simp
  | cons e entries ih =>
    simp only [List.foldl_cons, List.map_cons, List.sum_cons]
    rw [ih]
    congr 1
    · ring
    · ring

/-- The smoothed cell is the weighted average with the weights `1.5 ^ k`. -/
theorem smoothCell_eq (phaseHistory : List (List (List ℝ))) (i j : ℕ) :
    smoothCell phaseHistory i j
      = (phaseHistory.enum.map (fun entry => (1.5 : ℝ) ^ entry.1 * cellAt entry.2 i j)).sum
        / (phaseHistory.enum.map (fun entry => (1.5 : ℝ) ^ entry.1)).sum := by
  unfold smoothCell
  simp only [smoothSums_foldl, zero_add]

/-- A weighted average with positive weights lies between any bounds of the values. -/
theorem weighted_average_bounds (entries : List (ℕ × List (List ℝ))) (i j : ℕ) (lo hi : ℝ)
    (hne : entries ≠ [])
    (hb : ∀ entry ∈ entries, lo ≤ cellAt entry.2 i j ∧ cellAt entry.2 i j ≤ hi) :
    0 < (entries.map (fun entry => (1.5 : ℝ) ^ entry.1)).sum ∧
    lo ≤ (entries.map (fun entry => (1.5 : ℝ) ^ entry.1 * cellAt entry.2 i j)).sum
        / (entries.map (fun entry => (1.5 : ℝ) ^ entry.1)).sum ∧
    (entries.map (fun entry => (1.5 : ℝ) ^ entry.1 * cellAt entry.2 i j)).sum
        / (entries.map (fun entry => (1.5 : ℝ) ^ entry.1)).sum ≤ hi := by
  have key : ∀ es : List (ℕ × List (List ℝ)),
      (∀ entry ∈ es, lo ≤ cellAt entry.2 i j ∧ cellAt entry.2 i j ≤ hi) →
      0 ≤ (es.map (fun entry => (1.5 : ℝ) ^ entry.1)).sum ∧
      (es ≠ [] → 0 < (es.map (fun entry => (1.5 : ℝ) ^ entry.1)).sum) ∧
      lo * (es.map (fun entry => (1.5 : ℝ) ^ entry.1)).sum
        ≤ (es.map (fun entry => (1.5 : ℝ) ^ entry.1 * cellAt entry.2 i j)).sum ∧
      (es.map (fun entry => (1.5 : ℝ) ^ entry.1 * cellAt entry.2 i j)).sum
        ≤ hi * (es.map (fun entry => (1.5 : ℝ) ^ entry.1)).sum := by
    intro es
    induction es with
    | nil => intro _; simp
    | cons e es ih =>
      intro h
      obtain ⟨i0, _, i1, i2⟩ := ih (fun entry hentry => h entry (List.mem_cons_of_mem _ hentry))
      obtain ⟨b1, b2⟩ := h e (List.mem_cons_self _ _)
      have hw : 0 < (1.5 : ℝ) ^ e.1 := by positivity
      simp only [List.map_cons, List.sum_cons]
      refine ⟨by linarith, fun _ => by linarith, ?_, ?_⟩
      · nlinarith
      · nlinarith
  obtain ⟨_, k1, k2, k3⟩ := key entries hb
  have hpos := k1 hne
  exact ⟨hpos, (le_div_iff₀ hpos).2 k2, (div_le_iff₀ hpos).2 k3⟩

/-- The diagonal sum of `analyzePhaseIssues` in closed form. -/
theorem coherenceSum_foldl (data : List (List ℝ)) (l : List ℕ) (a : ℝ) :
    l.foldl (fun sum i => sum + cellAt data i i) a
      = a + (l.map (fun i => cellAt data i i)).sum := by
  induction l generalizing a with
  | nil => simp
  | cons x l ih =>
    simp only [List.foldl_cons, List.map_cons, List.sum_cons]
    rw [ih]; ring

/-- What `analyzePhaseIssues` stores. -/
theorem analyzePhaseIssues_spec (s : State) :
    (analyzePhaseIssues s).phaseData = s.phaseData ∧
    (analyzePhaseIssues s).phaseHistory = s.phaseHistory ∧
    (analyzePhaseIssues s).overallCoherence
      = ((List.range s.frequencyBands.toNat).map (fun i => cellAt s.phaseData i i)).sum
        / (s.frequencyBands : ℝ) ∧
    (analyzePhaseIssues s).problematicRegions
      = (List.range s.frequencyBands.toNat).filter
          (fun i => decide (cellAt s.phaseData i i < 0.4)) := by
  unfold analyzePhaseIssues
  simp only [coherenceSum_foldl, zero_add]
  exact ⟨trivial, trivial, trivial, trivial⟩

/-- C25: in `calculatePhaseRelationships` (at least 3 time windows, at least one band),
whenever at least 3 analysis cycles are stored after the push, each smoothed cell
`phaseData[i][j]` equals the weighted average `sum_k(1.5^k * h_k[i][j]) / sum_k(1.5^k)`
over the stored cycles `k = 0` (oldest) `.. n-1` (most recent); the most recent cycle
carries the strictly largest weight; the smoothed value lies between any lower and upper
bound of the stored values of the cell, hence between their minimum and maximum;
`overallCoherence` is the arithmetic mean of the diagonal entries `phaseData[i][i]` over
all bands; and `problematicRegions` lists exactly the bands whose diagonal entry is below
0.4. -/
theorem calculatePhaseRelationships_smoothing (s : State) (timeWindows : ℕ)
    (newPhaseData : List (List ℝ)) (htw : 3 ≤ timeWindows) (hbands : 1 ≤ s.frequencyBands)
    (hstored :
      3 ≤ (calculatePhaseRelationships s timeWindows newPhaseData).phaseHistory.length) :
    (∀ i j : ℕ, i < s.frequencyBands.toNat → j < s.frequencyBands.toNat →
      cellAt (calculatePhaseRelationships s timeWindows newPhaseData).phaseData i j
        = ((calculatePhaseRelationships s timeWindows newPhaseData).phaseHistory.enum.map
              (fun entry => (1.5 : ℝ) ^ entry.1 * cellAt entry.2 i j)).sum
          / ((calculatePhaseRelationships s timeWindows newPhaseData).phaseHistory.enum.map
              (fun entry => (1.5 : ℝ) ^ entry.1)).sum ∧
      ∀ lo hi : ℝ,
        (∀ data ∈ (calculatePhaseRelationships s timeWindows newPhaseData).phaseHistory,
          lo ≤ cellAt data i j ∧ cellAt data i j ≤ hi) →
        lo ≤ cellAt (calculatePhaseRelationships s timeWindows newPhaseData).phaseData i j ∧
        cellAt (calculatePhaseRelationships s timeWindows newPhaseData).phaseData i j ≤ hi) ∧
    (∀ k : ℕ,
      k + 1 < (calculatePhaseRelationships s timeWindows newPhaseData).phaseHistory.length →
      (1.5 : ℝ) ^ k < (1.5 : ℝ)
        ^ ((calculatePhaseRelationships s timeWindows newPhaseData).phaseHistory.length - 1)) ∧
    (calculatePhaseRelationships s timeWindows newPhaseData).overallCoherence
      = ((List.range s.frequencyBands.toNat).map (fun i =>
          cellAt (calculatePhaseRelationships s timeWindows newPhaseData).phaseData i i)).sum
        / (s.frequencyBands.toNat : ℝ) ∧
    (∀ i : ℕ, i ∈ (calculatePhaseRelationships s timeWindows newPhaseData).problematicRegions ↔
      (i < s.frequencyBands.toNat ∧
        cellAt (calculatePhaseRelationships s timeWindows newPhaseData).phaseData i i
          < 0.4)) := by
  have hrun : calculatePhaseRelationships s timeWindows newPhaseData
      = analyzePhaseIssues
          { s with
            phaseHistory := (s.phaseHistory ++ [newPhaseData]).drop
              ((s.phaseHistory ++ [newPhaseData]).length - s.historyLength.toNat)
            phaseData :=
              if ((s.phaseHistory ++ [newPhaseData]).drop
                  ((s.phaseHistory ++ [newPhaseData]).length - s.historyLength.toNat)).length
                  ≥ 3 then
                (List.range s.frequencyBands.toNat).map (fun i =>
                  (List.range s.frequencyBands.toNat).map (fun j =>
                    smoothCell ((s.phaseHistory ++ [newPhaseData]).drop
                      ((s.phaseHistory ++ [newPhaseData]).length - s.historyLength.toNat))
                      i j))
              else newPhaseData } := by
    unfold calculatePhaseRelationships
    rw [if_neg (by omega)]
  rw [hrun] at hstored ⊢
  obtain ⟨hd, hh, ho, hp⟩ := analyzePhaseIssues_spec
    { s with
      phaseHistory := (s.phaseHistory ++ [newPhaseData]).drop
        ((s.phaseHistory ++ [newPhaseData]).length - s.historyLength.toNat)
      phaseData :=
        if ((s.phaseHistory ++ [newPhaseData]).drop
            ((s.phaseHistory ++ [newPhaseData]).length - s.historyLength.toNat)).length
            ≥ 3 then
          (List.range s.frequencyBands.toNat).map (fun i =>
            (List.range s.frequencyBands.toNat).map (fun j =>
              smoothCell ((s.phaseHistory ++ [newPhaseData]).drop
                ((s.phaseHistory ++ [newPhaseData]).length - s.historyLength.toNat))
                i j))
        else newPhaseData }
  rw [hh] at hstored
  simp only [] at hstored hd hh ho hp
  rw [hd, hh, ho, hp, if_pos hstored]
  generalize (s.phaseHistory ++ [newPhaseData]).drop
    ((s.phaseHistory ++ [newPhaseData]).length - s.historyLength.toNat) = history at hstored ⊢
  have hcell : ∀ i j : ℕ, i < s.frequencyBands.toNat → j < s.frequencyBands.toNat →
      cellAt ((List.range s.frequencyBands.toNat).map (fun i =>
        (List.range s.frequencyBands.toNat).map (fun j => smoothCell history i j))) i j
        = smoothCell history i j := by
    intro i j hi hj
    simp [cellAt, List.getD, List.getElem?_range hi, List.getElem?_range hj]
  have hcast : ((s.frequencyBands.toNat : ℕ) : ℝ) = (s.frequencyBands : ℝ) := by
    have := Int.toNat_of_nonneg (by omega : 0 ≤ s.frequencyBands)
    exact_mod_cast this
  refine ⟨?_, ?_, ?_, ?_⟩
  · intro i j hi hj
    rw [hcell i j hi hj, smoothCell_eq]
    refine ⟨rfl, fun lo hi hb => ?_⟩
    have hne : history.enum ≠ [] := by
      intro h
      have hl : history.enum.length = history.length := List.enum_length
      rw [h, List.length_nil] at hl
      omega
    have := weighted_average_bounds history.enum i j lo hi hne (by
      intro entry hentry
      have hm : (entry.1, entry.2) ∈ history.enum := hentry
      exact hb entry.2 (List.getElem?_mem (List.mk_mem_enum_iff_getElem?.1 hm)))
    exact ⟨this.2.1, this.2.2⟩
  · intro k hk
    exact pow_lt_pow_right₀ (by norm_num) (by omega)
  · rw [hcast]
  · intro i
    rw [List.mem_filter, List.mem_range]
    simp only [decide_eq_true_eq]

/-- C25 (witness): two bands, three stored cycles after the push. -/
theorem calculatePhaseRelationships_smoothing_witness :
    3 ≤ 3 ∧ (1 : ℤ) ≤ 2 ∧
    ∀ i : ℕ, i ∈ (calculatePhaseRelationships
      { frequencyBands := 2, minFreq := 20, maxFreq := 20000, logScale := true,
        historyLength := 30, bands := generateFrequencyBands 2 20 20000,
        phaseData := [[0.9, 0.1], [0.1, 0.3]],
        phaseHistory := [[[0.9, 0.1], [0.1, 0.3]], [[0.9, 0.1], [0.1, 0.3]]],
        bandCoherence := [0, 0], problematicRegions := [], overallCoherence := 0 }
      3 [[0.9, 0.1], [0.1, 0.3]]).problematicRegions ↔
      (i < (2 : ℤ).toNat ∧
        cellAt (calculatePhaseRelationships
          { frequencyBands := 2, minFreq := 20, maxFreq := 20000, logScale := true,
            historyLength := 30, bands := generateFrequencyBands 2 20 20000,
            phaseData := [[0.9, 0.1], [0.1, 0.3]],
            phaseHistory := [[[0.9, 0.1], [0.1, 0.3]], [[0.9, 0.1], [0.1, 0.3]]],
            bandCoherence := [0, 0], problematicRegions := [], overallCoherence := 0 }
          3 [[0.9, 0.1], [0.1, 0.3]]).phaseData i i < 0.4) :=
  ⟨le_refl _, by norm_num,
    (calculatePhaseRelationships_smoothing
      { frequencyBands := 2, minFreq := 20, maxFreq := 20000, logScale := true,
        historyLength := 30, bands := generateFrequencyBands 2 20 20000,
        phaseData := [[0.9, 0.1], [0.1, 0.3]],
        phaseHistory := [[[0.9, 0.1], [0.1, 0.3]], [[0.9, 0.1], [0.1, 0.3]]],
        bandCoherence := [0, 0], problematicRegions := [], overallCoherence := 0 }
      3 [[0.9, 0.1], [0.1, 0.3]] (le_refl _) (by norm_num)
      (by simp [calculatePhaseRelationships, analyzePhaseIssues])).2.2.2⟩

end PhaseCoherenceHeatmap

namespace History

/-! ## First in, first out -/

/-- Pushing the items `xs` one by one on an empty bounded history of length
`historyLength >= 1` leaves the last `min(n, historyLength)` items, in arrival
order. -/
theorem foldl_pushShift_nil {α : Type} (xs : List α) (historyLength : ℤ)
    (hH : 1 ≤ historyLength) :
    xs.foldl (fun history x => pushShift history x historyLength) []
      = xs.drop (xs.length - historyLength.toNat) ∧
    ((xs.drop (xs.length - historyLength.toNat)).length : ℤ) ≤ historyLength ∧
    (xs.drop (xs.length - historyLength.toNat)).length = min xs.length historyLength.toNat := by
  have hHn : (historyLength.toNat : ℤ) = historyLength := Int.toNat_of_nonneg (by omega)
  refine ⟨?_, ?_, ?_⟩
  · induction xs using List.reverseRecOn with
    | nil => simp
    | append_singleton ys x ih =>
      rw [List.foldl_append, ih]
      simp only [List.foldl_cons, List.foldl_nil, pushShift, List.length_append,
        List.length_drop, List.length_cons, List.length_nil]
      by_cases hfull : historyLength.toNat ≤ ys.length
      · have hgt : ((ys.length - (ys.length - historyLength.toNat) + (0 + 1) : ℕ) : ℤ)
            > historyLength := by omega
        rw [if_pos hgt]
        have hne : ys.drop (ys.length - historyLength.toNat) ≠ [] := by
          intro h
          have := congrArg List.length h
          simp only [List.length_drop, List.length_nil] at this
          omega
        rw [List.tail_append_of_ne_nil hne, List.tail_drop]
        have e1 : ys.length + (0 + 1) - historyLength.toNat
            = ys.length - historyLength.toNat + 1 := by omega
        rw [e1, List.drop_append_of_le_length (by omega)]
      · have hle : ¬ ((ys.length - (ys.length - historyLength.toNat) + (0 + 1) : ℕ) : ℤ)
            > historyLength := by omega
        rw [if_neg hle]
        have e1 : ys.length - historyLength.toNat = 0 := by omega
        have e2 : ys.length + (0 + 1) - historyLength.toNat = 0 := by omega
        rw [e1, e2, List.drop_zero, List.drop_zero]
  · rw [List.length_drop]
    omega
  · rw [List.length_drop]
    omega

end History

namespace FrequencyRelationshipEcosystem

/-! ## The energy history -/

/-- What `analyzeRelationships` leaves untouched. -/
theorem analyzeRelationships_frame (s : State) :
    (analyzeRelationships s).energyHistory = s.energyHistory ∧
    (analyzeRelationships s).frequencyBands = s.frequencyBands ∧
    (analyzeRelationships s).historyLength = s.historyLength ∧
    (analyzeRelationships s).nodes = s.nodes := by
  unfold analyzeRelationships
  split_ifs
  · exact ⟨rfl, rfl, rfl, rfl⟩
  · exact ⟨rfl, rfl, rfl, rfl⟩

/-- One call of `updateMetrics`: the frame is pushed on the bounded history and every
node energy is smoothed. -/
theorem updateMetrics_pushes_frame (s : State) (L R : List (WithBot ℝ)) :
    (updateMetrics s L R).energyHistory
      = History.pushShift s.energyHistory (calculateBandEnergies s.frequencyBands L R)
          s.historyLength ∧
    (updateMetrics s L R).frequencyBands = s.frequencyBands ∧
    (updateMetrics s L R).historyLength = s.historyLength ∧
    (updateMetrics s L R).nodes.map (fun node => node.energy)
      = s.nodes.enum.map (fun p =>
          p.2.energy * 0.7 + (calculateBandEnergies s.frequencyBands L R).getD p.1 0 * 0.3) := by
  unfold updateMetrics
  simp only []
  obtain ⟨h1, h2, h3, h4⟩ := analyzeRelationships_frame
    { s with
      nodes := s.nodes.enum.map (fun p =>
        ({ energy := p.2.energy * 0.7
              + (calculateBandEnergies s.frequencyBands L R).getD p.1 0 * 0.3,
           size := s.nodeSizeBase + (p.2.energy * 0.7
              + (calculateBandEnergies s.frequencyBands L R).getD p.1 0 * 0.3)
              * s.nodeSizeScale } : Node))
      energyHistory := History.pushShift s.energyHistory
        (calculateBandEnergies s.frequencyBands L R) s.historyLength }
  rw [h1, h2, h3, h4]
  refine ⟨rfl, rfl, rfl, ?_⟩
  rw [List.map_map]
  rfl

/-- The energy history after a sequence of calls: the frames pushed one by one. -/
theorem updateAll_energyHistory (frames : List (List (WithBot ℝ) × List (WithBot ℝ))) :
    ∀ s : State,
    (updateAll s frames).frequencyBands = s.frequencyBands ∧
    (updateAll s frames).historyLength = s.historyLength ∧
    (updateAll s frames).energyHistory
      = (frames.map (fun frame => calculateBandEnergies s.frequencyBands frame.1 frame.2)).foldl
          (fun history x => History.pushShift history x s.historyLength) s.energyHistory := by
  induction frames with
  | nil => intro s; exact ⟨rfl, rfl, rfl⟩
  | cons f frames ih =>
    intro s
    obtain ⟨h1, h2, h3, _⟩ := updateMetrics_pushes_frame s f.1 f.2
    obtain ⟨i1, i2, i3⟩ := ih (updateMetrics s f.1 f.2)
    have hstep : updateAll s (f :: frames) = updateAll (updateMetrics s f.1 f.2) frames := rfl
    rw [hstep, i1, i2, i3, h1, h2, h3]
    exact ⟨rfl, rfl, rfl⟩

end FrequencyRelationshipEcosystem

namespace SpectralMigrationAnalyzer

/-! ## The spectrum history and the band histories -/

/-- The band energies depend on the state only through the band configuration. -/
theorem calculateBandEnergies_congr (s t : State) (h1 : t.frequencyBands = s.frequencyBands)
    (h2 : t.minFreq = s.minFreq) (h3 : t.maxFreq = s.maxFreq) (h4 : t.logScale = s.logScale)
    (L R : List (WithBot ℝ)) : calculateBandEnergies t L R = calculateBandEnergies s L R := by
  have hf : findBandIndex t = findBandIndex s := by
    funext f
    unfold findBandIndex
    rw [h1, h2, h3, h4]
  unfold calculateBandEnergies bandEnergySums
  rw [hf, h1]

/-- What `analyzeSpectralMigration` leaves untouched. -/
theorem analyzeSpectralMigration_frame (s : State) :
    (analyzeSpectralMigration s).historyLength = s.historyLength ∧
    (analyzeSpectralMigration s).frequencyBands = s.frequencyBands ∧
    (analyzeSpectralMigration s).minFreq = s.minFreq ∧
    (analyzeSpectralMigration s).maxFreq = s.maxFreq ∧
    (analyzeSpectralMigration s).logScale = s.logScale ∧
    (analyzeSpectralMigration s).spectrumHistory = s.spectrumHistory ∧
    (analyzeSpectralMigration s).bandCenters = s.bandCenters := by
  unfold analyzeSpectralMigration
  split_ifs
  · exact ⟨rfl, rfl, rfl, rfl, rfl, rfl, rfl⟩
  · exact ⟨rfl, rfl, rfl, rfl, rfl, rfl, rfl⟩

/-- One call of `updateMetrics`: the frame is pushed on the bounded spectrum history,
every band energy is smoothed and pushed on the bounded band history. -/
theorem updateMetrics_pushes_spectrum (s : State) (L R : List (WithBot ℝ)) :
    (updateMetrics s L R).historyLength = s.historyLength ∧
    (updateMetrics s L R).frequencyBands = s.frequencyBands ∧
    (updateMetrics s L R).minFreq = s.minFreq ∧
    (updateMetrics s L R).maxFreq = s.maxFreq ∧
    (updateMetrics s L R).logScale = s.logScale ∧
    (updateMetrics s L R).spectrumHistory
      = History.pushShift s.spectrumHistory (calculateBandEnergies s L R) s.historyLength ∧
    (updateMetrics s L R).bandCenters
      = s.bandCenters.enum.map (fun p =>
          ({ p.2 with
             energy := p.2.energy * 0.7 + (calculateBandEnergies s L R).getD p.1 0 * 0.3,
             history := History.pushShift p.2.history
               (p.2.energy * 0.7 + (calculateBandEnergies s L R).getD p.1 0 * 0.3)
               s.historyLength } : BandCenter)) := by
  unfold updateMetrics
  simp only []
  obtain ⟨h1, h2, h3, h4, h5, h6, h7⟩ := analyzeSpectralMigration_frame
    { s with
      spectrumHistory := History.pushShift s.spectrumHistory (calculateBandEnergies s L R)
        s.historyLength
      bandCenters := s.bandCenters.enum.map (fun p =>
          ({ p.2 with
             energy := p.2.energy * 0.7 + (calculateBandEnergies s L R).getD p.1 0 * 0.3,
             history := History.pushShift p.2.history
               (p.2.energy * 0.7 + (calculateBandEnergies s L R).getD p.1 0 * 0.3)
               s.historyLength } : BandCenter)) }
  rw [h1, h2, h3, h4, h5, h6, h7]
  exact ⟨rfl, rfl, rfl, rfl, rfl, rfl, rfl⟩

/-- A scan starts with its initial value. -/
theorem scanl_eq_cons_tail {β : Type} (f : ℝ → β → ℝ) (b : ℝ) (l : List β) :
    List.scanl f b l = b :: (List.scanl f b l).tail := by
  cases l with
  | nil => rfl
  | cons a l => rfl

/-- The state after a sequence of calls: the configuration is unchanged, the frames have
been pushed one by one on the spectrum history, and every band carries its smoothed
energy and the smoothed energies pushed one by one on its history. -/
theorem updateAll_histories (frames : List (List (WithBot ℝ) × List (WithBot ℝ))) :
    ∀ s : State,
    ((updateAll s frames).historyLength = s.historyLength ∧
      (updateAll s frames).frequencyBands = s.frequencyBands ∧
      (updateAll s frames).minFreq = s.minFreq ∧
      (updateAll s frames).maxFreq = s.maxFreq ∧
      (updateAll s frames).logScale = s.logScale) ∧
    (updateAll s frames).spectrumHistory
      = (frames.map (fun frame => calculateBandEnergies s frame.1 frame.2)).foldl
          (fun history x => History.pushShift history x s.historyLength) s.spectrumHistory ∧
    (updateAll s frames).bandCenters.length = s.bandCenters.length ∧
    ∀ (i : ℕ) (band : BandCenter), s.bandCenters[i]? = some band →
      ∃ band', (updateAll s frames).bandCenters[i]? = some band' ∧
        band'.energy = frames.foldl (fun e frame =>
          e * 0.7 + (calculateBandEnergies s frame.1 frame.2).getD i 0 * 0.3) band.energy ∧
        band'.history = ((frames.scanl (fun e frame =>
            e * 0.7 + (calculateBandEnergies s frame.1 frame.2).getD i 0 * 0.3)
            band.energy).tail).foldl
          (fun history x => History.pushShift history x s.historyLength) band.history := by
  induction frames with
  | nil =>
    intro s
    exact ⟨⟨rfl, rfl, rfl, rfl, rfl⟩, rfl, rfl, fun i band h => ⟨band, h, rfl, rfl⟩⟩
  | cons f frames ih =>
    intro s
    obtain ⟨h1, h2, h3, h4, h5, h6, h7⟩ := updateMetrics_pushes_spectrum s f.1 f.2
    obtain ⟨⟨i1, i2, i3, i4, i5⟩, i6, i7, i8⟩ := ih (updateMetrics s f.1 f.2)
    have hstep : updateAll s (f :: frames) = updateAll (updateMetrics s f.1 f.2) frames := rfl
    have hcongr : ∀ L R, calculateBandEnergies (updateMetrics s f.1 f.2) L R
        = calculateBandEnergies s L R :=
      calculateBandEnergies_congr s (updateMetrics s f.1 f.2) h2 h3 h4 h5
    rw [hstep]
    refine ⟨⟨i1.trans h1, i2.trans h2, i3.trans h3, i4.trans h4, i5.trans h5⟩, ?_, ?_, ?_⟩
    · rw [i6, h1, h6]
      simp only [hcongr, List.map_cons, List.foldl_cons]
    · rw [i7, h7]
      simp
    · intro i band hband
      have hb1 : (updateMetrics s f.1 f.2).bandCenters[i]?
          = some ({ band with
             energy := band.energy * 0.7 + (calculateBandEnergies s f.1 f.2).getD i 0 * 0.3,
             history := History.pushShift band.history
               (band.energy * 0.7 + (calculateBandEnergies s f.1 f.2).getD i 0 * 0.3)
               s.historyLength } : BandCenter) := by
        rw [h7, List.getElem?_map, List.getElem?_enum, hband]
        rfl
      obtain ⟨band', e1, e2, e3⟩ := i8 i _ hb1
      refine ⟨band', e1, ?_, ?_⟩
      · rw [e2]
        simp only [hcongr, List.foldl_cons]
      · rw [e3, h1]
        simp only [hcongr, List.scanl_cons, List.singleton_append, List.tail_cons]
        conv_rhs => rw [scanl_eq_cons_tail, List.foldl_cons]

end SpectralMigrationAnalyzer

namespace History

/-- C14: for every `historyLength >= 1` and every sequence of `n` calls of `updateMetrics`
with valid spectra, starting from empty histories: the `energyHistory` of
`FrequencyRelationshipEcosystem` never has more than `historyLength` entries and equals, in
arrival order, the band-energy frames of the last `min(n, historyLength)` calls; the
`spectrumHistory` of `SpectralMigrationAnalyzer` likewise; and the history of every band
of `SpectralMigrationAnalyzer` has at most `historyLength` entries and equals, in arrival
order, the last `min(n, historyLength)` smoothed energies of the band (the oldest entry
is evicted first). -/
theorem histories_first_in_first_out
    (eco : FrequencyRelationshipEcosystem.State) (mig : SpectralMigrationAnalyzer.State)
    (frames : List (List (WithBot ℝ) × List (WithBot ℝ)))
    (hvalid : ∀ frame ∈ frames, frame.1.length = frame.2.length)
    (hecoLength : 1 ≤ eco.historyLength) (hmigLength : 1 ≤ mig.historyLength)
    (hecoEmpty : eco.energyHistory = []) (hmigEmpty : mig.spectrumHistory = [])
    (hbandsEmpty : ∀ band ∈ mig.bandCenters, band.history = []) :
    ((((FrequencyRelationshipEcosystem.updateAll eco frames).energyHistory.length : ℤ)
        ≤ eco.historyLength) ∧
      (FrequencyRelationshipEcosystem.updateAll eco frames).energyHistory.length
        = min frames.length eco.historyLength.toNat ∧
      (FrequencyRelationshipEcosystem.updateAll eco frames).energyHistory
        = (frames.map (fun frame =>
            FrequencyRelationshipEcosystem.calculateBandEnergies eco.frequencyBands
              frame.1 frame.2)).drop (frames.length - eco.historyLength.toNat)) ∧
    ((((SpectralMigrationAnalyzer.updateAll mig frames).spectrumHistory.length : ℤ)
        ≤ mig.historyLength) ∧
      (SpectralMigrationAnalyzer.updateAll mig frames).spectrumHistory.length
        = min frames.length mig.historyLength.toNat ∧
      (SpectralMigrationAnalyzer.updateAll mig frames).spectrumHistory
        = (frames.map (fun frame =>
            SpectralMigrationAnalyzer.calculateBandEnergies mig frame.1 frame.2)).drop
              (frames.length - mig.historyLength.toNat)) ∧
    (∀ (i : ℕ) (band : SpectralMigrationAnalyzer.BandCenter),
      mig.bandCenters[i]? = some band →
      ∃ band', (SpectralMigrationAnalyzer.updateAll mig frames).bandCenters[i]? = some band' ∧
        ((band'.history.length : ℤ) ≤ mig.historyLength) ∧
        band'.history.length = min frames.length mig.historyLength.toNat ∧
        band'.history = ((frames.scanl (fun e frame =>
            e * 0.7 + (SpectralMigrationAnalyzer.calculateBandEnergies mig
              frame.1 frame.2).getD i 0 * 0.3) band.energy).tail).drop
          (frames.length - mig.historyLength.toNat)) := by
  have _ := hvalid
  refine ⟨?_, ?_, ?_⟩
  · obtain ⟨_, _, h3⟩ := FrequencyRelationshipEcosystem.updateAll_energyHistory frames eco
    obtain ⟨f1, f2, f3⟩ := foldl_pushShift_nil (frames.map (fun frame =>
      FrequencyRelationshipEcosystem.calculateBandEnergies eco.frequencyBands
        frame.1 frame.2)) eco.historyLength hecoLength
    rw [h3, hecoEmpty, f1]
    rw [List.length_map] at f1 f2 f3 ⊢
    exact ⟨f2, f3, rfl⟩
  · obtain ⟨_, h2, _, _⟩ := SpectralMigrationAnalyzer.updateAll_histories frames mig
    obtain ⟨f1, f2, f3⟩ := foldl_pushShift_nil (frames.map (fun frame =>
      SpectralMigrationAnalyzer.calculateBandEnergies mig frame.1 frame.2))
      mig.historyLength hmigLength
    rw [h2, hmigEmpty, f1]
    rw [List.length_map] at f1 f2 f3 ⊢
    exact ⟨f2, f3, rfl⟩
  · intro i band hband
    obtain ⟨_, _, _, h4⟩ := SpectralMigrationAnalyzer.updateAll_histories frames mig
    obtain ⟨band', e1, _, e3⟩ := h4 i band hband
    obtain ⟨f1, f2, f3⟩ := foldl_pushShift_nil ((frames.scanl (fun e frame =>
      e * 0.7 + (SpectralMigrationAnalyzer.calculateBandEnergies mig
        frame.1 frame.2).getD i 0 * 0.3) band.energy).tail) mig.historyLength hmigLength
    have hlen : ((frames.scanl (fun e frame =>
        e * 0.7 + (SpectralMigrationAnalyzer.calculateBandEnergies mig
          frame.1 frame.2).getD i 0 * 0.3) band.energy).tail).length = frames.length := by
      rw [List.length_tail, List.length_scanl]
      omega
    rw [hlen] at f1 f2 f3
    refine ⟨band', e1, ?_, ?_, ?_⟩
    · rw [e3, hbandsEmpty band (List.getElem?_mem hband), f1]; exact f2
    · rw [e3, hbandsEmpty band (List.getElem?_mem hband), f1]; exact f3
    · rw [e3, hbandsEmpty band (List.getElem?_mem hband), f1]

/-- C14 (witness): one two-bin frame at 0 dB, a two-band ecosystem and a one-band
migration analyzer, both with `historyLength = 30`. -/
theorem histories_first_in_first_out_witness :
    (1 : ℤ) ≤ 30 ∧
    (∀ frame ∈ [([((0 : ℝ) : WithBot ℝ), ((0 : ℝ) : WithBot ℝ)],
        [((0 : ℝ) : WithBot ℝ), ((0 : ℝ) : WithBot ℝ)])], frame.1.length = frame.2.length) ∧
    (((FrequencyRelationshipEcosystem.updateAll
        { frequencyBands := [⟨20, 100, 1000⟩, ⟨1000, 5000, 20000⟩],
          interactionThreshold := 0.2, nodeSizeBase := 5, nodeSizeScale := 15,
          nodes := [⟨0, 5⟩, ⟨0, 5⟩], energyHistory := [], historyLength := 30,
          harmonicRelationships := [], conflictingPairs := [], dominantFrequencies := [] }
        [([((0 : ℝ) : WithBot ℝ), ((0 : ℝ) : WithBot ℝ)],
          [((0 : ℝ) : WithBot ℝ), ((0 : ℝ) : WithBot ℝ)])]).energyHistory.length : ℤ) ≤ 30) :=
  ⟨by norm_num, by simp,
    (histories_first_in_first_out
      { frequencyBands := [⟨20, 100, 1000⟩, ⟨1000, 5000, 20000⟩],
        interactionThreshold := 0.2, nodeSizeBase := 5, nodeSizeScale := 15,
        nodes := [⟨0, 5⟩, ⟨0, 5⟩], energyHistory := [], historyLength := 30,
        harmonicRelationships := [], conflictingPairs := [], dominantFrequencies := [] }
      { historyLength := 30, frequencyBands := 1, minFreq := 20, maxFreq := 20000,
        logScale := true, spectrumHistory := [],
        bandCenters := [⟨20, 0, 0, []⟩],
        emergingFrequencies := [], fadingFrequencies := [], stableFrequencies := [],
        spectralFluidity := 0, spectralDensity := 0, spectralCenterOfMass := 0,
        spectralEntropyHistory := [] }
      [([((0 : ℝ) : WithBot ℝ), ((0 : ℝ) : WithBot ℝ)],
        [((0 : ℝ) : WithBot ℝ), ((0 : ℝ) : WithBot ℝ)])]
      (by simp) (by norm_num) (by norm_num) rfl rfl (by simp)).1.1⟩

end History

namespace History

/-- A bounded push adds no value other than the pushed one. -/
theorem mem_pushShift {α : Type} (history : List α) (x y : α) (historyLength : ℤ)
    (h : y ∈ pushShift history x historyLength) : y ∈ history ∨ y = x := by
  unfold pushShift at h
  simp only [] at h
  split_ifs at h
  · have := List.mem_of_mem_tail h
    simpa using this
  · simpa using h

end History

namespace BandEnergy

/-! ## Smoothed energies stay in the unit interval -/

/-- An entry `bandEnergies[i]` of a list of values in [0, 1] (0 beyond its end) lies in
[0, 1]. -/
theorem getD_unit (l : List ℝ) (i : ℕ) (h : ∀ e ∈ l, 0 ≤ e ∧ e ≤ 1) :
    0 ≤ l.getD i 0 ∧ l.getD i 0 ≤ 1 := by
  rw [List.getD_eq_getElem?_getD]
  cases hi : l[i]? with
  | none => simp
  | some e => simpa using h e (List.getElem?_mem hi)

/-- A convex combination of two values of the unit interval lies in the unit interval. -/
theorem smooth_unit (e b w v : ℝ) (hw : 0 ≤ w) (hv : 0 ≤ v) (hwv : w + v = 1)
    (he : 0 ≤ e ∧ e ≤ 1) (hb : 0 ≤ b ∧ b ≤ 1) :
    0 ≤ e * w + b * v ∧ e * w + b * v ≤ 1 := by
  constructor
  · exact add_nonneg (mul_nonneg he.1 hw) (mul_nonneg hb.1 hv)
  · nlinarith [mul_le_mul_of_nonneg_right he.2 hw, mul_le_mul_of_nonneg_right hb.2 hv]

end BandEnergy

namespace FrequencyRelationshipEcosystem

/-- The band energies of a frame lie in [0, 1]. -/
theorem ecosystem_bandEnergies_unit (frequencyBands : List Band) (L R : List (WithBot ℝ)) :
    ∀ e ∈ calculateBandEnergies frequencyBands L R, 0 ≤ e ∧ e ≤ 1 := by
  obtain ⟨_, hnn⟩ := BandEnergy.accumulateBins_spec frequencyBands.length
    (findBandIndex frequencyBands) (fun bandIndex => decide (bandIndex ≥ 0)) L R
  exact (BandEnergy.normalizeByMax_spec (bandEnergySums frequencyBands L R) hnn).2.1

/-- The unit-interval invariant of the ecosystem is preserved by every sequence of
calls. -/
theorem ecosystem_updateAll_unit (frames : List (List (WithBot ℝ) × List (WithBot ℝ))) :
    ∀ s : State,
    (∀ node ∈ s.nodes, 0 ≤ node.energy ∧ node.energy ≤ 1) →
    (∀ frame ∈ s.energyHistory, ∀ e ∈ frame, 0 ≤ e ∧ e ≤ 1) →
    (∀ node ∈ (updateAll s frames).nodes, 0 ≤ node.energy ∧ node.energy ≤ 1) ∧
    (∀ frame ∈ (updateAll s frames).energyHistory, ∀ e ∈ frame, 0 ≤ e ∧ e ≤ 1) := by
  induction frames with
  | nil => intro s h1 h2; exact ⟨h1, h2⟩
  | cons f frames ih =>
    intro s h1 h2
    have hstep : updateAll s (f :: frames) = updateAll (updateMetrics s f.1 f.2) frames := rfl
    rw [hstep]
    obtain ⟨u1, _, _, u4⟩ := updateMetrics_pushes_frame s f.1 f.2
    apply ih
    · intro node hnode
      have hm : node.energy ∈ (updateMetrics s f.1 f.2).nodes.map (fun node => node.energy) :=
        List.mem_map.2 ⟨node, hnode, rfl⟩
      rw [u4] at hm
      obtain ⟨p, hp, hpe⟩ := List.mem_map.1 hm
      have hp2 : p.2 ∈ s.nodes := by
        have hp' : (p.1, p.2) ∈ s.nodes.enum := hp
        exact List.getElem?_mem (List.mk_mem_enum_iff_getElem?.1 hp')
      rw [← hpe]
      exact BandEnergy.smooth_unit _ _ 0.7 0.3 (by norm_num) (by norm_num) (by norm_num)
        (h1 p.2 hp2) (BandEnergy.getD_unit _ _ (ecosystem_bandEnergies_unit _ _ _))
    · intro frame hframe
      rw [u1] at hframe
      rcases History.mem_pushShift _ _ _ _ hframe with h | h
      · exact h2 frame h
      · rw [h]; exact ecosystem_bandEnergies_unit _ _ _

end FrequencyRelationshipEcosystem

namespace SpectralMigrationAnalyzer

/-- The band energies of a frame lie in [0, 1]. -/
theorem migration_bandEnergies_unit (s : State) (L R : List (WithBot ℝ)) :
    ∀ e ∈ calculateBandEnergies s L R, 0 ≤ e ∧ e ≤ 1 := by
  obtain ⟨_, hnn⟩ := BandEnergy.accumulateBins_spec s.frequencyBands.toNat
    (findBandIndex s) (fun bandIndex => decide (bandIndex ≥ 0)) L R
  exact (BandEnergy.normalizeByMaxFloor_spec (bandEnergySums s L R) hnn).2.1

/-- The unit-interval invariant of the migration analyzer is preserved by every
sequence of calls. -/
theorem migration_updateAll_unit (frames : List (List (WithBot ℝ) × List (WithBot ℝ))) :
    ∀ s : State,
    (∀ band ∈ s.bandCenters, (0 ≤ band.energy ∧ band.energy ≤ 1) ∧
      ∀ e ∈ band.history, 0 ≤ e ∧ e ≤ 1) →
    (∀ frame ∈ s.spectrumHistory, ∀ e ∈ frame, 0 ≤ e ∧ e ≤ 1) →
    (∀ band ∈ (updateAll s frames).bandCenters, (0 ≤ band.energy ∧ band.energy ≤ 1) ∧
      ∀ e ∈ band.history, 0 ≤ e ∧ e ≤ 1) ∧
    (∀ frame ∈ (updateAll s frames).spectrumHistory, ∀ e ∈ frame, 0 ≤ e ∧ e ≤ 1) := by
  induction frames with
  | nil => intro s h1 h2; exact ⟨h1, h2⟩
  | cons f frames ih =>
    intro s h1 h2
    have hstep : updateAll s (f :: frames) = updateAll (updateMetrics s f.1 f.2) frames := rfl
    rw [hstep]
    obtain ⟨_, _, _, _, _, u6, u7⟩ := updateMetrics_pushes_spectrum s f.1 f.2
    apply ih
    · intro band hband
      rw [u7] at hband
      obtain ⟨p, hp, rfl⟩ := List.mem_map.1 hband
      have hp2 : p.2 ∈ s.bandCenters := by
        have hp' : (p.1, p.2) ∈ s.bandCenters.enum := hp
        exact List.getElem?_mem (List.mk_mem_enum_iff_getElem?.1 hp')
      have hen := BandEnergy.smooth_unit p.2.energy ((calculateBandEnergies s f.1 f.2).getD p.1 0)
        0.7 0.3 (by norm_num) (by norm_num) (by norm_num)
        (h1 p.2 hp2).1 (BandEnergy.getD_unit _ _ (migration_bandEnergies_unit _ _ _))
      refine ⟨hen, ?_⟩
      intro e he
      rcases History.mem_pushShift _ _ _ _ he with h | h
      · exact (h1 p.2 hp2).2 e h
      · rw [h]; exact hen
    · intro frame hframe
      rw [u6] at hframe
      rcases History.mem_pushShift _ _ _ _ hframe with h | h
      · exact h2 frame h
      · rw [h]; exact migration_bandEnergies_unit _ _ _

end SpectralMigrationAnalyzer

namespace EmotionalResonanceTranslator

/-- The band energies of a frame lie in [0, 1]. -/
theorem emotional_bandEnergies_unit (bands : List FrequencyBand) (L R : List (WithBot ℝ)) :
    ∀ e ∈ calculateBandEnergies bands L R, 0 ≤ e ∧ e ≤ 1 := by
  obtain ⟨_, hnn⟩ := BandEnergy.accumulateBins_spec bands.length
    (findBandForFrequency bands) (fun band => decide (band ≠ -1)) L R
  exact (BandEnergy.normalizeByMaxFloor_spec (bandEnergySums bands L R) hnn).2.1

/-- The unit-interval invariant of the emotional translator is preserved by every
sequence of calls. -/
theorem emotional_updateAll_unit (frames : List (List (WithBot ℝ) × List (WithBot ℝ))) :
    ∀ s : State, (∀ e ∈ s.energy, 0 ≤ e ∧ e ≤ 1) →
    ∀ e ∈ (updateAll s frames).energy, 0 ≤ e ∧ e ≤ 1 := by
  induction frames with
  | nil => intro s h; exact h
  | cons f frames ih =>
    intro s h
    have hstep : updateAll s (f :: frames) = updateAll (updateMetrics s f.1 f.2) frames := rfl
    rw [hstep]
    apply ih
    intro e he
    unfold updateMetrics at he
    simp only [] at he
    obtain ⟨p, hp, rfl⟩ := List.mem_map.1 he
    have hp2 : p.2 ∈ s.energy := by
      have hp' : (p.1, p.2) ∈ s.energy.enum := hp
      exact List.getElem?_mem (List.mk_mem_enum_iff_getElem?.1 hp')
    exact BandEnergy.smooth_unit _ _ 0.8 0.2 (by norm_num) (by norm_num) (by norm_num)
      (h p.2 hp2) (BandEnergy.getD_unit _ _ (emotional_bandEnergies_unit _ _ _))

end EmotionalResonanceTranslator

namespace BandEnergy

/-- C15: starting from the initial state (all band energies 0, empty histories), after
any sequence of `updateMetrics` calls with valid dB spectra every smoothed band energy
(`energy = 0.7 * energy + 0.3 * newEnergy` in the ecosystem and in the migration
analyzer, `0.8 / 0.2` in the emotional translator) and every value stored in a history
(the frames of `energyHistory` and of `spectrumHistory`, the band histories of the
migration analyzer) lies
in [0, 1]. -/
theorem smoothed_energies_in_unit_interval
    (eco : FrequencyRelationshipEcosystem.State) (mig : SpectralMigrationAnalyzer.State)
    (emo : EmotionalResonanceTranslator.State)
    (frames : List (List (WithBot ℝ) × List (WithBot ℝ)))
    (hvalid : ∀ frame ∈ frames, frame.1.length = frame.2.length)
    (hecoZero : ∀ node ∈ eco.nodes, node.energy = 0) (hecoEmpty : eco.energyHistory = [])
    (hmigZero : ∀ band ∈ mig.bandCenters, band.energy = 0 ∧ band.history = [])
    (hmigEmpty : mig.spectrumHistory = [])
    (hemoZero : ∀ e ∈ emo.energy, e = 0) :
    ((∀ node ∈ (FrequencyRelationshipEcosystem.updateAll eco frames).nodes,
        0 ≤ node.energy ∧ node.energy ≤ 1) ∧
      (∀ frame ∈ (FrequencyRelationshipEcosystem.updateAll eco frames).energyHistory,
        ∀ e ∈ frame, 0 ≤ e ∧ e ≤ 1)) ∧
    ((∀ band ∈ (SpectralMigrationAnalyzer.updateAll mig frames).bandCenters,
        (0 ≤ band.energy ∧ band.energy ≤ 1) ∧ ∀ e ∈ band.history, 0 ≤ e ∧ e ≤ 1) ∧
      (∀ frame ∈ (SpectralMigrationAnalyzer.updateAll mig frames).spectrumHistory,
        ∀ e ∈ frame, 0 ≤ e ∧ e ≤ 1)) ∧
    (∀ e ∈ (EmotionalResonanceTranslator.updateAll emo frames).energy, 0 ≤ e ∧ e ≤ 1) ∧
    (∀ L R : List (WithBot ℝ),
      (FrequencyRelationshipEcosystem.updateMetrics eco L R).nodes.map (fun node => node.energy)
        = eco.nodes.enum.map (fun p => p.2.energy * 0.7
            + (FrequencyRelationshipEcosystem.calculateBandEnergies eco.frequencyBands
                L R).getD p.1 0 * 0.3) ∧
      (SpectralMigrationAnalyzer.updateMetrics mig L R).bandCenters.map (fun band => band.energy)
        = mig.bandCenters.enum.map (fun p => p.2.energy * 0.7
            + (SpectralMigrationAnalyzer.calculateBandEnergies mig L R).getD p.1 0 * 0.3) ∧
      (EmotionalResonanceTranslator.updateMetrics emo L R).energy
        = emo.energy.enum.map (fun p => p.2 * 0.8
            + (EmotionalResonanceTranslator.calculateBandEnergies emo.frequencyBands
                L R).getD p.1 0 * 0.2)) := by
  have _ := hvalid
  refine ⟨?_, ?_, ?_, ?_⟩
  · apply FrequencyRelationshipEcosystem.ecosystem_updateAll_unit
    · intro node hnode
      rw [hecoZero node hnode]; norm_num
    · intro frame hframe
      rw [hecoEmpty] at hframe
      simp at hframe
  · apply SpectralMigrationAnalyzer.migration_updateAll_unit
    · intro band hband
      rw [(hmigZero band hband).1, (hmigZero band hband).2]
      exact ⟨by norm_num, by simp⟩
    · intro frame hframe
      rw [hmigEmpty] at hframe
      simp at hframe
  · apply EmotionalResonanceTranslator.emotional_updateAll_unit
    intro e he
    rw [hemoZero e he]; norm_num
  · intro L R
    refine ⟨(FrequencyRelationshipEcosystem.updateMetrics_pushes_frame eco L R).2.2.2, ?_, rfl⟩
    rw [(SpectralMigrationAnalyzer.updateMetrics_pushes_spectrum mig L R).2.2.2.2.2.2,
      List.map_map]
    rfl

/-- C15 (witness): one two-bin frame at 0 dB on a two-band ecosystem, a one-band
migration analyzer and a one-band emotional translator, all in their initial state. -/
theorem smoothed_energies_in_unit_interval_witness :
    (∀ frame ∈ [([((0 : ℝ) : WithBot ℝ), ((0 : ℝ) : WithBot ℝ)],
        [((0 : ℝ) : WithBot ℝ), ((0 : ℝ) : WithBot ℝ)])], frame.1.length = frame.2.length) ∧
    (∀ e ∈ (EmotionalResonanceTranslator.updateAll
        { frequencyBands := EmotionalResonanceTranslator.generateFrequencyBands 1,
          energy := [0] }
        [([((0 : ℝ) : WithBot ℝ), ((0 : ℝ) : WithBot ℝ)],
          [((0 : ℝ) : WithBot ℝ), ((0 : ℝ) : WithBot ℝ)])]).energy, 0 ≤ e ∧ e ≤ 1) :=
  ⟨by simp,
    (smoothed_energies_in_unit_interval
      { frequencyBands := [⟨20, 100, 1000⟩, ⟨1000, 5000, 20000⟩],
        interactionThreshold := 0.2, nodeSizeBase := 5, nodeSizeScale := 15,
        nodes := [⟨0, 5⟩, ⟨0, 5⟩], energyHistory := [], historyLength := 30,
        harmonicRelationships := [], conflictingPairs := [], dominantFrequencies := [] }
      { historyLength := 30, frequencyBands := 1, minFreq := 20, maxFreq := 20000,
        logScale := true, spectrumHistory := [],
        bandCenters := [⟨20, 0, 0, []⟩],
        emergingFrequencies := [], fadingFrequencies := [], stableFrequencies := [],
        spectralFluidity := 0, spectralDensity := 0, spectralCenterOfMass := 0,
        spectralEntropyHistory := [] }
      { frequencyBands := EmotionalResonanceTranslator.generateFrequencyBands 1,
        energy := [0] }
      [([((0 : ℝ) : WithBot ℝ), ((0 : ℝ) : WithBot ℝ)],
        [((0 : ℝ) : WithBot ℝ), ((0 : ℝ) : WithBot ℝ)])]
      (by simp) (by simp) rfl (by simp) rfl (by simp)).2.2.1⟩

end BandEnergy
